import Mathlib

/-!
# digwis-panel: request dispatch and access control

A shallow embedding of the router (`internal/router/router.go`), the
authentication manager (`internal/auth/auth.go`), the session store
(`internal/session/session.go`), the middleware pipeline
(`internal/middleware/middleware.go`, `internal/server/server.go`) and the
login handlers (`internal/handlers/handlers.go`), followed by the properties
proved about them.

Conventions of the embedding:
* a Go `map[string]T` is an association list searched from the front; writing
  a key replaces its first entry or appends a new one; a nil map is `[]`;
* a Go value that may be nil (`HandlerFunc`, `*node`) is an `Option`;
* pointer mutation of the route tree is functional update of an immutable tree;
* `time.Time` and `time.Duration` are integers (nanoseconds), the zero
  `time.Time` is `0`;
* a panic is the `error` case of `Except`.
-/

/-! ## Go maps as association lists -/

/-- Map write `m[k] = v`: replace the first entry for `k`, or append one. -/
def mapSet {β : Type} : List (String × β) → String → β → List (String × β)
  | [], k, v => [(k, v)]
  | (k0, v0) :: rest, k, v =>
    if k0 = k then (k, v) :: rest else (k0, v0) :: mapSet rest k v

/-- Map read `m[k]`. -/
def mapGet {β : Type} : List (String × β) → String → Option β
  | [], _ => none
  | (k0, v0) :: rest, k => if k0 = k then some v0 else mapGet rest k

/-- Map delete `delete(m, k)`: no entry for `k` remains. -/
def mapDelete {β : Type} : List (String × β) → String → List (String × β)
  | [], _ => []
  | (k0, v0) :: rest, k =>
    if k0 = k then mapDelete rest k else (k0, v0) :: mapDelete rest k

namespace router

/-- Path parameters, `map[string]string`. -/
abbrev Params := List (String × String)

/-! ## Strings -/

/-- Go `strings.Split(s, "/")`: the pieces of `s` between slashes (always at
least one piece). -/
def stringsSplit (s : String) : List String :=
  (s.data.splitOn '/').map String.mk

/-- Go `strings.HasPrefix(segment, ":")`. -/
def startsWithColon (segment : String) : Bool :=
  match segment.data with
  | ':' :: _ => true
  | _ => false

/-- Go `segment[1:]` for a segment that starts with the one-byte `:`. -/
def dropFirst (segment : String) : String :=
  String.mk (segment.data.drop 1)

/-! ## The route tree -/

/-- A node of the route tree (`type node struct`). -/
inductive node (H : Type) where
  | mk (path : String) (handler : Option H) (children : List (String × node H))
      (param : Option (node H)) (wildcard : Option (node H))
      (isParam : Bool) (isWild : Bool) : node H

namespace node
variable {H : Type}

/-- Field `path`. -/
def path : node H → String
  | mk p _ _ _ _ _ _ => p

/-- Field `handler`. -/
def handler : node H → Option H
  | mk _ h _ _ _ _ _ => h

/-- Field `children`. -/
def children : node H → List (String × node H)
  | mk _ _ c _ _ _ _ => c

/-- Field `param`. -/
def param : node H → Option (node H)
  | mk _ _ _ p _ _ _ => p

/-- Field `wildcard`. -/
def wildcard : node H → Option (node H)
  | mk _ _ _ _ w _ _ => w

/-- Field `isParam`. -/
def isParam : node H → Bool
  | mk _ _ _ _ _ b _ => b

/-- Field `isWild`. -/
def isWild : node H → Bool
  | mk _ _ _ _ _ _ b => b

/-- The zero value `&node{}`. -/
def empty : node H := mk "" none [] none none false false

/-- Assignment `n.handler = h`. -/
def setHandler : node H → Option H → node H
  | mk p _ c pa w ip iw, h => mk p h c pa w ip iw

/-- Assignment `n.children[k] = c`. -/
def setChild : node H → String → node H → node H
  | mk p h c pa w ip iw, k, ch => mk p h (mapSet c k ch) pa w ip iw

/-- Assignment `n.param = c`. -/
def setParam : node H → node H → node H
  | mk p h c _ w ip iw, pn => mk p h c (some pn) w ip iw

/-- Assignment `n.wildcard = c`. -/
def setWildcard : node H → node H → node H
  | mk p h c pa _ ip iw, wn => mk p h c pa (some wn) ip iw

end node

/-- Router state (`type Router struct`): one tree per method, the global
middleware in the order added, and the NotFound handler. -/
structure Router (H : Type) where
  trees : List (String × node H)
  middleware : List (H → H)
  NotFound : H

variable {H : Type}

/-- The loop of `addRoute` over the pattern's segments: empty segments are
skipped, a segment starting with `:` descends into the (created or reused)
parameter child, `*` into the wildcard child, any other segment into the
static child of that name; the node reached last receives the handler. -/
def addSegments (current : node H) : List String → Option H → node H
  | [], handler => current.setHandler handler
  | segment :: rest, handler =>
    if segment = "" then addSegments current rest handler
    else if startsWithColon segment then
      let p := match current.param with
        | some p => p
        | none => node.mk (dropFirst segment) none [] none none true false
      current.setParam (addSegments p rest handler)
    else if segment = "*" then
      let w := match current.wildcard with
        | some w => w
        | none => node.mk "*" none [] none none false true
      current.setWildcard (addSegments w rest handler)
    else
      let c := match mapGet current.children segment with
        | some c => c
        | none => node.mk segment none [] none none false false
      current.setChild segment (addSegments c rest handler)

/-- `Router.addRoute`: the root path is special-cased onto the root node. -/
def addRoute (root : node H) (path : String) (handler : Option H) : node H :=
  if path = "/" then root.setHandler handler
  else addSegments root ((stringsSplit path).drop 1) handler

/-- `Router.Handle`: panics unless the path starts with `/` (indexing
`path[0]` of the empty string is a run-time panic of its own). -/
def Router.Handle (r : Router H) (method path : String) (handler : Option H) :
    Except String (Router H) :=
  match path.data with
  | [] => .error "index out of range [0] with length 0"
  | c :: _ =>
    if c ≠ '/' then .error "路径必须以 '/' 开头"
    else
      match mapGet r.trees method with
      | some root => .ok { r with trees := mapSet r.trees method (addRoute root path handler) }
      | none => .ok { r with trees := mapSet r.trees method (addRoute node.empty path handler) }

/-- `Router.searchRoute`. -/
def searchRoute (n : node H) : List String → Params → Option H × Params
  | [], params => (n.handler, params)
  | seg0 :: rest, params =>
    match hf : (seg0 :: rest).filter (fun seg => seg ≠ "") with
    | [] => (n.handler, params)
    | segment :: remaining =>
      have : remaining.length < (seg0 :: rest).length := by
        have h1 := List.length_filter_le (fun seg => decide (seg ≠ "")) (seg0 :: rest)
        rw [hf] at h1
        simp only [List.length_cons] at h1
        simp only [List.length_cons]
        omega
      -- 1. exact match
      let viaStatic : Option H × Params :=
        match mapGet n.children segment with
        | some child => searchRoute child remaining params
        | none => (none, [])
      match viaStatic with
      | (some h, p) => (some h, p)
      | (none, _) =>
        -- 2. parameter match
        let viaParam : Option H × Params :=
          match n.param with
          | some pn => searchRoute pn remaining (mapSet params pn.path segment)
          | none => (none, [])
        match viaParam with
        | (some h, p) => (some h, p)
        | (none, _) =>
          -- 3. wildcard match
          match n.wildcard with
          | some w => (w.handler, params)
          | none => (none, [])
termination_by segments _ => segments.length

/-- `Router.findRoute`. -/
def Router.findRoute (r : Router H) (method path : String) : Option H × Params :=
  match mapGet r.trees method with
  | none => (none, [])
  | some root => searchRoute root ((stringsSplit path).drop 1) []

/-- `router.New`, given the default NotFound handler (`http.NotFound`). -/
def New (notFound : H) : Router H :=
  { trees := [], middleware := [], NotFound := notFound }

/-- `Router.Use`. -/
def Router.Use (r : Router H) (mw : H → H) : Router H :=
  { r with middleware := r.middleware ++ [mw] }

/-- A registration request: the arguments of one `Handle` call. -/
structure Registration (H : Type) where
  method : String
  path : String
  handler : Option H

/-- A sequence of `Handle` calls, stopping at the first panic. -/
def Router.registerAll (r : Router H) : List (Registration H) → Except String (Router H)
  | [] => .ok r
  | g :: rest =>
    match r.Handle g.method g.path g.handler with
    | .ok r1 => r1.registerAll rest
    | .error e => .error e

/-- The non-empty segments of a pattern or request path after the leading
piece, as both `addRoute` and `searchRoute` consume them. -/
def pathSegments (path : String) : List String :=
  ((stringsSplit path).drop 1).filter (fun seg => seg ≠ "")

/-- A static segment: it neither starts with `:` nor equals `*`. -/
def isStaticSegment (segment : String) : Bool :=
  !startsWithColon segment && segment != "*"

/-- One level of `searchRoute` after the empty segments are filtered out:
static child, then parameter child, then wildcard. -/
def searchStep (n : node H) (segment : String) (remaining : List String) (params : Params) :
    Option H × Params :=
  match (match mapGet n.children segment with
      | some child => searchRoute child remaining params
      | none => ((none, []) : Option H × Params)) with
  | (some h, p) => (some h, p)
  | (none, _) =>
    match (match n.param with
        | some pn => searchRoute pn remaining (mapSet params pn.path segment)
        | none => ((none, []) : Option H × Params)) with
    | (some h, p) => (some h, p)
    | (none, _) =>
      match n.wildcard with
      | some w => (w.handler, params)
      | none => (none, [])

/-- The handler stored at the node reached from `n` through static children
only, along the given segments (`none` when the chain does not exist). -/
def staticHandler (n : node H) : List String → Option H
  | [] => n.handler
  | s :: rest =>
    match mapGet n.children s with
    | some c => staticHandler c rest
    | none => none

/-- The handler stored for method `m` at the static chain `ss` of the router. -/
def Router.staticRoute (r : Router H) (m : String) (ss : List String) : Option H :=
  match mapGet r.trees m with
  | none => none
  | some root => staticHandler root ss

end router

/-! ## Requests and dispatch -/

namespace router

/-- The parts of `url.URL` the code reads or writes. The query string is held
in parsed form (`url.Values`); `RawQuery` is its encoding. -/
structure URL where
  Path : String
  Query : List (String × List String)
deriving DecidableEq, Repr

/-- The parts of `http.Request` the code reads or writes. `Header` holds the
canonical header names, `Cookies` the parsed request cookies. -/
structure Request where
  Method : String
  URL : URL
  Header : List (String × String)
  RemoteAddr : String
  Cookies : List (String × String)
deriving DecidableEq, Repr

/-- `url.Values.Set`: the key gets exactly the one value. -/
def querySet (q : List (String × List String)) (key value : String) :
    List (String × List String) :=
  mapSet q key [value]

/-- `HandlerFunc` is `func(http.ResponseWriter, *http.Request)`; its meaning
is what it does on a request, a value of `β`. -/
abbrev HandlerFunc (β : Type) := Request → β

/-- `MiddlewareFunc`. -/
abbrev MiddlewareFunc (β : Type) := HandlerFunc β → HandlerFunc β

/-- The loop of `ServeHTTP` and of `Group.Handle` that wraps a handler in a
list of middleware, from the last one to the first. -/
def applyMiddleware {β : Type} (middleware : List (MiddlewareFunc β))
    (handler : HandlerFunc β) : HandlerFunc β :=
  middleware.foldr (fun mw finalHandler => mw finalHandler) handler

/-- The request as `ServeHTTP` hands it on: path parameters, when there are
any, are written into the query. -/
def withParams (req : Request) (params : Params) : Request :=
  if params.length > 0 then
    { req with URL := { req.URL with
        Query := params.foldl (fun q kv => querySet q kv.1 kv.2) req.URL.Query } }
  else req

/-- `Router.ServeHTTP`. -/
def Router.ServeHTTP {β : Type} (r : Router (HandlerFunc β)) (req : Request) : β :=
  match r.findRoute req.Method req.URL.Path with
  | (none, _) => r.NotFound req
  | (some handler, params) => applyMiddleware r.middleware handler (withParams req params)

/-- The path `/s1/s2/.../sk` made of the given segments. -/
def joinPath : List String → String
  | [] => ""
  | s :: rest => "/" ++ s ++ joinPath rest

/-- A segment of a request path: not empty and without a slash. -/
def isSegment (s : String) : Prop := s ≠ "" ∧ '/' ∉ s.data

/-- The first non-empty segment of a pattern, if any. -/
def firstSegment (path : String) : Option String :=
  (pathSegments path).head?

end router

namespace router
variable {H : Type}

/-- The static alternative yields no handler for the remaining path. -/
def staticFails (n : node H) (segment : String) (remaining : List String) (params : Params) :
    Prop :=
  ∀ c, mapGet n.children segment = some c → (searchRoute c remaining params).1 = none

/-- The parameter alternative yields no handler for the remaining path. -/
def paramFails (n : node H) (segment : String) (remaining : List String) (params : Params) :
    Prop :=
  ∀ pn, n.param = some pn →
    (searchRoute pn remaining (mapSet params pn.path segment)).1 = none

/-- The static child of the root of method `m` under the name `seg`. -/
def Router.childAt (r : Router H) (m seg : String) : Option (node H) :=
  match mapGet r.trees m with
  | none => none
  | some root => mapGet root.children seg

end router

/-! ## The authentication manager (`internal/auth/auth.go`) -/

namespace auth

/-- `config.AuthConfig`. -/
structure AuthConfig where
  SessionTimeout : Int
  MaxLoginAttempts : Int
  LockoutDuration : Int
  SecretKey : String
deriving DecidableEq, Repr

/-- `auth.Session`, the authenticated session. -/
structure Session where
  ID : String
  Username : String
  UserID : String
  LoginTime : Int
  LastSeen : Int
  IPAddress : String
deriving DecidableEq, Repr

/-- `auth.LoginAttempts`. -/
structure LoginAttempts where
  Count : Int
  LastTry : Int
  LockedUntil : Int
deriving DecidableEq, Repr

/-- `auth.User`. -/
structure User where
  Username : String
  UID : String
  GID : String
  Home : String
  Shell : String
  Groups : List String
  IsAdmin : Bool
deriving DecidableEq, Repr

/-- `auth.Manager` (the mutex apart). -/
structure Manager where
  config : AuthConfig
  sessions : List (String × Session)
  attempts : List (String × LoginAttempts)
deriving DecidableEq, Repr

/-- `auth.NewManager`. -/
def NewManager (cfg : AuthConfig) : Manager :=
  { config := cfg, sessions := [], attempts := [] }

/-- `os/user.User`, as returned by `user.Lookup`. -/
structure OSUser where
  Uid : String
  Gid : String
  Username : String
  Name : String
  HomeDir : String
deriving DecidableEq, Repr

/-- The host the manager asks: `user.Lookup` (`none` is its error), the
output of the `groups` command (`none` when it fails) and whether
`su -c "exit 0" username` succeeds when fed the password. -/
structure Host where
  lookup : String → Option OSUser
  groups : String → Option String
  su : String → String → Bool

/-- A call that leaves the process. -/
inductive ExternalCall where
  | lookup (username : String)
  | groups (username : String)
  | su (username : String)
deriving DecidableEq, Repr

/-- Go `unicode.IsSpace`. -/
def isSpace (c : Char) : Bool :=
  [0x09, 0x0A, 0x0B, 0x0C, 0x0D, 0x20, 0x85, 0xA0, 0x1680, 0x2028, 0x2029, 0x202F, 0x205F,
    0x3000].contains c.toNat || (0x2000 ≤ c.toNat && c.toNat ≤ 0x200A)

/-- Go `strings.TrimSpace`, on the characters of the string. -/
def trimSpace (cs : List Char) : List Char :=
  ((cs.dropWhile isSpace).reverse.dropWhile isSpace).reverse

/-- Go `strings.Fields`, on the characters of the string. -/
def fields (cs : List Char) : List String :=
  ((cs.splitOnP isSpace).filter (fun f => f ≠ [])).map String.mk

/-- Go `strconv.Atoi` with its error dropped (`uid, _ := strconv.Atoi(..)`), on
a 64-bit platform: `0` on a syntax error, the nearest bound when out of range. -/
def atoi (s : String) : Int :=
  let signed : Bool × List Char :=
    match s.data with
    | '-' :: r => (true, r)
    | '+' :: r => (false, r)
    | r => (false, r)
  let digits := signed.2
  if digits = [] ∨ ¬ digits.all Char.isDigit then 0
  else
    let v : Nat := digits.foldl (fun acc c => acc * 10 + (c.toNat - 48)) 0
    if signed.1 then (if v > 2 ^ 63 then -(2 ^ 63 : Int) else -(v : Int))
    else (if v ≥ 2 ^ 63 then (2 ^ 63 - 1 : Int) else (v : Int))

/-- The administrative groups of `checkAdminPrivileges`. -/
def adminGroups : List String := ["sudo", "wheel", "admin"]

/-- `Manager.checkAdminPrivileges`, with the external calls it makes. -/
def checkAdminPrivileges (host : Host) (username : String) :
    Bool × List String × List ExternalCall :=
  if username = "root" then (true, ["root"], [])
  else
    match host.groups username with
    | none => (false, [], [.groups username])
    | some output =>
      let groupsStr := trimSpace output.data
      let parts := groupsStr.splitOn ':'
      match parts with
      | _ :: part1 :: _ =>
        let groups := fields (trimSpace part1)
        if groups.any (fun group => adminGroups.contains group) then
          (true, groups, [.groups username])
        else (false, groups, [.groups username])
      | _ => (false, [], [.groups username])

/-- `Manager.validatePassword`. -/
def validatePassword (host : Host) (username password : String) : Bool :=
  host.su username password

/-- `Manager.validateSystemUser`, with the external calls it makes, in order. -/
def validateSystemUser (host : Host) (username password : String) :
    Except String User × List ExternalCall :=
  match host.lookup username with
  | none => (.error "用户不存在", [.lookup username])
  | some u =>
    let uid := atoi u.Uid
    if uid < 1000 ∧ uid ≠ 0 then (.error "不允许系统用户登录", [.lookup username])
    else
      let admin := checkAdminPrivileges host username
      if ¬ admin.1 then (.error "用户没有管理员权限", .lookup username :: admin.2.2)
      else if ¬ validatePassword host username password then
        (.error "密码错误", .lookup username :: admin.2.2 ++ [.su username])
      else
        (.ok { Username := u.Username, UID := u.Uid, GID := u.Gid, Home := u.HomeDir,
               Shell := u.Name, Groups := admin.2.1, IsAdmin := admin.1 },
          .lookup username :: admin.2.2 ++ [.su username])

/-- `Manager.isLocked` at clock reading `now`: the answer and the manager
afterwards (an elapsed lock is deleted). -/
def Manager.isLocked (m : Manager) (now : Int) (ipAddress : String) : Bool × Manager :=
  match mapGet m.attempts ipAddress with
  | none => (false, m)
  | some attempt =>
    if attempt.Count ≥ m.config.MaxLoginAttempts then
      if now < attempt.LockedUntil then (true, m)
      else (false, { m with attempts := mapDelete m.attempts ipAddress })
    else (false, m)

/-- `Manager.recordFailedAttempt` at clock reading `now`. -/
def Manager.recordFailedAttempt (m : Manager) (now : Int) (ipAddress : String) : Manager :=
  let attempt : LoginAttempts :=
    match mapGet m.attempts ipAddress with
    | some a => a
    | none => { Count := 0, LastTry := 0, LockedUntil := 0 }
  let attempt := { attempt with Count := attempt.Count + 1, LastTry := now }
  let attempt :=
    if attempt.Count ≥ m.config.MaxLoginAttempts then
      { attempt with LockedUntil := now + m.config.LockoutDuration }
    else attempt
  { m with attempts := mapSet m.attempts ipAddress attempt }

/-- What one `Authenticate` call produces: its return value, the manager
afterwards and the external calls made. -/
structure AuthResult where
  result : Except String Session
  manager : Manager
  calls : List ExternalCall

/-- `Manager.Authenticate` at clock reading `now`, on the given host, where
`sessionID` is the value `generateSessionID` draws. -/
def Manager.Authenticate (m : Manager) (host : Host) (now : Int) (sessionID : String)
    (username password ipAddress : String) : AuthResult :=
  match m.isLocked now ipAddress with
  | (true, m1) => { result := .error "IP地址已被锁定，请稍后再试", manager := m1, calls := [] }
  | (false, m1) =>
    match validateSystemUser host username password with
    | (.error err, calls) =>
      { result := .error err, manager := m1.recordFailedAttempt now ipAddress, calls := calls }
    | (.ok user, calls) =>
      let session : Session :=
        { ID := sessionID, Username := user.Username, UserID := user.UID,
          LoginTime := now, LastSeen := now, IPAddress := ipAddress }
      { result := .ok session,
        manager := { m1 with attempts := mapDelete m1.attempts ipAddress,
                             sessions := mapSet m1.sessions sessionID session },
        calls := calls }

/-- `Manager.ValidateSession` at clock reading `now`. -/
def Manager.ValidateSession (m : Manager) (now : Int) (sessionID : String) :
    Except String Session × Manager :=
  match mapGet m.sessions sessionID with
  | none => (.error "会话不存在", m)
  | some session =>
    if now - session.LastSeen > m.config.SessionTimeout then
      (.error "会话已过期", { m with sessions := mapDelete m.sessions sessionID })
    else
      let session := { session with LastSeen := now }
      (.ok session, { m with sessions := mapSet m.sessions sessionID session })

/-- `Manager.Logout`. -/
def Manager.Logout (m : Manager) (sessionID : String) : Manager :=
  match mapGet m.sessions sessionID with
  | some _ => { m with sessions := mapDelete m.sessions sessionID }
  | none => m

/-- `Manager.GetActiveSessions` at clock reading `now`. -/
def Manager.GetActiveSessions (m : Manager) (now : Int) : List Session :=
  (m.sessions.map (fun e => e.2)).filter
    (fun session => now - session.LastSeen ≤ m.config.SessionTimeout)

/-- `Manager.CleanupExpiredSessions` at clock reading `now`. -/
def Manager.CleanupExpiredSessions (m : Manager) (now : Int) : Manager :=
  { m with sessions :=
      m.sessions.filter (fun e => ¬ (now - e.2.LastSeen > m.config.SessionTimeout)) }

/-- The arguments and circumstances of one `Authenticate` call. -/
structure LoginCall where
  host : Host
  now : Int
  sessionID : String
  username : String
  password : String

/-- One `Authenticate` call from client `ip`. -/
def Manager.login (m : Manager) (ip : String) (c : LoginCall) : AuthResult :=
  m.Authenticate c.host c.now c.sessionID c.username c.password ip

/-- The manager after a sequence of `Authenticate` calls from client `ip`. -/
def Manager.loginAll (m : Manager) (ip : String) : List LoginCall → Manager
  | [] => m
  | c :: rest => (m.login ip c).manager.loginAll ip rest

/-- The failure count the manager holds for a client (`0` without a record). -/
def Manager.failureCount (m : Manager) (ip : String) : Int :=
  match mapGet m.attempts ip with
  | some a => a.Count
  | none => 0

/-- The credentials fail validation on the call's host. -/
def LoginCall.fails (c : LoginCall) : Prop :=
  ∃ err, (validateSystemUser c.host c.username c.password).1 = .error err

/-- The configuration of the lockout scenario: threshold 3, lockout 15
minutes, session timeout one hour (in nanoseconds). -/
def scenarioConfig : AuthConfig :=
  { SessionTimeout := 3600000000000
    MaxLoginAttempts := 3
    LockoutDuration := 900000000000
    SecretKey := "k" }

/-- A host that knows no user. -/
def emptyHost : Host :=
  { lookup := fun _ => none, groups := fun _ => none, su := fun _ _ => false }

/-- A host whose only login is `root`, with password `secret`. -/
def rootHost : Host :=
  { lookup := fun name =>
      if name = "root" then
        some { Uid := "0", Gid := "0", Username := "root", Name := "root", HomeDir := "/root" }
      else none,
    groups := fun _ => none,
    su := fun name password => name == "root" && password == "secret" }

/-- The message of the lockout error. -/
def lockedMessage : String := "IP地址已被锁定，请稍后再试"

end auth

namespace auth

/-- The check of `validateSystemUser` that rejects a login. -/
inductive FailureCause where
  | unknownUser
  | systemUid
  | noAdminGroup
  | wrongPassword
deriving DecidableEq, Repr

/-- The first check that fails for the credentials on the host, if any: the
name resolves to no principal; its id is below 1000 and not 0; it is in no
administrative group; the password check fails. -/
def failureCause (host : Host) (username password : String) : Option FailureCause :=
  match host.lookup username with
  | none => some .unknownUser
  | some u =>
    if atoi u.Uid < 1000 ∧ atoi u.Uid ≠ 0 then some .systemUid
    else if ¬ (checkAdminPrivileges host username).1 then some .noAdminGroup
    else if ¬ validatePassword host username password then some .wrongPassword
    else none

/-- The error message `validateSystemUser` gives for each failed check. -/
def causeMessage : FailureCause → String
  | .unknownUser => "用户不存在"
  | .systemUid => "不允许系统用户登录"
  | .noAdminGroup => "用户没有管理员权限"
  | .wrongPassword => "密码错误"

/-- A manager holding one session, last seen at time `0`. -/
def oneSessionManager : Manager :=
  { config := scenarioConfig
    sessions := [("s1", { ID := "s1", Username := "root", UserID := "0", LoginTime := 0,
                          LastSeen := 0, IPAddress := "10.0.0.1" })]
    attempts := [] }

end auth

/-! ## The login handlers (`internal/handlers/handlers.go`) -/

namespace handlers

/-- A JSON value of a response body. -/
inductive JSON where
  | bool (b : Bool)
  | str (s : String)
deriving DecidableEq, Repr

/-- What a login handler answers: `writeJSON(w, status, data)` with the
encoded object (keys in sorted order), or `http.Redirect(w, r, url, code)`. -/
inductive Response where
  | json (status : Nat) (body : List (String × JSON))
  | redirect (url : String) (code : Nat)
deriving DecidableEq, Repr

end handlers

/-! ## The session store (`internal/session/session.go`) -/

namespace session

/-- A value held in session data (`interface{}`); `null` is the nil
interface, which reading an absent key gives. -/
inductive Value where
  | null
  | bool (b : Bool)
  | str (s : String)
  | int (i : Int)
  | float (q : Rat)
  | time (t : Int)
deriving DecidableEq, Repr

/-- `session.Session`. -/
structure Session where
  ID : String
  Data : List (String × Value)
  Expires : Int
  modified : Bool
deriving DecidableEq, Repr

/-- A row of the durable `sessions` table: the data that was marshalled and
the expiry. -/
structure Row where
  data : List (String × Value)
  expires : Int
deriving DecidableEq, Repr

/-- `session.Store` (the mutex apart): the in-memory map and the table behind
the database manager. -/
structure Store where
  sessions : List (String × Session)
  rows : List (String × Row)
deriving DecidableEq, Repr

/-- `24 * time.Hour`. -/
def day : Int := 24 * 3600 * 1000000000

/-- `Store.saveSession`: `INSERT OR REPLACE` of the row; `dbOk` tells whether
the statement succeeds. -/
def Store.saveSession (s : Store) (dbOk : Bool) (session : Session) :
    Store × Option String :=
  let row : Row := { data := session.Data, expires := session.Expires }
  if dbOk then ({ s with rows := mapSet s.rows session.ID row }, none)
  else (s, some "database error")

/-- `Store.createSessionWithID` at clock reading `now`. -/
def Store.createSessionWithID (s : Store) (now : Int) (dbOk : Bool) (sessionID : String) :
    Session × Store :=
  let session : Session :=
    { ID := sessionID, Data := [], Expires := now + day, modified := false }
  let s1 : Store := { s with sessions := mapSet s.sessions sessionID session }
  (session, (s1.saveSession dbOk session).1)

/-- `Store.createSession`, where `freshID` is what `generateSessionID` draws. -/
def Store.createSession (s : Store) (now : Int) (dbOk : Bool) (freshID : String) :
    Session × Store :=
  s.createSessionWithID now dbOk freshID

/-- `Session.Get`. -/
def Session.Get (s : Session) (key : String) : Value :=
  match mapGet s.Data key with
  | some v => v
  | none => .null

/-- `Store.Get` for a request whose `session_id` cookie is `cookie` (`none`
when the request has none); the error it returns is always nil. -/
def Store.Get (s : Store) (cookie : Option String) (now : Int) (dbOk : Bool)
    (freshID : String) : (Session × Option String) × Store :=
  match cookie with
  | none =>
    let created := s.createSession now dbOk freshID
    ((created.1, none), created.2)
  | some value =>
    match mapGet s.sessions value with
    | none =>
      let created := s.createSessionWithID now dbOk value
      ((created.1, none), created.2)
    | some session =>
      if session.Expires < now then
        let created := s.createSessionWithID now dbOk value
        ((created.1, none), created.2)
      else
        let session := { session with Expires := now + day }
        ((session, none), { s with sessions := mapSet s.sessions value session })

end session

/-! ## The middleware (`internal/middleware/middleware.go`) -/

namespace middleware

open router (Request)

/-- What a handler does to the response writer and to the log. Log lines
carry their arguments; measured durations are left out. -/
inductive Effect where
  | setHeader (key value : String)
  | writeHeader (code : Nat)
  | write (body : String)
  | redirect (url : String) (code : Nat)
  | logRequest (method path : String) (status : Nat) (client : String)
  | logPanic (value : String)
  | responseTimeHeader
deriving DecidableEq, Repr

/-- The state a request is served in: the session store, the clock reading
and random id of the request, whether the database answers, and the effects
so far. -/
structure World where
  store : session.Store
  now : Int
  freshID : String
  dbOk : Bool
  out : List Effect
deriving DecidableEq, Repr

/-- How a handler call ends: the world it leaves, and the panic value when
it panics. -/
structure Outcome where
  world : World
  panic : Option String
deriving DecidableEq, Repr

/-- The meaning of a handler: from the request and the world to an outcome. -/
abbrev HandlerFunc := router.HandlerFunc (World → Outcome)

/-- The meaning of a middleware. -/
abbrev MiddlewareFunc := router.MiddlewareFunc (World → Outcome)

/-- Append effects to the world. -/
def World.emit (w : World) (effects : List Effect) : World :=
  { w with out := w.out ++ effects }

/-- The `statusCode` a `responseRecorder` holds after the given effects
passed through it: `200` at first, then the code of the latest `WriteHeader`
(`http.Redirect` calls `WriteHeader`). -/
def recordedStatus (effects : List Effect) : Nat :=
  effects.foldl (fun status e =>
    match e with
    | .writeHeader code => code
    | .redirect _ code => code
    | _ => status) 200

/-- `Logger`. -/
def Logger : MiddlewareFunc :=
  fun next r w =>
    let res := next r w
    match res.panic with
    | some _ => res
    | none =>
      { world := res.world.emit
          [.logRequest r.Method r.URL.Path (recordedStatus (res.world.out.drop w.out.length))
            r.RemoteAddr],
        panic := none }

/-- `Recovery`: a panic of the wrapped handler is logged and answered with
the generic 500 body; the call returns normally. -/
def Recovery : MiddlewareFunc :=
  fun next r w =>
    let res := next r w
    match res.panic with
    | some err =>
      { world := res.world.emit
          [.logPanic err, .setHeader "Content-Type" "application/json", .writeHeader 500,
            .write "\x7b\"success\": false, \"error\": \"Internal server error\"\x7d"],
        panic := none }
    | none => res

/-- `CORS`. -/
def CORS : MiddlewareFunc :=
  fun next r w =>
    let w1 := w.emit
      [.setHeader "Access-Control-Allow-Origin" "*",
        .setHeader "Access-Control-Allow-Methods" "GET, POST, PUT, DELETE, OPTIONS",
        .setHeader "Access-Control-Allow-Headers" "Content-Type, Authorization"]
    if r.Method = "OPTIONS" then { world := w1.emit [.writeHeader 200], panic := none }
    else next r w1

/-- Go `strings.LastIndex(ip, ":")` as the characters before the last colon,
`none` without a colon. -/
def beforeLastColon (cs : List Char) : Option (List Char) :=
  match cs.reverse.dropWhile (fun c => c ≠ ':') with
  | [] => none
  | _ :: rest => some rest.reverse

/-- `r.Header.Get(key)` for a canonical key: the empty string when absent. -/
def headerGet (r : Request) (key : String) : String :=
  match mapGet r.Header key with
  | some v => v
  | none => ""

/-- `getClientIP`. -/
def getClientIP (r : Request) : String :=
  let xff := headerGet r "X-Forwarded-For"
  if xff ≠ "" then String.mk (auth.trimSpace ((xff.data.splitOn ',').headD []))
  else
    let xri := headerGet r "X-Real-Ip"
    if xri ≠ "" then xri
    else
      match beforeLastColon r.RemoteAddr.data with
      | some ip => String.mk ip
      | none => r.RemoteAddr

/-- `Performance` (the warnings for slow requests depend on the measured
duration and are left out). -/
def Performance : MiddlewareFunc :=
  fun next r w =>
    let res := next r w
    match res.panic with
    | some _ => res
    | none =>
      { world := res.world.emit
          [.logRequest r.Method r.URL.Path (recordedStatus (res.world.out.drop w.out.length))
            (getClientIP r), .responseTimeHeader],
        panic := none }

/-- `redirectToLogin`. -/
def redirectToLogin (r : Request) (w : World) : Outcome :=
  if "/api/".data.isPrefixOf r.URL.Path.data then
    { world := w.emit
        [.setHeader "Content-Type" "application/json", .writeHeader 401,
          .write "\x7b\"success\": false, \"error\": \"未授权访问\"\x7d"],
      panic := none }
  else { world := w.emit [.redirect "/login" 302], panic := none }

/-- `Auth(store)`: the store is the one of the world. -/
def Auth : MiddlewareFunc :=
  fun next r w =>
    let got := w.store.Get (mapGet r.Cookies "session_id") w.now w.dbOk w.freshID
    let w1 : World := { w with store := got.2 }
    match got.1.2 with
    | some _ => redirectToLogin r w1
    | none =>
      if got.1.1.Get "authenticated" ≠ .bool true then redirectToLogin r w1
      else next r w1

end middleware

/-! ## The server (`internal/server/server.go`) -/

namespace server

open middleware

/-- The router `server.New` creates before routes are registered: the four
global middlewares, in the order of the `Use` calls. -/
def New (notFound : HandlerFunc) : router.Router HandlerFunc :=
  ((((router.New notFound).Use Logger).Use Recovery).Use Performance).Use CORS

/-- A handler that panics before writing anything. -/
def panicking (value : String) : HandlerFunc :=
  fun _ w => { world := w, panic := some value }

/-- A server router with one route, `GET /boom`, whose handler panics, and a
NotFound handler that panics too. -/
def boomRouter : router.Router HandlerFunc :=
  match (New (panicking "not found")).Handle "GET" "/boom" (some (panicking "boom")) with
  | .ok r => r
  | .error _ => New (panicking "not found")

/-- A world with an empty store and no effects yet. -/
def emptyWorld : World :=
  { store := { sessions := [], rows := [] }, now := 0, freshID := "0f", dbOk := true,
    out := [] }

/-- A request for method and path from a fixed client, without headers or
cookies. -/
def request (method path : String) : router.Request :=
  { Method := method, URL := { Path := path, Query := [] }, Header := [],
    RemoteAddr := "10.0.0.1:5000", Cookies := [] }

end server

/-! ## Session data, persistence and hydration -/

namespace session

/-- The number of halvings that bring `a` below `2 ^ 53`: the binary exponent
of the last place of the `float64` nearest to `a`. -/
def ulpExponent : Nat → Nat → Nat
  | 0, _ => 0
  | fuel + 1, a => if a < 2 ^ 53 then 0 else ulpExponent fuel (a / 2) + 1

/-- The `float64` that `strconv.ParseFloat` gives for the decimal text of an
integer, as the integer it equals: the integer itself below `2 ^ 53` in
absolute value, otherwise the nearest multiple of the unit in the last place
of its 53-bit mantissa, a tie going to the even mantissa. (Every Go integer
type lies far below the largest `float64`, so no overflow arises.) -/
def float64OfInt (i : Int) : Int :=
  let a := i.natAbs
  if a < 2 ^ 53 then i
  else
    let ulp := 2 ^ ulpExponent a a
    let q := a / ulp
    let rest := a % ulp
    let mantissa := if 2 * rest > ulp ∨ (2 * rest = ulp ∧ q % 2 = 1) then q + 1 else q
    if i < 0 then -((mantissa * ulp : Nat) : Int) else ((mantissa * ulp : Nat) : Int)

/-- What `json.Unmarshal` into `map[string]interface{}` gives back for a value
that `json.Marshal` encoded: a number comes back as a `float64` (an integer as
the `float64` nearest to it) and a `time.Time` as its RFC 3339 text,
`timeText t`. -/
def jsonDecode (timeText : Int → String) : Value → Value
  | .null => .null
  | .bool b => .bool b
  | .str s => .str s
  | .int i => .float (float64OfInt i)
  | .float q => .float q
  | .time t => .str (timeText t)

/-- The values JSON gives back as they were: nil, booleans, strings and
`float64`. -/
def jsonStable : Value → Bool
  | .null => true
  | .bool _ => true
  | .str _ => true
  | .float _ => true
  | .int _ => false
  | .time _ => false

/-- `Session.Set`. -/
def Session.Set (s : Session) (key : String) (value : Value) : Session :=
  { s with Data := mapSet s.Data key value, modified := true }

/-- `Session.Delete`. -/
def Session.Delete (s : Session) (key : String) : Session :=
  { s with Data := mapDelete s.Data key }

/-- The cookie of `Session.Save`. -/
structure Cookie where
  Name : String
  Value : String
  Path : String
  HttpOnly : Bool
  Secure : Bool
  SameSite : String
  Expires : Int
deriving DecidableEq, Repr

/-- `Session.Save`: the cookie it sets on the response; it returns no error. -/
def Session.Save (s : Session) : Cookie :=
  { Name := "session_id", Value := s.ID, Path := "/", HttpOnly := true, Secure := false,
    SameSite := "Lax", Expires := s.Expires }

/-- What a saving call leaves: the session, the store, the cookie set (if
any) and the error returned (if any). -/
structure Saved where
  session : Session
  store : Store
  cookie : Option Cookie
  err : Option String
deriving DecidableEq, Repr

/-- `Session.SaveWithStore`. -/
def Session.SaveWithStore (s : Session) (store : Store) (dbOk : Bool) : Saved :=
  if s.modified then
    match store.saveSession dbOk s with
    | (_, some err) => { session := s, store := store, cookie := none, err := some err }
    | (store1, none) =>
      let s1 := { s with modified := false }
      { session := s1, store := store1, cookie := some s1.Save, err := none }
  else { session := s, store := store, cookie := some s.Save, err := none }

/-- `Session.SetWithStore`. -/
def Session.SetWithStore (s : Session) (key : String) (value : Value) (store : Store)
    (dbOk : Bool) : Saved :=
  let s1 := { s with Data := mapSet s.Data key value }
  let saved := store.saveSession dbOk s1
  { session := s1, store := saved.1, cookie := none, err := saved.2 }

/-- `Store.deleteSession`: `DELETE` of the row; deleting a row that is not
there is no error. -/
def Store.deleteSession (s : Store) (dbOk : Bool) (sessionID : String) :
    Store × Option String :=
  if dbOk then ({ s with rows := mapDelete s.rows sessionID }, none)
  else (s, some "database error")

/-- `Store.DestroySession`. -/
def Store.DestroySession (s : Store) (dbOk : Bool) (sessionID : String) :
    Store × Option String :=
  let s1 : Store := { s with sessions := mapDelete s.sessions sessionID }
  s1.deleteSession dbOk sessionID

/-- The loop of `loadSessions` over the rows the query returns: those with
`expires > now`. -/
def loadRows (timeText : Int → String) (now : Int) :
    List (String × Row) → List (String × Session) → List (String × Session)
  | [], sessions => sessions
  | (id, row) :: rest, sessions =>
    if row.expires > now then
      loadRows timeText now rest
        (mapSet sessions id
          { ID := id, Data := row.data.map (fun e => (e.1, jsonDecode timeText e.2)),
            Expires := row.expires, modified := false })
    else loadRows timeText now rest sessions

/-- `Store.loadSessions` at clock reading `now`; when the query fails
(`dbOk = false`) nothing is loaded. -/
def Store.loadSessions (s : Store) (timeText : Int → String) (now : Int) (dbOk : Bool) :
    Store :=
  if dbOk then { s with sessions := loadRows timeText now s.rows s.sessions } else s

/-- `NewStore` on a database holding the given rows (a restart): an empty
map, hydrated by `loadSessions`. -/
def NewStore (rows : List (String × Row)) (timeText : Int → String) (now : Int)
    (dbOk : Bool) : Store :=
  Store.loadSessions { sessions := [], rows := rows } timeText now dbOk

/-- One round of `Store.cleanup` at clock reading `now`: expired sessions
leave the map and expired rows the table (the error of the statement is
dropped). -/
def Store.sweep (s : Store) (now : Int) (dbOk : Bool) : Store :=
  { sessions := s.sessions.filter (fun e => ¬ e.2.Expires < now),
    rows := if dbOk then s.rows.filter (fun e => ¬ e.2.expires < now) else s.rows }

/-- The digit table of `encoding/hex`. -/
def hextable : List Char := "0123456789abcdef".data

/-- The two digits `hex.EncodeToString` writes for a byte:
`hextable[b >> 4]` and `hextable[b & 0x0f]`. -/
def hexByte (b : Fin 256) : List Char :=
  [hextable.getD (b.val / 16) '0', hextable.getD (b.val % 16) '0']

/-- `generateSessionID` of the session package, for the 16 bytes `rand.Read`
delivers. -/
def generateSessionID (random : Fin 16 → Fin 256) : String :=
  String.mk ((List.ofFn random).flatMap hexByte)

/-- A lowercase hexadecimal digit. -/
def isHexDigit (c : Char) : Bool :=
  ('0' ≤ c && c ≤ '9') || ('a' ≤ c && c ≤ 'f')

/-- A 32-character lowercase hexadecimal string. -/
def isHexToken (id : String) : Bool :=
  id.data.length == 32 && id.data.all isHexDigit

/-- A change of session data by a handler. -/
inductive Op where
  | set (key : String) (value : Value)
  | delete (key : String)
deriving DecidableEq, Repr

/-- The key an operation changes. -/
def Op.key : Op → String
  | .set k _ => k
  | .delete k => k

/-- A sequence of `Set` and `Delete` calls on the session. -/
def Session.applyOps (s : Session) : List Op → Session
  | [] => s
  | .set k v :: rest => (s.Set k v).applyOps rest
  | .delete k :: rest => (s.Delete k).applyOps rest

/-- The session `loadSessions` builds from a row. -/
def sessionOfRow (timeText : Int → String) (id : String) (row : Row) : Session :=
  { ID := id, Data := row.data.map (fun e => (e.1, jsonDecode timeText e.2)),
    Expires := row.expires, modified := false }

/-- Every key of the in-memory map is a 32-character hexadecimal token. -/
def Store.keysHex (s : Store) : Prop :=
  ∀ e ∈ s.sessions, isHexToken e.1 = true

end session

namespace session

/-- A session created at time `0` under the id `a1`, without data. -/
def blankSession : Session :=
  { ID := "a1", Data := [], Expires := day, modified := false }

/-- A store that holds nothing, in memory or in the table. -/
def emptyStore : Store := { sessions := [], rows := [] }

/-- An RFC 3339 rendering that is the same for every time, for examples in
which no time is stored. -/
def noTimeText : Int → String := fun _ => "0001-01-01T00:00:00Z"

end session

namespace session

/-- A store whose record under the cookie value `abc` expired at time `10`
and still carries data, in memory and in the table. -/
def staleStore : Store :=
  { sessions := [("abc", { ID := "abc", Data := [("authenticated", .bool true)],
                           Expires := 10, modified := false })],
    rows := [("abc", { data := [("authenticated", .bool true)], expires := 10 })] }

end session

namespace session

/-- A session with one key, saved: the same data is in the table and the
flag is clear. -/
def savedSession : Session :=
  { ID := "a1", Data := [("theme", .str "dark")], Expires := day, modified := false }

/-- The store holding `savedSession`, in memory and in the table. -/
def savedStore : Store :=
  { sessions := [("a1", savedSession)],
    rows := [("a1", { data := [("theme", .str "dark")], expires := day })] }

/-- The store after a session was created at time `0` and read again, by its
cookie, one nanosecond before its first expiry. -/
def slidStore : Store :=
  ((emptyStore.Get none 0 true "a1").2.Get (some "a1") (day - 1) true "0f").2

end session

/-! ## Run-time checks of the dispatch path -/

namespace router
variable {H : Type}

/-- Go `xs[1:]` with its bounds check: on an empty slice it panics. -/
def sliceFrom1 {α : Type} : List α → Except String (List α)
  | [] => .error "slice bounds out of range [1:0]"
  | _ :: rest => .ok rest

/-- `Router.findRoute` with the bounds check of `[1:]` made explicit; the
error case is a run-time panic. -/
def Router.findRouteChecked (r : Router H) (method path : String) :
    Except String (Option H × Params) :=
  match mapGet r.trees method with
  | none => .ok (none, [])
  | some root =>
    match sliceFrom1 (stringsSplit path) with
    | .error e => .error e
    | .ok segments => .ok (searchRoute root segments [])

/-- The pattern starts with `/`. -/
def startsWithSlash (path : String) : Bool :=
  match path.data with
  | '/' :: _ => true
  | _ => false

mutual
/-- The tree without what lies beneath wildcard nodes: every wildcard child
keeps its own handler only. -/
def prune : node H → node H
  | .mk p h c pa w ip iw =>
    .mk p h (pruneChildren c) (pruneParam pa)
      (match w with
        | none => none
        | some (.mk wp wh _ _ _ wip wiw) => some (.mk wp wh [] none none wip wiw)) ip iw
/-- Pruning of the static children. -/
def pruneChildren : List (String × node H) → List (String × node H)
  | [] => []
  | (k, n) :: rest => (k, prune n) :: pruneChildren rest
/-- Pruning of the parameter child. -/
def pruneParam : Option (node H) → Option (node H)
  | none => none
  | some n => some (prune n)
end

/-- The router with every method tree pruned. -/
def Router.pruned (r : Router H) : Router H :=
  { r with trees := pruneChildren r.trees }

end router

namespace router

/-- A router with one route, `GET /users`, answering 200, and a NotFound
handler answering 404. -/
def usersRouter : Router (HandlerFunc Nat) :=
  { trees := [("GET", node.mk "" none
      [("users", node.mk "users" (some (fun _ => 200)) [] none none false false)]
      none none false false)],
    middleware := [], NotFound := fun _ => 404 }

/-- A `PATCH` request with the empty path. -/
def patchRequest : Request :=
  { Method := "PATCH", URL := { Path := "", Query := [] }, Header := [],
    RemoteAddr := "10.0.0.1:5000", Cookies := [] }

end router

/-! ## Route groups -/

namespace router

/-- One step of `filepath.Clean` over the components of a path: empty
components and `.` are dropped, `..` removes the component before it when
there is one to remove, is dropped at the root, and is kept in front of a
relative path. -/
def cleanStep (rooted : Bool) (out : List String) (comp : String) : List String :=
  if comp = "" ∨ comp = "." then out
  else if comp = ".." then
    match out.getLast? with
    | some top =>
      if top ≠ ".." then out.dropLast
      else if rooted then out else out ++ [".."]
    | none => if rooted then out else out ++ [".."]
  else out ++ [comp]

/-- Go `filepath.Clean` on Unix. -/
def filepathClean (path : String) : String :=
  if path = "" then "."
  else
    let rooted : Bool :=
      match path.data with
      | '/' :: _ => true
      | _ => false
    let out := (stringsSplit path).foldl (cleanStep rooted) []
    if rooted then "/" ++ String.intercalate "/" out
    else if out = [] then "." else String.intercalate "/" out

/-- Go `filepath.Join` on Unix: empty elements are ignored, the rest is
joined with slashes and cleaned; without any element the result is empty. -/
def filepathJoin (elems : List String) : String :=
  match elems.filter (fun e => e ≠ "") with
  | [] => ""
  | kept => filepathClean (String.intercalate "/" kept)

/-- A Go slice header: the backing array (its place in the heap), the length
and the capacity. -/
structure Slice where
  array : Nat
  len : Nat
  cap : Nat
deriving DecidableEq, Repr

/-- The backing arrays allocated so far, each with the cells written so far. -/
abbrev Heap (α : Type) := List (List α)

/-- The nil slice, and the empty slice literal: no cells. -/
def Slice.empty : Slice := { array := 0, len := 0, cap := 0 }

/-- The elements `s[0:len(s)]`. -/
def Slice.read {α : Type} (s : Slice) (heap : Heap α) : List α :=
  (heap.getD s.array []).take s.len

/-- Go `append(s, xs...)`. Without elements the slice is returned as it is.
When the capacity suffices the elements are written into the backing array
behind the length, over whatever another slice of the same array has put
there. Otherwise a new array is allocated, of the capacity `growslice` picks
(at least the new length), and the old elements are copied into it. -/
def sliceAppend {α : Type} (growslice : Nat → Nat → Nat) (heap : Heap α) (s : Slice)
    (xs : List α) : Heap α × Slice :=
  match xs with
  | [] => (heap, s)
  | _ :: _ =>
    if s.len + xs.length ≤ s.cap then
      let cells := heap.getD s.array []
      (heap.set s.array (cells.take s.len ++ xs ++ cells.drop (s.len + xs.length)),
        { s with len := s.len + xs.length })
    else
      (heap ++ [s.read heap ++ xs],
        { array := heap.length, len := s.len + xs.length,
          cap := growslice s.cap (s.len + xs.length) })

/-- The capacity the Go runtime picks for a short slice that outgrows its
array: the double of the old one, or the length needed when that is more. -/
def growDouble (oldCap needed : Nat) : Nat :=
  if needed > 2 * oldCap then needed else 2 * oldCap

/-- `router.Group`: the prefix and the middleware slice of the group. The
router it registers on is the router the calls are given. -/
structure Group where
  groupPrefix : String
  middleware : Slice
deriving DecidableEq, Repr

/-- `Router.Group`: the middleware field is left nil. -/
def Router.Group {β : Type} (_r : Router (HandlerFunc β)) (groupPrefix : String) : Group :=
  { groupPrefix := groupPrefix, middleware := Slice.empty }

/-- The middleware of a group, as the elements of its slice. -/
def Group.middlewares {β : Type} (g : Group) (heap : Heap (MiddlewareFunc β)) :
    List (MiddlewareFunc β) :=
  g.middleware.read heap

/-- `Group.Use`: `g.middleware = append(g.middleware, middleware)`. -/
def Group.Use {β : Type} (growslice : Nat → Nat → Nat) (heap : Heap (MiddlewareFunc β))
    (g : Group) (mw : MiddlewareFunc β) : Heap (MiddlewareFunc β) × Group :=
  let appended := sliceAppend growslice heap g.middleware [mw]
  (appended.1, { g with middleware := appended.2 })

/-- The path `Group.Handle` registers: prefix and path joined, `/` when the
join is empty. -/
def Group.fullPath (g : Group) (path : String) : String :=
  let joined := filepathJoin [g.groupPrefix, path]
  if joined = "" then "/" else joined

/-- `Group.Handle` on the router `r`, for a handler that is not nil: the
handler is wrapped in the middleware the group has at this moment and
registered under the full path. -/
def Group.Handle {β : Type} (g : Group) (heap : Heap (MiddlewareFunc β))
    (r : Router (HandlerFunc β)) (method path : String) (handler : HandlerFunc β) :
    Except String (Router (HandlerFunc β)) :=
  r.Handle method (g.fullPath path) (some (applyMiddleware (g.middlewares heap) handler))

/-- `Group.Group`: the middleware of the sub-group is
`append([]MiddlewareFunc\x7b\x7d, g.middleware...)`. -/
def Group.Group {β : Type} (growslice : Nat → Nat → Nat) (heap : Heap (MiddlewareFunc β))
    (g : Group) (groupPrefix : String) : Heap (MiddlewareFunc β) × Group :=
  let copied := sliceAppend growslice heap Slice.empty (g.middlewares heap)
  (copied.1,
    { groupPrefix := filepathJoin [g.groupPrefix, groupPrefix], middleware := copied.2 })

/-- A sequence of `Use` calls on a group and on its sub-group, in any order:
`true` marks a call on the group, `false` one on the sub-group. -/
def useBoth {β : Type} (growslice : Nat → Nat → Nat) :
    Heap (MiddlewareFunc β) × Group × Group → List (Bool × MiddlewareFunc β) →
    Heap (MiddlewareFunc β) × Group × Group
  | st, [] => st
  | (heap, g, sub), (true, mw) :: rest =>
    useBoth growslice ((g.Use growslice heap mw).1, (g.Use growslice heap mw).2, sub) rest
  | (heap, g, sub), (false, mw) :: rest =>
    useBoth growslice ((sub.Use growslice heap mw).1, g, (sub.Use growslice heap mw).2) rest

/-- A middleware that writes its name in front of what the wrapped handler
writes. -/
def tag (name : String) : MiddlewareFunc (List String) :=
  fun next req => name :: next req

/-- A handler that writes its name. -/
def leaf (name : String) : HandlerFunc (List String) :=
  fun _ => [name]

/-- A group with the middleware `C`, its sub-group, then `Use` of `D` on the
sub-group and of `E` on the group. -/
def exampleGroups : Heap (MiddlewareFunc (List String)) × Group × Group :=
  let parent := (Router.Group (New (leaf "404")) "/").Use growDouble [] (tag "C")
  let sub := parent.2.Group growDouble parent.1 ""
  useBoth growDouble (sub.1, parent.2, sub.2) [(false, tag "D"), (true, tag "E")]

/-- The slice can be read in the heap: its length is within its capacity, and
unless it has no capacity its array is allocated and holds its elements. -/
def Slice.Valid {α : Type} (s : Slice) (heap : Heap α) : Prop :=
  s.len ≤ s.cap ∧
    (s.cap = 0 ∨ (s.array < heap.length ∧ s.len ≤ (heap.getD s.array []).length))

/-- Two slices share no cell: one of them has no capacity, or their arrays
differ. -/
def Slice.Apart (s t : Slice) : Prop :=
  s.cap = 0 ∨ t.cap = 0 ∨ s.array ≠ t.array

end router

/-! ## Rate limiting (`RateLimit` of `internal/middleware/middleware.go`) -/

namespace middleware

open router (Request)

/-- The table `requests` of `RateLimit`: per client, the times of its
recorded requests, oldest first. -/
abbrev RateTable := List (String × List Int)

/-- `time.Minute`. -/
def minute : Int := 60 * 1000000000

/-- The times that are less than a minute before `now`. -/
def window (now : Int) (times : List Int) : List Int :=
  times.filter (fun t => now - t < minute)

/-- The times recorded for a client (`requests[clientIP]`, empty without an
entry). -/
def entry (requests : RateTable) (client : String) : List Int :=
  match mapGet requests client with
  | some times => times
  | none => []

/-- The part of `RateLimit` that works on the table, for a request of
`client` at clock reading `now`: old times of the client are dropped; with 60
or more left the request is refused and not recorded, otherwise it is admitted
and `now` is recorded. -/
def rateStep (requests : RateTable) (client : String) (now : Int) : Bool × RateTable :=
  let requests1 : RateTable :=
    match mapGet requests client with
    | some times => mapSet requests client (window now times)
    | none => requests
  if (entry requests1 client).length ≥ 60 then (false, requests1)
  else (true, mapSet requests1 client (entry requests1 client ++ [now]))

/-- `RateLimit`: the closure variable `requests` is passed in and out; the
clock reading is that of the world. -/
def RateLimit (requests : RateTable) (next : HandlerFunc) (r : Request) (w : World) :
    RateTable × Outcome :=
  match rateStep requests (getClientIP r) w.now with
  | (false, requests1) =>
    (requests1,
      { world := w.emit
          [.writeHeader 429, .write "\x7b\"success\": false, \"error\": \"请求过于频繁\"\x7d"],
        panic := none })
  | (true, requests1) => (requests1, next r w)

/-- A request reaching `RateLimit`: its client and the clock reading. -/
structure Arrival where
  client : String
  time : Int
deriving DecidableEq, Repr

/-- The table after a sequence of requests. -/
def rateRun (requests : RateTable) : List Arrival → RateTable
  | [] => requests
  | a :: rest => rateRun (rateStep requests a.client a.time).2 rest

/-- The sequence of requests with the decision taken for each. -/
def rateLog (requests : RateTable) : List Arrival → List (Arrival × Bool)
  | [] => []
  | a :: rest =>
    (a, (rateStep requests a.client a.time).1) ::
      rateLog (rateStep requests a.client a.time).2 rest

/-- The times of the admitted requests of a client, in order. -/
def admittedTimes (log : List (Arrival × Bool)) (client : String) : List Int :=
  (log.filter (fun e => e.2 && e.1.client == client)).map (fun e => e.1.time)

/-- The request times do not decrease along the sequence. -/
def nonDecreasing (history : List Arrival) : Prop :=
  (history.map Arrival.time).Pairwise (fun a b => a ≤ b)

/-- A request over a direct connection from `addr` (`host:port`), without
headers. -/
def directRequest (addr : String) : Request :=
  { Method := "GET", URL := { Path := "/", Query := [] }, Header := [],
    RemoteAddr := addr, Cookies := [] }

/-- What `RateLimit` sees of a request: the client `getClientIP` gives for it
and the clock reading. -/
def arrivalOf (e : Request × World) : Arrival :=
  ⟨getClientIP e.1, e.2.now⟩

/-- The table after `RateLimit` served a sequence of requests. -/
def rateServe (next : HandlerFunc) (requests : RateTable) : List (Request × World) → RateTable
  | [] => requests
  | (r, w) :: rest => rateServe next (RateLimit requests next r w).1 rest

/-- The table after 60 requests at time `0` over one connection from
`10.0.0.1`. -/
def fullTable : RateTable :=
  rateRun [] (List.replicate 60 ⟨getClientIP (directRequest "10.0.0.1:5000"), 0⟩)

/-- The answer of `RateLimit` to a refused request. -/
def tooManyRequests (w : World) : Outcome :=
  { world := w.emit
      [.writeHeader 429, .write "\x7b\"success\": false, \"error\": \"请求过于频繁\"\x7d"],
    panic := none }

end middleware

/-! ## Locking and counters of the authentication manager -/

namespace auth

/-- What a call on the manager does, step by step, as far as the mutex and the
world outside are concerned: the four operations of `sync.RWMutex`, a call
that leaves the process, and work on the maps of the manager. -/
inductive Action where
  | lock
  | unlock
  | rlock
  | runlock
  | external (call : ExternalCall)
  | state
deriving DecidableEq, Repr

/-- The steps of one `Authenticate` call, in the order of the source:
`m.mutex.Lock()`, with `m.mutex.Unlock()` deferred to the return; `isLocked`;
unless the client is locked out, the external calls of `validateSystemUser`
and then the update of the maps (`recordFailedAttempt`, or the reset and the
new session). -/
def Manager.AuthenticateSteps (m : Manager) (host : Host) (now : Int) (sessionID : String)
    (username password ipAddress : String) : List Action :=
  match m.isLocked now ipAddress with
  | (true, _) => [.lock, .state, .unlock]
  | (false, _) =>
    [.lock, .state] ++
      (m.Authenticate host now sessionID username password ipAddress).calls.map
        Action.external ++
      [.state, .unlock]

/-- The steps of one `ValidateSession` call: `m.mutex.RLock()`, with
`m.mutex.RUnlock()` deferred to the return, around the work on the session map. -/
def ValidateSessionSteps : List Action := [.rlock, .state, .runlock]

/-- The steps of one `Logout` call: `m.mutex.Lock()`, with `m.mutex.Unlock()`
deferred to the return, around the work on the session map. -/
def LogoutSteps : List Action := [.lock, .state, .unlock]

/-- The state of a `sync.RWMutex`: whether it is locked for writing, and the
number of read locks held. -/
structure RWMutex where
  writer : Bool
  readers : Nat
deriving DecidableEq, Repr

/-- What a goroutine holds of the mutex. -/
inductive Hold where
  | nothing
  | write
  | read
deriving DecidableEq, Repr

/-- A goroutine running a call: the steps still to take and what it holds. -/
structure Thread where
  todo : List Action
  holds : Hold
deriving DecidableEq, Repr

/-- The next step of a goroutine, when it can be taken. `Lock` waits while
the mutex is locked for writing or read locks are held, `RLock` while it is
locked for writing; `Unlock` and `RUnlock` release what the goroutine holds
(without it they are a fatal error); the other steps need nothing. A
goroutine that waits, or has no step left, takes none. -/
def Thread.step (mu : RWMutex) (t : Thread) : Option (RWMutex × Thread) :=
  match t.todo with
  | [] => none
  | .lock :: rest =>
    if mu.writer = false ∧ mu.readers = 0 then
      some ({ mu with writer := true }, { todo := rest, holds := .write })
    else none
  | .unlock :: rest =>
    if t.holds = .write then
      some ({ mu with writer := false }, { todo := rest, holds := .nothing })
    else none
  | .rlock :: rest =>
    if mu.writer = false then
      some ({ mu with readers := mu.readers + 1 }, { todo := rest, holds := .read })
    else none
  | .runlock :: rest =>
    if t.holds = .read then
      some ({ mu with readers := mu.readers - 1 }, { todo := rest, holds := .nothing })
    else none
  | .external _ :: rest => some (mu, { t with todo := rest })
  | .state :: rest => some (mu, { t with todo := rest })

/-- Two goroutines calling into one manager, and its mutex. -/
structure System where
  mutex : RWMutex
  first : Thread
  second : Thread
deriving DecidableEq, Repr

/-- Two calls about to start, the mutex free. -/
def System.start (firstCall secondCall : List Action) : System :=
  { mutex := { writer := false, readers := 0 },
    first := { todo := firstCall, holds := .nothing },
    second := { todo := secondCall, holds := .nothing } }

/-- One step of the goroutine the scheduler picks (`true`: the first). -/
def System.step (s : System) (onFirst : Bool) : Option System :=
  if onFirst then
    match s.first.step s.mutex with
    | some (mu, t) => some { s with mutex := mu, first := t }
    | none => none
  else
    match s.second.step s.mutex with
    | some (mu, t) => some { s with mutex := mu, second := t }
    | none => none

/-- A run under a schedule: every step picked must be one that can be taken. -/
def System.run (s : System) : List Bool → Option System
  | [] => some s
  | onFirst :: rest =>
    match s.step onFirst with
    | some s1 => s1.run rest
    | none => none

/-- The action takes or releases the mutex. -/
def Action.isMutex : Action → Bool
  | .lock => true
  | .unlock => true
  | .rlock => true
  | .runlock => true
  | _ => false

/-- A call that takes the mutex first (for writing or for reading), runs a
body without mutex operations and releases the mutex last. -/
def critical (write : Bool) (body : List Action) : List Action :=
  (if write then Action.lock else Action.rlock) :: body ++
    [if write then Action.unlock else Action.runlock]

/-- The mutex and the holdings agree: it is locked for writing exactly when
one of the two holds it for writing, a writer excludes the other goroutine,
and every read lock held is counted. -/
def System.Consistent (s : System) : Prop :=
  (s.mutex.writer = true ↔ (s.first.holds = .write ∨ s.second.holds = .write)) ∧
  (s.first.holds = .write → s.second.holds = .nothing) ∧
  (s.second.holds = .write → s.first.holds = .nothing) ∧
  (if s.first.holds = .read then 1 else 0) + (if s.second.holds = .read then 1 else 0) ≤
    s.mutex.readers

/-- Where a goroutine stands in a call of the form `critical write body`: not
started, inside (holding the mutex, with a rest of the body and the release
to go), or done. -/
def Thread.Within (write : Bool) (body : List Action) (t : Thread) : Prop :=
  t = { todo := critical write body, holds := .nothing } ∨
  t = { todo := [], holds := .nothing } ∨
  ∃ rest, rest <:+ body ∧
    t = { todo := rest ++ [if write then Action.unlock else Action.runlock],
          holds := if write then .write else .read }


/-- The manager after a sequence of `Authenticate` calls, each from the
client it is paired with. -/
def Manager.loginSeq (m : Manager) : List (String × LoginCall) → Manager
  | [] => m
  | (ip, c) :: rest => (m.login ip c).manager.loginSeq rest

/-- The record of a client after one of its `Authenticate` calls, from the
record before: kept when the client is locked out; otherwise an elapsed lock
is dropped, a failed validation counts one more (setting the lock time at the
threshold) and a successful one leaves no record. -/
def counterAfter (cfg : AuthConfig) (cur : Option LoginAttempts) (c : LoginCall) :
    Option LoginAttempts :=
  let locked : Bool :=
    match cur with
    | some a => decide (a.Count ≥ cfg.MaxLoginAttempts ∧ c.now < a.LockedUntil)
    | none => false
  if locked then cur
  else
    let base : LoginAttempts :=
      match cur with
      | some a =>
        if a.Count ≥ cfg.MaxLoginAttempts then { Count := 0, LastTry := 0, LockedUntil := 0 }
        else a
      | none => { Count := 0, LastTry := 0, LockedUntil := 0 }
    match (validateSystemUser c.host c.username c.password).1 with
    | .error _ =>
      if base.Count + 1 ≥ cfg.MaxLoginAttempts then
        some { Count := base.Count + 1, LastTry := c.now,
               LockedUntil := c.now + cfg.LockoutDuration }
      else some { Count := base.Count + 1, LastTry := c.now, LockedUntil := base.LockedUntil }
    | .ok _ => none

/-- The states of the manager reachable from `NewManager cfg` through
`Authenticate` calls. -/
inductive Reachable (cfg : AuthConfig) : Manager → Prop where
  | init : Reachable cfg (NewManager cfg)
  | step (m : Manager) (ip : String) (c : LoginCall) :
      Reachable cfg m → Reachable cfg (m.login ip c).manager

/-- The invariant of one attempt record under configuration `cfg`. -/
def recordOk (cfg : AuthConfig) (a : LoginAttempts) : Prop :=
  1 ≤ a.Count ∧ a.Count ≤ cfg.MaxLoginAttempts ∧
  (a.Count = cfg.MaxLoginAttempts → a.LockedUntil = a.LastTry + cfg.LockoutDuration) ∧
  (a.Count < cfg.MaxLoginAttempts → a.LockedUntil = 0)

/-- The invariant of the attempt records: the count lies between 1 and the
threshold; at the threshold the lock time is the last try plus the lockout
duration; below it no lock time is set. -/
def Manager.countersOk (m : Manager) : Prop :=
  ∀ ip a, mapGet m.attempts ip = some a →
    1 ≤ a.Count ∧ a.Count ≤ m.config.MaxLoginAttempts ∧
    (a.Count = m.config.MaxLoginAttempts →
      a.LockedUntil = a.LastTry + m.config.LockoutDuration) ∧
    (a.Count < m.config.MaxLoginAttempts → a.LockedUntil = 0)

end auth

/-! ## The checks of a login and the client identity -/

namespace auth

/-- The groups the `groups` command reports for the user, as
`checkAdminPrivileges` reads them: the fields after the first colon of the
trimmed output; none when the command fails or prints no colon. -/
def reportedGroups (host : Host) (username : String) : List String :=
  match host.groups username with
  | none => []
  | some output =>
    match (trimSpace output.data).splitOn ':' with
    | _ :: part1 :: _ => fields (trimSpace part1)
    | _ => []

/-- One of the reported groups is `sudo`, `wheel` or `admin`. -/
def inAdminGroup (host : Host) (username : String) : Bool :=
  (reportedGroups host username).any (fun group => adminGroups.contains group)

/-- A host on which `root` is in the group `root` only. -/
def plainRootHost : Host :=
  { lookup := rootHost.lookup,
    groups := fun name => some (name ++ " : root\n"),
    su := rootHost.su }

end auth

namespace handlers

/-- The client identity `handleLogin` and `APILogin` pass to `Authenticate`:
`r.RemoteAddr`, replaced by the `X-Forwarded-For` header when it is not empty. -/
def clientIP (r : router.Request) : String :=
  let clientIP := r.RemoteAddr
  let forwarded := middleware.headerGet r "X-Forwarded-For"
  if forwarded ≠ "" then forwarded else clientIP

/-- The branch `if err != nil` after `Authenticate` in `handleLogin`: a
request with content type `application/json` or with the header `HX-Request:
true` gets status 401 and the error string in a JSON body; any other request
(a plain form post) is redirected to the login page with the error string in
the query. -/
def handleLoginFailure (r : router.Request) (err : String) : Response :=
  if middleware.headerGet r "Content-Type" = "application/json" ∨
      middleware.headerGet r "Hx-Request" = "true" then
    .json 401 [("error", .str err), ("success", .bool false)]
  else .redirect ("/login?error=" ++ err) 302

/-- The branch `if err != nil` after `Authenticate` in `APILogin`: status 401
and the error string in a JSON body. -/
def APILoginFailure (err : String) : Response :=
  .json 401 [("error", .str err), ("success", .bool false)]

/-- The `Authenticate` call of `handleLogin` and `APILogin` for a request. -/
def authenticate (m : auth.Manager) (r : router.Request) (c : auth.LoginCall) :
    auth.AuthResult :=
  m.login (clientIP r) c

/-- A login request from `10.0.0.1:5000` without headers. -/
def directLogin : router.Request :=
  { Method := "POST", URL := { Path := "/login", Query := [] }, Header := [],
    RemoteAddr := "10.0.0.1:5000", Cookies := [] }

/-- A login request from `10.0.0.1:5000` with a JSON body. -/
def jsonLogin : router.Request :=
  { directLogin with Header := [("Content-Type", "application/json")] }

/-- A login request from the same address over another connection, port 5001. -/
def otherPortLogin : router.Request :=
  { directLogin with RemoteAddr := "10.0.0.1:5001" }

/-- The manager after three failed logins over the connection of `directLogin`,
with threshold three. -/
def lockedOnFirstPort : auth.Manager :=
  (authenticate
    (authenticate
      (authenticate (auth.NewManager auth.scenarioConfig) directLogin
        ⟨auth.emptyHost, 1, "s1", "eve", "a"⟩).manager
      directLogin ⟨auth.emptyHost, 2, "s2", "eve", "b"⟩).manager
    directLogin ⟨auth.emptyHost, 3, "s3", "eve", "c"⟩).manager

end handlers

/-! ## Patterns, shapes and branches of the route tree -/

namespace router
variable {H : Type}

/-- What a pattern segment is to `addRoute`: a parameter (it starts with
`:`), the wildcard `*`, or a static segment. -/
inductive Seg where
  | static (name : String)
  | param
  | wild
deriving DecidableEq, Repr

/-- The kind of a non-empty pattern segment, by the tests of `addRoute`. -/
def segKind (segment : String) : Seg :=
  if startsWithColon segment then Seg.param
  else if segment = "*" then Seg.wild
  else Seg.static segment

/-- The shape of a pattern: the kinds of its non-empty segments. -/
def shapeOf (path : String) : List Seg :=
  (pathSegments path).map segKind

/-- A shape matches a list of path segments: a static segment matches the
equal segment, a parameter any one segment, a final `*` one or more remaining
segments. -/
def shapeMatches : List Seg → List String → Bool
  | [], [] => true
  | [Seg.wild], _ :: _ => true
  | Seg.static name :: shape, x :: xs => decide (name = x) && shapeMatches shape xs
  | Seg.param :: shape, _ :: xs => shapeMatches shape xs
  | _, _ => false

/-- The handler stored at the node reached from `n` along a shape (`none`
when the branch does not exist). -/
def handlerAt (n : node H) : List Seg → Option H
  | [] => n.handler
  | Seg.static name :: shape =>
    match mapGet n.children name with
    | some c => handlerAt c shape
    | none => none
  | Seg.param :: shape =>
    match n.param with
    | some p => handlerAt p shape
    | none => none
  | Seg.wild :: shape =>
    match n.wildcard with
    | some w => handlerAt w shape
    | none => none

/-- The bindings made along a branch: each parameter node met on the way binds
its name to the path segment at its position. -/
def bindAlong (n : node H) : List Seg → List String → Params → Params
  | Seg.static name :: shape, _ :: xs, params =>
    match mapGet n.children name with
    | some c => bindAlong c shape xs params
    | none => params
  | Seg.param :: shape, x :: xs, params =>
    match n.param with
    | some p => bindAlong p shape xs (mapSet params p.path x)
    | none => params
  | _, _, params => params

/-- The handler stored for a method at a shape. -/
def Router.handlerAt (r : Router H) (m : String) (shape : List Seg) : Option H :=
  match mapGet r.trees m with
  | none => none
  | some root => router.handlerAt root shape

/-- Three routes: two under `GET`, one under `POST`. -/
def exampleRegs : List (Registration Nat) :=
  [⟨"GET", "/users/:id", some 1⟩, ⟨"GET", "/files/*", some 2⟩, ⟨"POST", "/users", some 3⟩]

/-- The router holding the three routes of `exampleRegs`. -/
def exampleRouter : Router Nat :=
  match (New 0).registerAll exampleRegs with
  | .ok r => r
  | .error _ => New 0

end router

/-! # Theorems -/

/-! ## Maps -/

theorem mapGet_mapSet_same {β : Type} (m : List (String × β)) (k : String) (v : β) :
    mapGet (mapSet m k v) k = some v := by
  induction m with
  | nil => simp [mapSet, mapGet]
  | cons e rest ih =>
    obtain ⟨k0, v0⟩ := e
    by_cases hk : k0 = k
    · simp [mapSet, mapGet, hk]
    · simp [mapSet, mapGet, hk, ih]

theorem mapGet_mapSet_other {β : Type} (m : List (String × β)) (k k2 : String) (v : β)
    (hne : k2 ≠ k) : mapGet (mapSet m k v) k2 = mapGet m k2 := by
  induction m with
  | nil =>
    have : ¬ k = k2 := fun h => hne h.symm
    simp [mapSet, mapGet, this]
  | cons e rest ih =>
    obtain ⟨k0, v0⟩ := e
    by_cases hk : k0 = k
    · have : ¬ k = k2 := fun h => hne h.symm
      have h0 : ¬ k0 = k2 := by rw [hk]; exact this
      simp [mapSet, mapGet, hk, this]
    · by_cases hk2 : k0 = k2
      · subst hk2
        simp [mapSet, mapGet, hne]
      · simp [mapSet, mapGet, hk, hk2, ih]

theorem mapGet_mapDelete_same {β : Type} (m : List (String × β)) (k : String) :
    mapGet (mapDelete m k) k = none := by
  induction m with
  | nil => rfl
  | cons e rest ih =>
    obtain ⟨k0, v0⟩ := e
    by_cases hk : k0 = k
    · simp [mapDelete, hk, ih]
    · simp [mapDelete, hk, mapGet, ih]

theorem mapGet_mapDelete_other {β : Type} (m : List (String × β)) (k k2 : String)
    (hne : k2 ≠ k) : mapGet (mapDelete m k) k2 = mapGet m k2 := by
  induction m with
  | nil => rfl
  | cons e rest ih =>
    obtain ⟨k0, v0⟩ := e
    by_cases hk : k0 = k
    · have h2 : ¬ k = k2 := fun h => hne h.symm
      simp [mapDelete, hk, mapGet, h2, ih]
    · simp [mapDelete, hk, mapGet, ih]

namespace router
variable {H : Type}

/-! ## Unfolding `searchRoute` -/

theorem searchRoute_nil (n : node H) (params : Params) :
    searchRoute n [] params = (n.handler, params) := by
  rw [searchRoute]

theorem searchRoute_unfold (n : node H) (segments : List String) (params : Params) :
    searchRoute n segments params =
      match segments.filter (fun seg => seg ≠ "") with
      | [] => (n.handler, params)
      | segment :: remaining => searchStep n segment remaining params := by
  cases segments with
  | nil => simp [searchRoute_nil]
  | cons seg0 rest =>
    rw [searchRoute]
    split <;> rename_i hf <;> simp only [hf, searchStep]


theorem filter_nonEmpty_idem (segments : List String) :
    (segments.filter (fun seg => seg ≠ "")).filter (fun seg => seg ≠ "") =
      segments.filter (fun seg => seg ≠ "") := by
  simp [List.filter_filter]

theorem searchRoute_filter (n : node H) (segments : List String) (params : Params) :
    searchRoute n (segments.filter (fun seg => seg ≠ "")) params =
      searchRoute n segments params := by
  rw [searchRoute_unfold n segments, searchRoute_unfold n (segments.filter _),
    filter_nonEmpty_idem]

theorem filter_nonEmpty_of_all (ss : List String) (h : ∀ s ∈ ss, s ≠ "") :
    ss.filter (fun seg => seg ≠ "") = ss := by
  rw [List.filter_eq_self]
  intro a ha
  simpa using h a ha

/-! ## Unfolding `addSegments` -/

theorem addSegments_skip (n : node H) (rest : List String) (h : Option H) :
    addSegments n ("" :: rest) h = addSegments n rest h := by
  rw [addSegments, if_pos rfl]

theorem addSegments_param (n : node H) (seg : String) (rest : List String) (h : Option H)
    (he : seg ≠ "") (hc : startsWithColon seg = true) :
    addSegments n (seg :: rest) h =
      n.setParam (addSegments (match n.param with
        | some p => p
        | none => node.mk (dropFirst seg) none [] none none true false) rest h) := by
  rw [addSegments, if_neg he, if_pos hc]

theorem addSegments_wildcard (n : node H) (seg : String) (rest : List String) (h : Option H)
    (he : seg ≠ "") (hc : startsWithColon seg = false) (hw : seg = "*") :
    addSegments n (seg :: rest) h =
      n.setWildcard (addSegments (match n.wildcard with
        | some w => w
        | none => node.mk "*" none [] none none false true) rest h) := by
  rw [addSegments, if_neg he, if_neg (by simp [hc]), if_pos hw]

theorem addSegments_static (n : node H) (seg : String) (rest : List String) (h : Option H)
    (he : seg ≠ "") (hc : startsWithColon seg = false) (hw : seg ≠ "*") :
    addSegments n (seg :: rest) h =
      n.setChild seg (addSegments (match mapGet n.children seg with
        | some c => c
        | none => node.mk seg none [] none none false false) rest h) := by
  rw [addSegments, if_neg he, if_neg (by simp [hc]), if_neg hw]

/-! ## Static chains -/

theorem staticHandler_fresh_none (p : String) (ip iw : Bool) (ss : List String) :
    staticHandler (node.mk p (none : Option H) [] none none ip iw) ss = none := by
  cases ss with
  | nil => simp [staticHandler, node.handler]
  | cons s rest => simp [staticHandler, node.children, mapGet]

theorem staticHandler_setParam (n pn : node H) (ss : List String) :
    staticHandler (n.setParam pn) ss = staticHandler n ss := by
  cases n; cases ss <;> simp [staticHandler, node.setParam, node.handler, node.children]

theorem staticHandler_setWildcard (n wn : node H) (ss : List String) :
    staticHandler (n.setWildcard wn) ss = staticHandler n ss := by
  cases n; cases ss <;> simp [staticHandler, node.setWildcard, node.handler, node.children]

theorem staticHandler_setHandler_cons (n : node H) (h : Option H) (s : String)
    (rest : List String) :
    staticHandler (n.setHandler h) (s :: rest) = staticHandler n (s :: rest) := by
  cases n; simp [staticHandler, node.setHandler, node.children]

theorem isStatic_not_colon {s : String} (h : isStaticSegment s = true) :
    startsWithColon s = false := by
  unfold isStaticSegment at h
  cases hc : startsWithColon s <;> simp_all

theorem isStatic_not_star {s : String} (h : isStaticSegment s = true) : s ≠ "*" := by
  unfold isStaticSegment at h
  intro hs
  simp [hs] at h

/-- After `addSegments` along a pattern whose non-empty segments are all
static, the static chain of those segments carries the handler. -/
theorem staticHandler_addSegments_same (segments : List String) (n : node H) (h : Option H)
    (hs : ∀ s ∈ segments.filter (fun seg => seg ≠ ""), isStaticSegment s = true) :
    staticHandler (addSegments n segments h) (segments.filter (fun seg => seg ≠ "")) = h := by
  induction segments generalizing n with
  | nil => cases n; simp [addSegments, staticHandler, node.setHandler, node.handler]
  | cons seg rest ih =>
    by_cases he : seg = ""
    · subst he
      rw [addSegments_skip]
      have : (("" : String) :: rest).filter (fun seg => seg ≠ "") =
          rest.filter (fun seg => seg ≠ "") := by simp
      rw [this] at hs ⊢
      exact ih n hs
    · have hf : (seg :: rest).filter (fun seg => seg ≠ "") =
          seg :: rest.filter (fun seg => seg ≠ "") := by simp [he]
      rw [hf] at hs ⊢
      have hst := hs seg (List.mem_cons_self _ _)
      have hc := isStatic_not_colon hst
      have hw := isStatic_not_star hst
      have hrest : ∀ s ∈ rest.filter (fun seg => seg ≠ ""), isStaticSegment s = true :=
        fun s hm => hs s (List.mem_cons_of_mem _ hm)
      rw [addSegments_static n seg rest h he hc hw]
      cases n with
      | mk p0 h0 c0 pa0 w0 ip0 iw0 =>
        simp only [node.setChild, staticHandler, node.children, mapGet_mapSet_same]
        exact ih _ hrest

/-- `addSegments` along a pattern with other non-empty segments leaves the
static chain `ss` as it was. -/
theorem staticHandler_addSegments_other (segments : List String) (n : node H) (h : Option H)
    (ss : List String) (hne : segments.filter (fun seg => seg ≠ "") ≠ ss) :
    staticHandler (addSegments n segments h) ss = staticHandler n ss := by
  induction segments generalizing n ss with
  | nil =>
    cases ss with
    | nil => simp at hne
    | cons s rest => simp only [addSegments, staticHandler_setHandler_cons]
  | cons seg rest ih =>
    by_cases he : seg = ""
    · subst he
      rw [addSegments_skip]
      apply ih
      simpa using hne
    · have hf : (seg :: rest).filter (fun seg => seg ≠ "") =
          seg :: rest.filter (fun seg => seg ≠ "") := by simp [he]
      rw [hf] at hne
      by_cases hc : startsWithColon seg = true
      · rw [addSegments_param n seg rest h he hc, staticHandler_setParam]
      · have hc2 : startsWithColon seg = false := by simpa using hc
        by_cases hw : seg = "*"
        · rw [addSegments_wildcard n seg rest h he hc2 hw, staticHandler_setWildcard]
        · rw [addSegments_static n seg rest h he hc2 hw]
          cases n with
          | mk p0 h0 c0 pa0 w0 ip0 iw0 =>
            cases ss with
            | nil => simp [node.setChild, staticHandler, node.handler]
            | cons s ss2 =>
              by_cases hk : s = seg
              · subst hk
                have hne2 : rest.filter (fun seg => seg ≠ "") ≠ ss2 := by
                  intro h2
                  exact hne (by rw [h2])
                simp only [node.setChild, staticHandler, node.children, mapGet_mapSet_same]
                rw [ih _ ss2 hne2]
                cases hg : mapGet c0 s with
                | none => simp [staticHandler_fresh_none]
                | some c => simp
              · simp only [node.setChild, staticHandler, node.children]
                rw [mapGet_mapSet_other _ _ _ _ hk]

/-- A handler found on a static chain is what `searchRoute` returns for those
segments, with the parameters untouched. -/
theorem searchRoute_of_staticHandler (ss : List String) (n : node H) (h : H) (params : Params)
    (hne : ∀ s ∈ ss, s ≠ "") (hs : staticHandler n ss = some h) :
    searchRoute n ss params = (some h, params) := by
  induction ss generalizing n with
  | nil =>
    rw [searchRoute_nil]
    simp only [staticHandler] at hs
    rw [hs]
  | cons s rest ih =>
    rw [searchRoute_unfold, filter_nonEmpty_of_all _ hne]
    simp only [staticHandler] at hs
    cases hg : mapGet n.children s with
    | none => rw [hg] at hs; simp at hs
    | some c =>
      rw [hg] at hs
      have hrest : ∀ x ∈ rest, x ≠ "" := fun x hx => hne x (List.mem_cons_of_mem _ hx)
      simp only [searchStep, hg, ih c hrest hs]

/-! ## Registration at the level of the router -/

theorem addRoute_eq_addSegments (root : node H) (path : String) (h : Option H) :
    addRoute root path h = addSegments root ((stringsSplit path).drop 1) h := by
  unfold addRoute
  by_cases hp : path = "/"
  · subst hp
    have : (stringsSplit "/").drop 1 = [""] := by decide
    rw [if_pos rfl, this, addSegments_skip]
    rfl
  · rw [if_neg hp]

theorem Handle_trees {r r1 : Router H} {m p : String} {h : Option H}
    (hok : r.Handle m p h = .ok r1) :
    r1.trees = mapSet r.trees m
      (addSegments (match mapGet r.trees m with
        | some root => root
        | none => node.empty) ((stringsSplit p).drop 1) h) := by
  unfold Router.Handle at hok
  split at hok
  · cases hok
  · split at hok
    · cases hok
    · split at hok <;> rename_i hg <;> cases hok <;> simp only [hg, addRoute_eq_addSegments]

theorem staticRoute_Handle_same {r r1 : Router H} {m p : String} {h : Option H}
    (hok : r.Handle m p h = .ok r1)
    (hs : ∀ s ∈ pathSegments p, isStaticSegment s = true) :
    r1.staticRoute m (pathSegments p) = h := by
  unfold Router.staticRoute
  rw [Handle_trees hok, mapGet_mapSet_same]
  exact staticHandler_addSegments_same _ _ _ hs

theorem staticRoute_Handle_other {r r1 : Router H} {m p : String} {h : Option H}
    (hok : r.Handle m p h = .ok r1) (m2 : String) (ss : List String)
    (hne : m = m2 → pathSegments p ≠ ss) :
    r1.staticRoute m2 ss = r.staticRoute m2 ss := by
  unfold Router.staticRoute
  rw [Handle_trees hok]
  by_cases hm : m = m2
  · subst hm
    rw [mapGet_mapSet_same]
    have h2 := hne rfl
    unfold pathSegments at h2
    simp only []
    rw [staticHandler_addSegments_other _ _ _ _ h2]
    cases hg : mapGet r.trees m with
    | none => simp [node.empty, staticHandler_fresh_none]
    | some root => simp
  · rw [mapGet_mapSet_other _ _ _ _ (fun h => hm h.symm)]

theorem staticRoute_registerAll (later : List (Registration H)) (r r2 : Router H)
    (m : String) (ss : List String)
    (hne : ∀ g ∈ later, g.method = m → pathSegments g.path ≠ ss)
    (hok : r.registerAll later = .ok r2) :
    r2.staticRoute m ss = r.staticRoute m ss := by
  induction later generalizing r with
  | nil =>
    simp only [Router.registerAll] at hok
    cases hok
    rfl
  | cons g rest ih =>
    simp only [Router.registerAll] at hok
    cases hh : r.Handle g.method g.path g.handler with
    | error e => rw [hh] at hok; cases hok
    | ok r1 =>
      rw [hh] at hok
      rw [ih r1 (fun g2 hg2 => hne g2 (List.mem_cons_of_mem _ hg2)) hok]
      exact staticRoute_Handle_other hh m ss (hne g (List.mem_cons_self _ _))

theorem findRoute_of_staticRoute (r : Router H) (m p : String) (h : H)
    (hs : r.staticRoute m (pathSegments p) = some h) :
    r.findRoute m p = (some h, []) := by
  unfold Router.staticRoute at hs
  unfold Router.findRoute
  cases hg : mapGet r.trees m with
  | none => rw [hg] at hs; cases hs
  | some root =>
    rw [hg] at hs
    simp only []
    rw [← searchRoute_filter]
    apply searchRoute_of_staticHandler _ _ _ _ _ hs
    intro s hm
    unfold pathSegments at hm
    simpa using (List.mem_filter.mp hm).2

/-! ## Static routes take precedence -/

/-- C1. In a router in any state, register the pattern `p`, whose non-empty
segments are all static, under method `m` with handler `h`, then perform any
further registrations none of which is for the same method and segment
sequence (so `h` is the handler last registered for `p`): `findRoute m p`
returns `h` with no parameter bindings, whatever parameter or wildcard routes
the router holds. -/
theorem static_route_selected (r0 r1 r2 : Router H) (m p : String) (h : H)
    (later : List (Registration H))
    (hstatic : ∀ s ∈ pathSegments p, isStaticSegment s = true)
    (hreg : r0.Handle m p (some h) = .ok r1)
    (hlater : ∀ g ∈ later, g.method = m → pathSegments g.path ≠ pathSegments p)
    (hbuild : r1.registerAll later = .ok r2) :
    r2.findRoute m p = (some h, []) := by
  apply findRoute_of_staticRoute
  rw [staticRoute_registerAll later r1 r2 m _ hlater hbuild]
  exact staticRoute_Handle_same hreg hstatic

/-- Witness of C1: `/users/active` registered on an empty router, then `/users/:id`. -/
theorem static_route_selected_witness :
    Router.findRoute
      { trees := [("GET", node.mk "" none
          [("users", node.mk "users" none
            [("active", node.mk "active" (some 2) [] none none false false)]
            (some (node.mk "id" (some 1) [] none none true false)) none false false)]
          none none false false)],
        middleware := [], NotFound := (0 : Nat) }
      "GET" "/users/active" = (some 2, []) :=
  static_route_selected (New 0)
    { trees := [("GET", node.mk "" none
        [("users", node.mk "users" none
          [("active", node.mk "active" (some 2) [] none none false false)]
          none none false false)]
        none none false false)],
      middleware := [], NotFound := 0 }
    _ "GET" "/users/active" 2 [⟨"GET", "/users/:id", some 1⟩]
    (by decide) (by rfl)
    (by intro g hg; simp at hg; subst hg; decide)
    (by rfl)

/-! ## Matching precedence -/

theorem searchStep_static (n : node H) (segment : String) (remaining : List String)
    (params : Params) (c : node H) (h : H) (p : Params)
    (hc : mapGet n.children segment = some c)
    (hr : searchRoute c remaining params = (some h, p)) :
    searchStep n segment remaining params = (some h, p) := by
  simp only [searchStep, hc, hr]

theorem searchStep_static_fails (n : node H) (segment : String) (remaining : List String)
    (params : Params) (hs : staticFails n segment remaining params) :
    searchStep n segment remaining params =
      match (match n.param with
          | some pn => searchRoute pn remaining (mapSet params pn.path segment)
          | none => ((none, []) : Option H × Params)) with
      | (some h, p) => (some h, p)
      | (none, _) =>
        match n.wildcard with
        | some w => (w.handler, params)
        | none => (none, []) := by
  unfold searchStep
  cases hc : mapGet n.children segment with
  | none => rfl
  | some c =>
    have h1 := hs c hc
    cases hr : searchRoute c remaining params with
    | mk a b =>
      rw [hr] at h1
      simp only at h1
      subst h1
      simp only [hr]

theorem searchStep_param_fails (n : node H) (segment : String) (remaining : List String)
    (params : Params) (hs : staticFails n segment remaining params)
    (hp : paramFails n segment remaining params) :
    searchStep n segment remaining params =
      match n.wildcard with
      | some w => (w.handler, params)
      | none => (none, []) := by
  rw [searchStep_static_fails n segment remaining params hs]
  cases hc : n.param with
  | none => rfl
  | some pn =>
    have h1 := hp pn hc
    cases hr : searchRoute pn remaining (mapSet params pn.path segment) with
    | mk a b =>
      rw [hr] at h1
      simp only at h1
      subst h1
      simp only [hr]

/-- C2. At a node, for a segment list whose non-empty segments are
`segment :: remaining`: (1) when the static child for `segment` yields a
handler for `remaining`, that result is returned; (2) when the static
alternative yields none and the parameter child yields a handler under the
extended bindings, that result is returned; (3) when both yield none and a
wildcard child exists, the wildcard handler is returned with the bindings the
node was entered with; (4) when nothing applies, no handler and no bindings.
Instance: with `/users/active/x`, `/users/:id/y` and `/users/*` registered,
`/users/active/y` gives the `:id` handler with exactly `id = active` and
`/users/active/z` gives the wildcard handler with no binding. -/
theorem search_precedence :
    (∀ (n : node H) (segments : List String) (params : Params) (segment : String)
      (remaining : List String),
      segments.filter (fun seg => seg ≠ "") = segment :: remaining →
      (∀ c h p, mapGet n.children segment = some c →
        searchRoute c remaining params = (some h, p) →
        searchRoute n segments params = (some h, p)) ∧
      (staticFails n segment remaining params →
        ∀ pn h p, n.param = some pn →
          searchRoute pn remaining (mapSet params pn.path segment) = (some h, p) →
          searchRoute n segments params = (some h, p)) ∧
      (staticFails n segment remaining params → paramFails n segment remaining params →
        ∀ w, n.wildcard = some w → searchRoute n segments params = (w.handler, params)) ∧
      (staticFails n segment remaining params → paramFails n segment remaining params →
        n.wildcard = none → searchRoute n segments params = (none, []))) ∧
    (∀ (nf hx hy hw : H) (r : Router H),
      (New nf).registerAll [⟨"GET", "/users/active/x", some hx⟩,
        ⟨"GET", "/users/:id/y", some hy⟩, ⟨"GET", "/users/*", some hw⟩] = .ok r →
      r.findRoute "GET" "/users/active/y" = (some hy, [("id", "active")]) ∧
      r.findRoute "GET" "/users/active/z" = (some hw, [])) := by
  refine ⟨?_, ?_⟩
  · intro n segments params segment remaining hf
    have hu : searchRoute n segments params = searchStep n segment remaining params := by
      rw [searchRoute_unfold, hf]
    refine ⟨?_, ?_, ?_, ?_⟩
    · intro c h p hc hr
      rw [hu]
      exact searchStep_static n segment remaining params c h p hc hr
    · intro hs pn h p hpn hr
      rw [hu, searchStep_static_fails n segment remaining params hs, hpn]
      simp only [hr]
    · intro hs hp w hw
      rw [hu, searchStep_param_fails n segment remaining params hs hp, hw]
    · intro hs hp hw
      rw [hu, searchStep_param_fails n segment remaining params hs hp, hw]
  · intro nf hx hy hw r hr
    simp [New, Router.registerAll, Router.Handle, addRoute, addSegments, mapGet, mapSet,
      stringsSplit, startsWithColon, dropFirst, node.empty, node.setChild, node.setParam,
      node.setWildcard, node.setHandler, node.children, node.param, node.wildcard,
      List.splitOn, List.splitOnP, List.splitOnP.go] at hr
    subst hr
    simp [Router.findRoute, searchRoute_unfold, searchStep, mapGet, mapSet,
      stringsSplit, node.children, node.param, node.wildcard, node.handler, node.path,
      List.splitOn, List.splitOnP, List.splitOnP.go]

/-- Witness of C2: below `/users`, the request segments `active/z` fail in the
static child and in the parameter child and fall to the wildcard. -/
theorem search_precedence_witness :
    ["active", "z"].filter (fun seg => seg ≠ "") = ["active", "z"] ∧
    searchRoute
      (node.mk "users" (none : Option Nat)
        [("active", node.mk "active" none
          [("x", node.mk "x" (some 1) [] none none false false)] none none false false)]
        (some (node.mk "id" none
          [("y", node.mk "y" (some 2) [] none none false false)] none none true false))
        (some (node.mk "*" (some 3) [] none none false true)) false false)
      ["active", "z"] [] = (some 3, []) :=
  ⟨by decide,
   (search_precedence.1 _ ["active", "z"] [] "active" ["z"] (by decide)).2.2.1
    (by
      intro c hc
      simp [node.children, mapGet] at hc
      subst hc
      simp [searchRoute_unfold, searchStep, node.children, node.param, node.wildcard, mapGet])
    (by
      intro pn hpn
      simp [node.param] at hpn
      subst hpn
      simp [searchRoute_unfold, searchStep, node.children, node.param, node.wildcard, mapGet])
    (node.mk "*" (some 3) [] none none false true) rfl⟩

/-! ## Splitting a joined path -/

theorem joinPath_cons_data (s : String) (rest : List String) :
    (joinPath (s :: rest)).data = '/' :: (s.data ++ (joinPath rest).data) := by
  simp [joinPath, String.data_append]

theorem splitOn_joinPath (segs : List String) (hs : ∀ s ∈ segs, '/' ∉ s.data)
    (pre : List Char) (hpre : '/' ∉ pre) :
    (pre ++ (joinPath segs).data).splitOn '/' = pre :: segs.map (fun s => s.data) := by
  induction segs generalizing pre with
  | nil =>
    simp only [joinPath, List.append_nil, List.map_nil]
    apply List.splitOnP_eq_single
    intro x hx
    simp only [beq_iff_eq]
    intro hxe
    exact hpre (hxe ▸ hx)
  | cons s rest ih =>
    rw [joinPath_cons_data]
    unfold List.splitOn
    rw [List.splitOnP_first]
    · have h2 := ih (fun x hx => hs x (List.mem_cons_of_mem _ hx)) s.data
        (hs s (List.mem_cons_self _ _))
      unfold List.splitOn at h2
      rw [h2]
      rfl
    · intro x hx
      simp only [beq_iff_eq]
      intro hxe
      exact hpre (hxe ▸ hx)
    · simp

theorem stringsSplit_joinPath (segs : List String) (hs : ∀ s ∈ segs, '/' ∉ s.data) :
    (stringsSplit (joinPath segs)).drop 1 = segs := by
  have h := splitOn_joinPath segs hs [] (by simp)
  simp only [List.nil_append] at h
  unfold stringsSplit
  rw [h]
  simp only [List.map_cons, List.drop_succ_cons, List.drop_zero, List.map_map]
  conv => rhs; rw [← List.map_id segs]
  apply List.map_congr_left
  intro a _
  rfl

theorem pathSegments_joinPath (segs : List String) (hs : ∀ s ∈ segs, isSegment s) :
    pathSegments (joinPath segs) = segs := by
  unfold pathSegments
  rw [stringsSplit_joinPath segs (fun s h => (hs s h).2)]
  exact filter_nonEmpty_of_all segs (fun s h => (hs s h).1)

/-! ## Wildcard routes -/

theorem children_setHandler (n : node H) (h : Option H) :
    (n.setHandler h).children = n.children := by
  cases n; rfl

theorem children_setParam (n pn : node H) : (n.setParam pn).children = n.children := by
  cases n; rfl

theorem children_setWildcard (n wn : node H) : (n.setWildcard wn).children = n.children := by
  cases n; rfl

theorem children_setChild (n : node H) (k : String) (c : node H) :
    (n.setChild k c).children = mapSet n.children k c := by
  cases n; rfl

/-- Registering a pattern whose first non-empty segment is not `seg` leaves
the static child `seg` of the node as it was. -/
theorem child_addSegments_other (segments : List String) (n : node H) (h : Option H)
    (seg : String)
    (hne : (segments.filter (fun s => s ≠ "")).head? ≠ some seg) :
    mapGet (addSegments n segments h).children seg = mapGet n.children seg := by
  induction segments generalizing n with
  | nil => rw [addSegments, children_setHandler]
  | cons q rest ih =>
    by_cases he : q = ""
    · subst he
      rw [addSegments_skip]
      apply ih
      simpa using hne
    · have hf : (q :: rest).filter (fun s => s ≠ "") =
          q :: rest.filter (fun s => s ≠ "") := by simp [he]
      rw [hf] at hne
      by_cases hc : startsWithColon q = true
      · rw [addSegments_param n q rest h he hc, children_setParam]
      · have hc2 : startsWithColon q = false := by simpa using hc
        by_cases hw : q = "*"
        · rw [addSegments_wildcard n q rest h he hc2 hw, children_setWildcard]
        · rw [addSegments_static n q rest h he hc2 hw, children_setChild]
          apply mapGet_mapSet_other
          intro hq
          apply hne
          simp [hq]

theorem childAt_Handle_other {r r1 : Router H} {m p : String} {h : Option H}
    (hok : r.Handle m p h = .ok r1) (m2 seg : String)
    (hne : m = m2 → firstSegment p ≠ some seg) :
    r1.childAt m2 seg = r.childAt m2 seg := by
  unfold Router.childAt
  rw [Handle_trees hok]
  by_cases hm : m = m2
  · subst hm
    rw [mapGet_mapSet_same]
    have h2 := hne rfl
    unfold firstSegment pathSegments at h2
    simp only []
    rw [child_addSegments_other _ _ _ _ h2]
    cases hg : mapGet r.trees m with
    | none => simp [node.empty, node.children, mapGet]
    | some root => simp
  · rw [mapGet_mapSet_other _ _ _ _ (fun h => hm h.symm)]

theorem childAt_registerAll (later : List (Registration H)) (r r2 : Router H)
    (m seg : String)
    (hne : ∀ g ∈ later, g.method = m → firstSegment g.path ≠ some seg)
    (hok : r.registerAll later = .ok r2) :
    r2.childAt m seg = r.childAt m seg := by
  induction later generalizing r with
  | nil =>
    simp only [Router.registerAll] at hok
    cases hok
    rfl
  | cons g rest ih =>
    simp only [Router.registerAll] at hok
    cases hh : r.Handle g.method g.path g.handler with
    | error e => rw [hh] at hok; cases hok
    | ok r1 =>
      rw [hh] at hok
      rw [ih r1 (fun g2 hg2 => hne g2 (List.mem_cons_of_mem _ hg2)) hok]
      exact childAt_Handle_other hh m seg (hne g (List.mem_cons_self _ _))

/-- The node that registering `/static/*` creates below a root without a
`static` child. -/
theorem childAt_Handle_static_wildcard {r r1 : Router H} {h : Option H}
    (hfree : r.childAt "GET" "static" = none)
    (hok : r.Handle "GET" "/static/*" h = .ok r1) :
    r1.childAt "GET" "static" =
      some (node.mk "static" none [] none
        (some (node.mk "*" h [] none none false true)) false false) := by
  unfold Router.childAt at hfree ⊢
  rw [Handle_trees hok, mapGet_mapSet_same]
  have hsplit : (stringsSplit "/static/*").drop 1 = ["static", "*"] := by decide
  rw [hsplit]
  simp only []
  rw [addSegments_static _ "static" ["*"] h (by decide) (by decide) (by decide),
    children_setChild, mapGet_mapSet_same]
  have hnone : mapGet (match mapGet r.trees "GET" with
      | some root => root
      | none => node.empty).children "static" = none := by
    cases hg : mapGet r.trees "GET" with
    | none => simp [node.empty, node.children, mapGet]
    | some root => rw [hg] at hfree; simpa using hfree
  rw [hnone]
  simp only []
  rw [addSegments_wildcard _ "*" [] h (by decide) (by decide) rfl]
  simp [addSegments, node.wildcard, node.setWildcard, node.setHandler]

/-- Below a root whose `static` child holds nothing but a wildcard child with
handler `h`, every request `static/s/...` with at least one further segment
is answered by `h`. -/
theorem searchRoute_static_wildcard (root : node H) (h : Option H) (s : String)
    (rest : List String) (params : Params)
    (hne : ∀ x ∈ s :: rest, x ≠ "")
    (hc : mapGet root.children "static" =
      some (node.mk "static" none [] none
        (some (node.mk "*" h [] none none false true)) false false)) :
    searchRoute root ("static" :: s :: rest) params =
      match h with
      | some f => (some f, params)
      | none =>
        match (match root.param with
            | some pn => searchRoute pn (s :: rest) (mapSet params pn.path "static")
            | none => ((none, []) : Option H × Params)) with
        | (some f, p) => (some f, p)
        | (none, _) =>
          match root.wildcard with
          | some w => (w.handler, params)
          | none => (none, []) := by
  have hall : ∀ x ∈ "static" :: s :: rest, x ≠ "" := by
    intro x hx
    rcases List.mem_cons.mp hx with hx | hx
    · subst hx; decide
    · exact hne x hx
  have hin : searchRoute (node.mk "static" none [] none
      (some (node.mk "*" h [] none none false true)) false false) (s :: rest) params =
      (h, params) := by
    rw [searchRoute_unfold, filter_nonEmpty_of_all _ hne]
    simp [searchStep, node.children, node.param, node.wildcard, node.handler, mapGet]
  rw [searchRoute_unfold, filter_nonEmpty_of_all _ hall]
  simp only [searchStep, hc, hin]
  cases h <;> rfl

theorem withParams_nil (req : Request) : withParams req [] = req := by
  simp [withParams]

/-- C3. Register `/static/*` under GET with handler `h` on a router whose GET
root has no `static` child, then perform any registrations that are not for
GET patterns below `/static`. For every path `/static/s1/.../sk` with
`k ≥ 1` segments, `findRoute` returns `h` without parameter bindings, and
`ServeHTTP` runs `h` (inside the global middleware) on the request as it
came in, so with its URL path, and the remainder after `/static/`, intact. -/
theorem wildcard_route_dispatch {β : Type} (r0 r1 r2 : Router (HandlerFunc β))
    (h : HandlerFunc β) (later : List (Registration (HandlerFunc β)))
    (segs : List String) (req : Request)
    (hfree : r0.childAt "GET" "static" = none)
    (hreg : r0.Handle "GET" "/static/*" (some h) = .ok r1)
    (hlater : ∀ g ∈ later, g.method = "GET" → firstSegment g.path ≠ some "static")
    (hbuild : r1.registerAll later = .ok r2)
    (hk : segs ≠ []) (hsegs : ∀ s ∈ segs, isSegment s)
    (hm : req.Method = "GET") (hp : req.URL.Path = joinPath ("static" :: segs)) :
    r2.findRoute "GET" (joinPath ("static" :: segs)) = (some h, []) ∧
    r2.ServeHTTP req = applyMiddleware r2.middleware h req := by
  have hchild := childAt_Handle_static_wildcard hfree hreg
  rw [← childAt_registerAll later r1 r2 "GET" "static" hlater hbuild] at hchild
  have hfind : r2.findRoute "GET" (joinPath ("static" :: segs)) = (some h, []) := by
    unfold Router.childAt at hchild
    unfold Router.findRoute
    cases hg : mapGet r2.trees "GET" with
    | none => rw [hg] at hchild; cases hchild
    | some root =>
      rw [hg] at hchild
      simp only [] at hchild ⊢
      have hall : ∀ x ∈ "static" :: segs, '/' ∉ x.data := by
        intro x hx
        rcases List.mem_cons.mp hx with hx | hx
        · subst hx; decide
        · exact (hsegs x hx).2
      rw [stringsSplit_joinPath _ hall]
      cases segs with
      | nil => exact absurd rfl hk
      | cons s rest =>
        rw [searchRoute_static_wildcard root (some h) s rest [] (fun x hx => (hsegs x hx).1)
          hchild]
  refine ⟨hfind, ?_⟩
  unfold Router.ServeHTTP
  rw [hm, hp, hfind]
  simp only [withParams_nil]

/-- Witness of C3: `GET /static/css/a.css` on a router holding only `/static/*`. -/
theorem wildcard_route_dispatch_witness :
    Router.ServeHTTP
      { trees := [("GET", node.mk "" none
          [("static", node.mk "static" none [] none
            (some (node.mk "*" (some (fun (_ : Request) => (200 : Nat))) [] none none
              false true)) false false)]
          none none false false)],
        middleware := [], NotFound := fun _ => 404 }
      { Method := "GET", URL := { Path := "/static/css/a.css", Query := [] },
        Header := [], RemoteAddr := "10.0.0.1:5000", Cookies := [] } = 200 :=
  (wildcard_route_dispatch (New (fun _ => 404)) _ _ (fun _ => 200) [] ["css", "a.css"]
    { Method := "GET", URL := { Path := "/static/css/a.css", Query := [] },
      Header := [], RemoteAddr := "10.0.0.1:5000", Cookies := [] }
    (by rfl) (by rfl) (by intro g hg; cases hg) (by rfl) (by decide)
    (by
      intro s hs
      simp only [List.mem_cons, List.mem_singleton, List.not_mem_nil, or_false] at hs
      rcases hs with hs | hs <;> subst hs <;> exact ⟨by decide, by decide⟩)
    rfl (by decide)).2

end router

/-! ## Lockout -/

namespace auth

theorem isLocked_below (m : Manager) (now : Int) (ip : String)
    (h : m.failureCount ip < m.config.MaxLoginAttempts) : m.isLocked now ip = (false, m) := by
  unfold Manager.isLocked
  unfold Manager.failureCount at h
  cases hg : mapGet m.attempts ip with
  | none => rfl
  | some a =>
    rw [hg] at h
    simp only [] at h ⊢
    rw [if_neg (by omega)]

/-- One failed login below the threshold: the validation error is returned and
the count grows by one; reaching the threshold sets the lock time. -/
theorem login_fails_step (m : Manager) (ip : String) (c : LoginCall) (err : String)
    (h : m.failureCount ip < m.config.MaxLoginAttempts)
    (herr : (validateSystemUser c.host c.username c.password).1 = .error err) :
    (m.login ip c).result = .error err ∧
    (m.login ip c).calls = (validateSystemUser c.host c.username c.password).2 ∧
    (m.login ip c).manager.config = m.config ∧
    (m.login ip c).manager.sessions = m.sessions ∧
    ∃ a, mapGet (m.login ip c).manager.attempts ip = some a ∧
      a.Count = m.failureCount ip + 1 ∧ a.LastTry = c.now ∧
      (a.Count ≥ m.config.MaxLoginAttempts → a.LockedUntil = c.now + m.config.LockoutDuration) := by
  unfold Manager.login Manager.Authenticate
  rw [isLocked_below m c.now ip h]
  cases hv : validateSystemUser c.host c.username c.password with
  | mk res calls =>
    rw [hv] at herr
    simp only [] at herr
    subst herr
    simp only [Manager.recordFailedAttempt, mapGet_mapSet_same, Manager.failureCount]
    refine ⟨trivial, trivial, trivial, trivial, ?_⟩
    refine ⟨_, rfl, ?_⟩
    cases hg : mapGet m.attempts ip with
    | none =>
      simp only []
      split_ifs with hc
      · exact ⟨rfl, rfl, fun _ => rfl⟩
      · exact ⟨rfl, rfl, fun h2 => absurd h2 hc⟩
    | some a =>
      simp only []
      split_ifs with hc
      · exact ⟨rfl, rfl, fun _ => rfl⟩
      · exact ⟨rfl, rfl, fun h2 => absurd h2 hc⟩

theorem failureCount_of_mapGet {m : Manager} {ip : String} {a : LoginAttempts}
    (h : mapGet m.attempts ip = some a) : m.failureCount ip = a.Count := by
  simp [Manager.failureCount, h]

theorem loginAll_append (m : Manager) (ip : String) (xs ys : List LoginCall) :
    m.loginAll ip (xs ++ ys) = (m.loginAll ip xs).loginAll ip ys := by
  induction xs generalizing m with
  | nil => rfl
  | cons c rest ih =>
    show (m.login ip c).manager.loginAll ip (rest ++ ys) = _
    exact ih _

/-- A run of failed logins that stays within the threshold counts each one. -/
theorem loginAll_fails_count (fails : List LoginCall) (m : Manager) (ip : String)
    (hlen : m.failureCount ip + fails.length ≤ m.config.MaxLoginAttempts)
    (hf : ∀ c ∈ fails, c.fails) :
    (m.loginAll ip fails).failureCount ip = m.failureCount ip + fails.length ∧
    (m.loginAll ip fails).config = m.config := by
  induction fails generalizing m with
  | nil => simp [Manager.loginAll]
  | cons c rest ih =>
    simp only [List.length_cons, Nat.cast_add, Nat.cast_one] at hlen
    obtain ⟨err, herr⟩ := hf c (List.mem_cons_self _ _)
    have hstep := login_fails_step m ip c err (by omega) herr
    obtain ⟨_, _, hcfg, _, a, hget, hcount, _, _⟩ := hstep
    have hfc : (m.login ip c).manager.failureCount ip = m.failureCount ip + 1 := by
      rw [failureCount_of_mapGet hget, hcount]
    have := ih (m.login ip c).manager
      (by rw [hcfg, hfc]; omega) (fun x hx => hf x (List.mem_cons_of_mem _ hx))
    simp only [Manager.loginAll, List.length_cons, Nat.cast_add, Nat.cast_one]
    rw [this.1, this.2, hfc, hcfg]
    exact ⟨by omega, rfl⟩

/-- A client whose record has reached the threshold and whose lock time lies
ahead is rejected before any check, and nothing changes. -/
theorem login_locked (m : Manager) (ip : String) (c : LoginCall) (a : LoginAttempts)
    (hget : mapGet m.attempts ip = some a)
    (hcount : a.Count ≥ m.config.MaxLoginAttempts) (ht : c.now < a.LockedUntil) :
    (m.login ip c).result = .error lockedMessage ∧ (m.login ip c).calls = [] ∧
    (m.login ip c).manager = m := by
  unfold Manager.login Manager.Authenticate Manager.isLocked
  simp only [hget]
  rw [if_pos hcount, if_pos ht]
  exact ⟨rfl, rfl, rfl⟩

end auth

namespace auth

theorem failureCount_fresh {m : Manager} {ip : String} (h : mapGet m.attempts ip = none) :
    m.failureCount ip = 0 := by
  simp [Manager.failureCount, h]

/-- C4. From a manager without a counter for client `X`, let `pre ++ [last]`
be `N = MaxLoginAttempts` consecutive logins from `X` whose credentials fail
validation (so `N ≥ 1`). (1) Each of them returns the validation error and
raises the count of `X` by exactly one, from the number of failures before
it. (2) After the `N`-th, at time `last.now`, the record of `X` has count `N`
and locked-until `last.now + LockoutDuration`. (3) Every login from `X` at a
time before that, whatever its credentials and host, returns the lockout
error, makes no external call and leaves the manager as it was. -/
theorem lockout_after_failures (m0 : Manager) (X : String) (pre : List LoginCall)
    (last : LoginCall)
    (hfresh : mapGet m0.attempts X = none)
    (hlen : ((pre ++ [last]).length : Int) = m0.config.MaxLoginAttempts)
    (hf : ∀ c ∈ pre ++ [last], c.fails) :
    (∀ before c after err, pre ++ [last] = before ++ c :: after →
      (validateSystemUser c.host c.username c.password).1 = .error err →
      (m0.loginAll X before).failureCount X = before.length ∧
      ((m0.loginAll X before).login X c).result = .error err ∧
      ((m0.loginAll X before).login X c).manager.failureCount X = before.length + 1) ∧
    (∃ a, mapGet (m0.loginAll X (pre ++ [last])).attempts X = some a ∧
      a.Count = m0.config.MaxLoginAttempts ∧ a.LastTry = last.now ∧
      a.LockedUntil = last.now + m0.config.LockoutDuration) ∧
    (∀ c : LoginCall, c.now < last.now + m0.config.LockoutDuration →
      ((m0.loginAll X (pre ++ [last])).login X c).result = .error lockedMessage ∧
      ((m0.loginAll X (pre ++ [last])).login X c).calls = [] ∧
      ((m0.loginAll X (pre ++ [last])).login X c).manager = m0.loginAll X (pre ++ [last])) := by
  have h0 := failureCount_fresh hfresh
  -- the state before any call of the run
  have hprefix : ∀ before c after, pre ++ [last] = before ++ c :: after →
      (m0.loginAll X before).failureCount X = before.length ∧
      (m0.loginAll X before).config = m0.config ∧
      (before.length : Int) < m0.config.MaxLoginAttempts := by
    intro before c after hsplit
    have hl : (before.length : Int) + 1 + after.length = m0.config.MaxLoginAttempts := by
      rw [← hlen, hsplit]
      simp only [List.length_append, List.length_cons, Nat.cast_add, Nat.cast_one]
      omega
    have hcnt := loginAll_fails_count before m0 X (by rw [h0]; omega)
      (fun x hx => hf x (by rw [hsplit]; exact List.mem_append_left _ hx))
    rw [h0, zero_add] at hcnt
    exact ⟨hcnt.1, hcnt.2, by omega⟩
  have hlast := hprefix pre last [] rfl
  obtain ⟨errL, herrL⟩ := hf last (List.mem_append_right _ (List.mem_singleton_self _))
  have hstepL := login_fails_step (m0.loginAll X pre) X last errL
    (by rw [hlast.1, hlast.2.1]; exact hlast.2.2) herrL
  obtain ⟨_, _, hcfgL, _, a, hgetL, hcountL, htryL, hlockL⟩ := hstepL
  have hrun : m0.loginAll X (pre ++ [last]) = ((m0.loginAll X pre).login X last).manager := by
    rw [loginAll_append]
    rfl
  have hN : a.Count = m0.config.MaxLoginAttempts := by
    rw [hcountL, hlast.1, ← hlen]
    simp
  refine ⟨?_, ?_, ?_⟩
  · intro before c after err hsplit herr
    obtain ⟨hc1, hc2, hc3⟩ := hprefix before c after hsplit
    have hstep := login_fails_step (m0.loginAll X before) X c err
      (by rw [hc1, hc2]; exact hc3) herr
    obtain ⟨hres, _, _, _, b, hget, hcount, _, _⟩ := hstep
    refine ⟨hc1, hres, ?_⟩
    rw [failureCount_of_mapGet hget, hcount, hc1]
  · refine ⟨a, by rw [hrun]; exact hgetL, hN, htryL, ?_⟩
    rw [← hlast.2.1]
    apply hlockL
    rw [hN, hlast.2.1]
  · intro c hc
    rw [hrun]
    apply login_locked _ X c a hgetL
    · rw [hcfgL, hlast.2.1, hN]
    · rw [hlockL (by rw [hN, hlast.2.1]), hlast.2.1]
      exact hc

/-- Witness of C4: threshold 3, lockout 15 minutes; three failures at times
1, 2, 3, and then a login with the right password for `root` is held off. -/
theorem lockout_after_failures_witness :
    (((NewManager scenarioConfig).loginAll "10.0.0.1"
        ([⟨emptyHost, 1, "s1", "eve", "a"⟩, ⟨emptyHost, 2, "s2", "eve", "b"⟩] ++
          [⟨emptyHost, 3, "s3", "eve", "c"⟩])).login "10.0.0.1"
      ⟨rootHost, 4, "s4", "root", "secret"⟩).result = .error lockedMessage :=
  ((lockout_after_failures
      (NewManager scenarioConfig)
      "10.0.0.1" [⟨emptyHost, 1, "s1", "eve", "a"⟩, ⟨emptyHost, 2, "s2", "eve", "b"⟩]
      ⟨emptyHost, 3, "s3", "eve", "c"⟩ rfl rfl
      (by
        intro c hc
        simp only [List.cons_append, List.nil_append, List.mem_cons, List.mem_singleton,
          List.not_mem_nil, or_false] at hc
        rcases hc with hc | hc | hc <;> subst hc <;> exact ⟨"用户不存在", rfl⟩)).2.2
    ⟨rootHost, 4, "s4", "root", "secret"⟩ (by decide)).1

end auth

namespace auth

/-! ## Unlocking and reset -/

theorem login_success (m : Manager) (ip : String) (c : LoginCall) (user : User)
    (hopen : (m.isLocked c.now ip).1 = false)
    (hvalid : (validateSystemUser c.host c.username c.password).1 = .ok user) :
    (m.login ip c).result = .ok
      { ID := c.sessionID, Username := user.Username, UserID := user.UID,
        LoginTime := c.now, LastSeen := c.now, IPAddress := ip } ∧
    mapGet (m.login ip c).manager.sessions c.sessionID = some
      { ID := c.sessionID, Username := user.Username, UserID := user.UID,
        LoginTime := c.now, LastSeen := c.now, IPAddress := ip } ∧
    mapGet (m.login ip c).manager.attempts ip = none ∧
    (m.login ip c).manager.config = m.config := by
  unfold Manager.login Manager.Authenticate
  cases hl : m.isLocked c.now ip with
  | mk b m1 =>
    rw [hl] at hopen
    simp only [] at hopen
    subst hopen
    have hcfg : m1.config = m.config := by
      unfold Manager.isLocked at hl
      split at hl
      · cases hl; rfl
      · split at hl
        · split at hl
          · cases hl
          · cases hl; rfl
        · cases hl; rfl
    cases hv : validateSystemUser c.host c.username c.password with
    | mk res calls =>
      rw [hv] at hvalid
      simp only [] at hvalid
      subst hvalid
      simp only [mapGet_mapSet_same, mapGet_mapDelete_same, hcfg, and_self]

theorem isLocked_elapsed (m : Manager) (now : Int) (ip : String) (a : LoginAttempts)
    (hget : mapGet m.attempts ip = some a) (ht : a.LockedUntil ≤ now) :
    (m.isLocked now ip).1 = false := by
  unfold Manager.isLocked
  simp only [hget]
  split_ifs with h1 h2
  · omega
  · rfl
  · rfl

theorem login_ok_resets (m : Manager) (ip : String) (c : LoginCall) (s : Session)
    (hok : (m.login ip c).result = .ok s) :
    mapGet (m.login ip c).manager.attempts ip = none := by
  unfold Manager.login Manager.Authenticate at hok ⊢
  cases hl : m.isLocked c.now ip with
  | mk b m1 =>
    rw [hl] at hok
    cases b with
    | true => simp only [] at hok; cases hok
    | false =>
      simp only [] at hok ⊢
      cases hv : validateSystemUser c.host c.username c.password with
      | mk res calls =>
        rw [hv] at hok
        cases res with
        | error e => simp only [] at hok; cases hok
        | ok user => simp only [mapGet_mapDelete_same]

/-- C5. (1) For a client `X` whose record is locked until `L` (count at the
threshold or above), a login from `X` at any time `t ≥ L` with credentials
that pass validation returns a session, which is stored. (2) After every
successful login from `X`, locked before or not, the manager holds no failure
counter for `X`. (3) Hence failures before the success do not count: a later
run of failures from `X` within the threshold is counted from zero. -/
theorem elapsed_lock_and_reset (m : Manager) (X : String) (c : LoginCall) :
    (∀ (a : LoginAttempts) (user : User), mapGet m.attempts X = some a →
      a.Count ≥ m.config.MaxLoginAttempts → a.LockedUntil ≤ c.now →
      (validateSystemUser c.host c.username c.password).1 = .ok user →
      (m.login X c).result = .ok
        { ID := c.sessionID, Username := user.Username, UserID := user.UID,
          LoginTime := c.now, LastSeen := c.now, IPAddress := X } ∧
      mapGet (m.login X c).manager.sessions c.sessionID = some
        { ID := c.sessionID, Username := user.Username, UserID := user.UID,
          LoginTime := c.now, LastSeen := c.now, IPAddress := X }) ∧
    (∀ s, (m.login X c).result = .ok s →
      mapGet (m.login X c).manager.attempts X = none ∧
      (m.login X c).manager.failureCount X = 0) ∧
    (∀ s (fails : List LoginCall), (m.login X c).result = .ok s →
      (fails.length : Int) ≤ m.config.MaxLoginAttempts → (∀ f ∈ fails, f.fails) →
      ((m.login X c).manager.loginAll X fails).failureCount X = fails.length) := by
  refine ⟨?_, ?_, ?_⟩
  · intro a user hget _ ht hvalid
    have h := login_success m X c user (isLocked_elapsed m c.now X a hget ht) hvalid
    exact ⟨h.1, h.2.1⟩
  · intro s hok
    have h := login_ok_resets m X c s hok
    exact ⟨h, failureCount_fresh h⟩
  · intro s fails hok hlen hf
    have h := login_ok_resets m X c s hok
    have hcfg : (m.login X c).manager.config = m.config := by
      unfold Manager.login Manager.Authenticate
      cases hl : m.isLocked c.now X with
      | mk b m1 =>
        have hcfg1 : m1.config = m.config := by
          unfold Manager.isLocked at hl
          split at hl
          · cases hl; rfl
          · split at hl
            · split at hl <;> cases hl <;> rfl
            · cases hl; rfl
        cases b with
        | true => exact hcfg1
        | false =>
          simp only []
          cases hv : validateSystemUser c.host c.username c.password with
          | mk res calls =>
            cases res with
            | error e => simp only [Manager.recordFailedAttempt, hcfg1]
            | ok user => simp only [hcfg1]
    have hcnt := loginAll_fails_count fails (m.login X c).manager X
      (by rw [failureCount_fresh h, hcfg]; omega) hf
    rw [hcnt.1, failureCount_fresh h]
    simp

/-- Witness of C5: `root` logs in with the right password at the very moment
the lock of the client ends. -/
theorem elapsed_lock_and_reset_witness :
    (Manager.login
      { config := scenarioConfig, sessions := [],
        attempts := [("10.0.0.1", { Count := 3, LastTry := 3, LockedUntil := 900000000003 })] }
      "10.0.0.1" ⟨rootHost, 900000000003, "s4", "root", "secret"⟩).result = .ok
        { ID := "s4", Username := "root", UserID := "0", LoginTime := 900000000003,
          LastSeen := 900000000003, IPAddress := "10.0.0.1" } :=
  ((elapsed_lock_and_reset
      { config := scenarioConfig, sessions := [],
        attempts := [("10.0.0.1", { Count := 3, LastTry := 3, LockedUntil := 900000000003 })] }
      "10.0.0.1" ⟨rootHost, 900000000003, "s4", "root", "secret"⟩).1
    { Count := 3, LastTry := 3, LockedUntil := 900000000003 }
    { Username := "root", UID := "0", GID := "0", Home := "/root", Shell := "root",
      Groups := ["root"], IsAdmin := true }
    rfl (by decide) (by decide) (by rfl)).1

end auth

namespace auth

/-! ## Session validation -/

theorem ValidateSession_expired (m : Manager) (now : Int) (id : String) (s : Session)
    (h : mapGet m.sessions id = some s) (hexp : now - s.LastSeen > m.config.SessionTimeout) :
    m.ValidateSession now id =
      (.error "会话已过期", { m with sessions := mapDelete m.sessions id }) := by
  simp only [Manager.ValidateSession, h, if_pos hexp]

theorem ValidateSession_live (m : Manager) (now : Int) (id : String) (s : Session)
    (h : mapGet m.sessions id = some s)
    (hlive : ¬ now - s.LastSeen > m.config.SessionTimeout) :
    m.ValidateSession now id =
      (.ok { s with LastSeen := now },
        { m with sessions := mapSet m.sessions id { s with LastSeen := now } }) := by
  simp only [Manager.ValidateSession, h, if_neg hlive]

/-- C6. `ValidateSession id` at time `now`: (1) without a stored session of
that id it returns the not-found error and changes nothing; (2) for a stored
session with `now - LastSeen` beyond the timeout it returns the expired error
and removes the session, after which any further call returns not-found;
(3) otherwise it returns the session with `LastSeen = now` and every other
field unchanged, stores it so, and a further validation within the timeout
of `now` succeeds again. -/
theorem validate_session_cases (m : Manager) (now : Int) (id : String) :
    (mapGet m.sessions id = none →
      m.ValidateSession now id = (.error "会话不存在", m)) ∧
    (∀ s, mapGet m.sessions id = some s → now - s.LastSeen > m.config.SessionTimeout →
      (m.ValidateSession now id).1 = .error "会话已过期" ∧
      mapGet (m.ValidateSession now id).2.sessions id = none ∧
      ∀ now2, ((m.ValidateSession now id).2.ValidateSession now2 id).1
        = .error "会话不存在") ∧
    (∀ s, mapGet m.sessions id = some s → ¬ now - s.LastSeen > m.config.SessionTimeout →
      (m.ValidateSession now id).1 = .ok
        { ID := s.ID, Username := s.Username, UserID := s.UserID, LoginTime := s.LoginTime,
          LastSeen := now, IPAddress := s.IPAddress } ∧
      mapGet (m.ValidateSession now id).2.sessions id = some
        { ID := s.ID, Username := s.Username, UserID := s.UserID, LoginTime := s.LoginTime,
          LastSeen := now, IPAddress := s.IPAddress } ∧
      ∀ now2, ¬ now2 - now > m.config.SessionTimeout →
        ((m.ValidateSession now id).2.ValidateSession now2 id).1 = .ok
          { ID := s.ID, Username := s.Username, UserID := s.UserID, LoginTime := s.LoginTime,
            LastSeen := now2, IPAddress := s.IPAddress }) := by
  refine ⟨?_, ?_, ?_⟩
  · intro h
    simp only [Manager.ValidateSession, h]
  · intro s h hexp
    rw [ValidateSession_expired m now id s h hexp]
    refine ⟨rfl, mapGet_mapDelete_same _ _, ?_⟩
    intro now2
    simp only [Manager.ValidateSession, mapGet_mapDelete_same]
  · intro s h hlive
    rw [ValidateSession_live m now id s h hlive]
    refine ⟨rfl, mapGet_mapSet_same _ _ _, ?_⟩
    intro now2 h2
    simp only [Manager.ValidateSession, mapGet_mapSet_same, if_neg h2]

/-- Witness of C6: a session last seen at `0` is validated at time `10`. -/
theorem validate_session_cases_witness :
    (oneSessionManager.ValidateSession 10 "s1").1 = .ok
      { ID := "s1", Username := "root", UserID := "0", LoginTime := 0, LastSeen := 10,
        IPAddress := "10.0.0.1" } :=
  ((validate_session_cases oneSessionManager 10 "s1").2.2
    { ID := "s1", Username := "root", UserID := "0", LoginTime := 0, LastSeen := 0,
      IPAddress := "10.0.0.1" } rfl (by decide)).1

/-- C7, as the code has it: the expiry condition is `now - LastSeen > timeout`.
A stored session with `now - LastSeen` equal to the timeout is still valid:
`ValidateSession` returns it with `LastSeen = now` and keeps it stored; the
expired error is returned exactly when `now - LastSeen` exceeds the timeout. -/
theorem boundary_session_valid (m : Manager) (now : Int) (id : String) (s : Session)
    (hget : mapGet m.sessions id = some s) :
    (now - s.LastSeen = m.config.SessionTimeout →
      (m.ValidateSession now id).1 = .ok
        { ID := s.ID, Username := s.Username, UserID := s.UserID, LoginTime := s.LoginTime,
          LastSeen := now, IPAddress := s.IPAddress } ∧
      mapGet (m.ValidateSession now id).2.sessions id = some
        { ID := s.ID, Username := s.Username, UserID := s.UserID, LoginTime := s.LoginTime,
          LastSeen := now, IPAddress := s.IPAddress }) ∧
    ((m.ValidateSession now id).1 = .error "会话已过期" ↔
      now - s.LastSeen > m.config.SessionTimeout) := by
  constructor
  · intro hb
    rw [ValidateSession_live m now id s hget (by omega)]
    exact ⟨rfl, mapGet_mapSet_same _ _ _⟩
  · constructor
    · intro herr
      by_contra hlive
      rw [ValidateSession_live m now id s hget hlive] at herr
      cases herr
    · intro hexp
      rw [ValidateSession_expired m now id s hget hexp]

/-- Witness of the amended C7: the session last seen at `0` with a timeout of
one hour is validated exactly one hour later. -/
theorem boundary_session_valid_witness :
    (oneSessionManager.ValidateSession 3600000000000 "s1").1 = .ok
      { ID := "s1", Username := "root", UserID := "0", LoginTime := 0,
        LastSeen := 3600000000000, IPAddress := "10.0.0.1" } :=
  ((boundary_session_valid oneSessionManager 3600000000000 "s1"
    { ID := "s1", Username := "root", UserID := "0", LoginTime := 0, LastSeen := 0,
      IPAddress := "10.0.0.1" } rfl).1 (by decide)).1

/-- Counterexample to C7: with `now - LastSeen` equal to the timeout,
`ValidateSession` does not return the expired error and does not evict. -/
theorem boundary_session_expired_counterexample :
    (3600000000000 : Int) - 0 = oneSessionManager.config.SessionTimeout ∧
    (oneSessionManager.ValidateSession 3600000000000 "s1").1 ≠ .error "会话已过期" ∧
    mapGet (oneSessionManager.ValidateSession 3600000000000 "s1").2.sessions "s1" ≠ none := by
  refine ⟨by decide, ?_, ?_⟩
  · intro h
    have h2 : (oneSessionManager.ValidateSession 3600000000000 "s1").1 = .ok
        { ID := "s1", Username := "root", UserID := "0", LoginTime := 0,
          LastSeen := 3600000000000, IPAddress := "10.0.0.1" } := by rfl
    rw [h2] at h
    cases h
  · intro h
    have h2 : mapGet (oneSessionManager.ValidateSession 3600000000000 "s1").2.sessions "s1" =
        some
          { ID := "s1", Username := "root", UserID := "0", LoginTime := 0,
            LastSeen := 3600000000000, IPAddress := "10.0.0.1" } := by rfl
    rw [h2] at h
    cases h

end auth

namespace auth

/-! ## Messages of failed logins -/

theorem validateSystemUser_cause (host : Host) (username password : String)
    (cause : FailureCause) (h : failureCause host username password = some cause) :
    (validateSystemUser host username password).1 = .error (causeMessage cause) := by
  unfold failureCause at h
  unfold validateSystemUser
  cases hl : host.lookup username with
  | none =>
    rw [hl] at h
    simp only [Option.some.injEq] at h
    subst h
    rfl
  | some u =>
    rw [hl] at h
    simp only [] at h ⊢
    split_ifs at h ⊢ <;> (cases h; rfl)

theorem login_open_error (m : Manager) (ip : String) (c : LoginCall) (err : String)
    (hopen : (m.isLocked c.now ip).1 = false)
    (herr : (validateSystemUser c.host c.username c.password).1 = .error err) :
    (m.login ip c).result = .error err := by
  unfold Manager.login Manager.Authenticate
  cases hl : m.isLocked c.now ip with
  | mk b m1 =>
    rw [hl] at hopen
    simp only [] at hopen
    subst hopen
    cases hv : validateSystemUser c.host c.username c.password with
    | mk res calls =>
      rw [hv] at herr
      simp only [] at herr
      subst herr
      rfl

theorem redirect_url_injective (e1 e2 : String)
    (h : "/login?error=" ++ e1 = "/login?error=" ++ e2) : e1 = e2 := by
  have h1 := congrArg String.data h
  simp only [String.data_append] at h1
  exact String.ext (List.append_cancel_left h1)

theorem handleLoginFailure_injective (r : router.Request) (e1 e2 : String)
    (h : handlers.handleLoginFailure r e1 = handlers.handleLoginFailure r e2) : e1 = e2 := by
  unfold handlers.handleLoginFailure at h
  split_ifs at h
  · simp only [handlers.Response.json.injEq, List.cons.injEq, Prod.mk.injEq,
      handlers.JSON.str.injEq, true_and, and_true] at h
    exact h
  · simp only [handlers.Response.redirect.injEq, and_true] at h
    exact redirect_url_injective e1 e2 h

/-- C8, as the code has it: the message of a failed login names the check
that failed. For a client that is not locked out, `Authenticate` returns the
message of the first failing check (unknown user, system uid, no
administrative group, wrong password), and the four messages are pairwise
different. The login handlers pass the string on as it is: `APILogin`, and
`handleLogin` for a JSON or HX request, in the `error` field of a 401 body;
`handleLogin` for any other request in the `error` parameter of a 302
redirect to `/login`. On each of these paths different messages give
different responses, so the response tells the causes apart. -/
theorem failure_message_by_cause :
    (∀ (m : Manager) (X : String) (c : LoginCall) (cause : FailureCause),
      (m.isLocked c.now X).1 = false →
      failureCause c.host c.username c.password = some cause →
      (m.login X c).result = .error (causeMessage cause)) ∧
    (∀ c1 c2 : FailureCause, causeMessage c1 = causeMessage c2 → c1 = c2) ∧
    (∀ (r : router.Request) (err : String),
      (middleware.headerGet r "Content-Type" = "application/json" ∨
          middleware.headerGet r "Hx-Request" = "true" →
        handlers.handleLoginFailure r err =
          .json 401 [("error", .str err), ("success", .bool false)]) ∧
      (¬ (middleware.headerGet r "Content-Type" = "application/json" ∨
          middleware.headerGet r "Hx-Request" = "true") →
        handlers.handleLoginFailure r err = .redirect ("/login?error=" ++ err) 302) ∧
      handlers.APILoginFailure err =
        .json 401 [("error", .str err), ("success", .bool false)]) ∧
    (∀ (r : router.Request) (e1 e2 : String),
      (handlers.handleLoginFailure r e1 = handlers.handleLoginFailure r e2 → e1 = e2) ∧
      (handlers.APILoginFailure e1 = handlers.APILoginFailure e2 → e1 = e2)) ∧
    (∀ (r : router.Request) (c1 c2 : FailureCause), c1 ≠ c2 →
      handlers.handleLoginFailure r (causeMessage c1) ≠
        handlers.handleLoginFailure r (causeMessage c2) ∧
      handlers.APILoginFailure (causeMessage c1) ≠
        handlers.APILoginFailure (causeMessage c2)) := by
  have hcause : ∀ c1 c2 : FailureCause, causeMessage c1 = causeMessage c2 → c1 = c2 := by
    intro c1 c2 h
    cases c1 <;> cases c2 <;> first | rfl | (exact absurd h (by decide))
  have hapi : ∀ e1 e2 : String,
      handlers.APILoginFailure e1 = handlers.APILoginFailure e2 → e1 = e2 := by
    intro e1 e2 h
    simp only [handlers.APILoginFailure, handlers.Response.json.injEq, List.cons.injEq,
      Prod.mk.injEq, handlers.JSON.str.injEq, true_and, and_true] at h
    exact h
  refine ⟨?_, hcause, ?_, ?_, ?_⟩
  · intro m X c cause hopen hcause
    exact login_open_error m X c _ hopen (validateSystemUser_cause _ _ _ _ hcause)
  · intro r err
    refine ⟨fun h => ?_, fun h => ?_, rfl⟩
    · unfold handlers.handleLoginFailure
      rw [if_pos h]
    · unfold handlers.handleLoginFailure
      rw [if_neg h]
  · intro r e1 e2
    exact ⟨handleLoginFailure_injective r e1 e2, hapi e1 e2⟩
  · intro r c1 c2 hne
    exact ⟨fun h => hne (hcause _ _ (handleLoginFailure_injective r _ _ h)),
      fun h => hne (hcause _ _ (hapi _ _ h))⟩

/-- Witness of the amended C8: a wrong password for `root`. -/
theorem failure_message_by_cause_witness :
    ((NewManager scenarioConfig).login "10.0.0.1"
      ⟨rootHost, 1, "s1", "root", "wrong"⟩).result = .error "密码错误" :=
  failure_message_by_cause.1 (NewManager scenarioConfig) "10.0.0.1"
    ⟨rootHost, 1, "s1", "root", "wrong"⟩ .wrongPassword (by rfl) (by rfl)

/-- Counterexample to C8: two failed logins, one for an unknown user and one
with a wrong password, get different messages, and the responses differ on
each path: the 401 body of `APILogin` and of `handleLogin` for a JSON request,
and the redirect of `handleLogin` for a form post. -/
theorem uniform_failure_message_counterexample :
    ((NewManager scenarioConfig).login "10.0.0.1"
      ⟨emptyHost, 1, "s1", "root", "wrong"⟩).result = .error "用户不存在" ∧
    ((NewManager scenarioConfig).login "10.0.0.1"
      ⟨rootHost, 1, "s1", "root", "wrong"⟩).result = .error "密码错误" ∧
    handlers.APILoginFailure "用户不存在" ≠ handlers.APILoginFailure "密码错误" ∧
    handlers.handleLoginFailure handlers.jsonLogin "用户不存在" =
      .json 401 [("error", .str "用户不存在"), ("success", .bool false)] ∧
    handlers.handleLoginFailure handlers.jsonLogin "密码错误" =
      .json 401 [("error", .str "密码错误"), ("success", .bool false)] ∧
    handlers.handleLoginFailure handlers.directLogin "用户不存在" =
      .redirect "/login?error=用户不存在" 302 ∧
    handlers.handleLoginFailure handlers.directLogin "密码错误" =
      .redirect "/login?error=密码错误" 302 := by
  refine ⟨by rfl, by rfl, by decide, by decide, by decide, by decide, by decide⟩

end auth

/-! ## The authentication gate -/

namespace middleware

open router (Request)

theorem Store_Get_no_error (s : session.Store) (cookie : Option String) (now : Int)
    (dbOk : Bool) (freshID : String) : (s.Get cookie now dbOk freshID).1.2 = none := by
  unfold session.Store.Get
  cases cookie with
  | none => rfl
  | some v =>
    simp only []
    cases mapGet s.sessions v with
    | none => rfl
    | some sess =>
      simp only []
      split_ifs <;> rfl

/-- C9. Let `got` be what the store returns for the request. When the
session has `authenticated` equal to the boolean `true`, `Auth` runs the
wrapped handler (in the world the store call leaves). Otherwise the outcome
does not involve the wrapped handler: for a path that starts with `/api/` it
is status 401 with the JSON error body, for every other path a 302 redirect
to `/login`. Nothing but the flag and the path enters the decision. -/
theorem auth_gate (next : HandlerFunc) (r : Request) (w : World) :
    (((w.store.Get (mapGet r.Cookies "session_id") w.now w.dbOk w.freshID).1.1.Get
        "authenticated" = .bool true) →
      Auth next r w = next r
        { w with store := (w.store.Get (mapGet r.Cookies "session_id") w.now w.dbOk
            w.freshID).2 }) ∧
    (((w.store.Get (mapGet r.Cookies "session_id") w.now w.dbOk w.freshID).1.1.Get
        "authenticated" ≠ .bool true) →
      "/api/".data.isPrefixOf r.URL.Path.data = true →
      Auth next r w =
        { world :=
            { w with
              store := (w.store.Get (mapGet r.Cookies "session_id") w.now w.dbOk
                w.freshID).2
              out := w.out ++
                [.setHeader "Content-Type" "application/json", .writeHeader 401,
                  .write "\x7b\"success\": false, \"error\": \"未授权访问\"\x7d"] },
          panic := none }) ∧
    (((w.store.Get (mapGet r.Cookies "session_id") w.now w.dbOk w.freshID).1.1.Get
        "authenticated" ≠ .bool true) →
      "/api/".data.isPrefixOf r.URL.Path.data = false →
      Auth next r w =
        { world :=
            { w with
              store := (w.store.Get (mapGet r.Cookies "session_id") w.now w.dbOk
                w.freshID).2
              out := w.out ++ [.redirect "/login" 302] },
          panic := none }) := by
  refine ⟨?_, ?_, ?_⟩
  · intro hflag
    simp only [Auth, Store_Get_no_error, hflag, ne_eq, not_true_eq_false, if_false]
  · intro hflag hapi
    simp only [Auth, Store_Get_no_error, ne_eq, hflag, not_false_eq_true, if_true,
      redirectToLogin, hapi, World.emit]
  · intro hflag hapi
    simp only [Auth, Store_Get_no_error, ne_eq, hflag, not_false_eq_true, if_true,
      redirectToLogin, hapi, World.emit, Bool.false_eq_true, if_false]

/-- Witness of C9: a request without a cookie for `/api/stats` gets 401 and
the wrapped handler, which would panic, does not run. -/
theorem auth_gate_witness :
    (Auth (server.panicking "reached") (server.request "GET" "/api/stats")
      server.emptyWorld).panic = none ∧
    (Auth (server.panicking "reached") (server.request "GET" "/api/stats")
      server.emptyWorld).world.out =
      [.setHeader "Content-Type" "application/json", .writeHeader 401,
        .write "\x7b\"success\": false, \"error\": \"未授权访问\"\x7d"] := by
  have h := (auth_gate (server.panicking "reached") (server.request "GET" "/api/stats")
    server.emptyWorld).2.1 (by decide) (by decide)
  rw [h]
  exact ⟨rfl, rfl⟩

end middleware

/-! ## The pipeline of the server -/

namespace server

open middleware router

theorem Handle_middleware {H : Type} {r r1 : Router H} {m p : String} {h : Option H}
    (hok : r.Handle m p h = .ok r1) :
    r1.middleware = r.middleware ∧ r1.NotFound = r.NotFound := by
  unfold Router.Handle at hok
  split at hok
  · cases hok
  · split at hok
    · cases hok
    · split at hok <;> cases hok <;> exact ⟨rfl, rfl⟩

theorem registerAll_middleware {H : Type} (regs : List (Registration H)) (r r1 : Router H)
    (hok : r.registerAll regs = .ok r1) :
    r1.middleware = r.middleware ∧ r1.NotFound = r.NotFound := by
  induction regs generalizing r with
  | nil =>
    simp only [Router.registerAll] at hok
    cases hok
    exact ⟨rfl, rfl⟩
  | cons g rest ih =>
    simp only [Router.registerAll] at hok
    cases hh : r.Handle g.method g.path g.handler with
    | error e => rw [hh] at hok; cases hok
    | ok r2 =>
      rw [hh] at hok
      have h1 := ih r2 hok
      have h2 := Handle_middleware hh
      exact ⟨h1.1.trans h2.1, h1.2.trans h2.2⟩

theorem New_middleware (nf : HandlerFunc) :
    (New nf).middleware = [Logger, Recovery, Performance, CORS] := rfl

theorem Recovery_no_panic (next : HandlerFunc) (r : Request) (w : World) :
    (Recovery next r w).panic = none := by
  unfold Recovery
  simp only []
  cases h : (next r w).panic with
  | none => simp only [h]
  | some e => rfl

theorem Logger_panic (next : HandlerFunc) (r : Request) (w : World) :
    (Logger next r w).panic = (next r w).panic := by
  unfold Logger
  simp only []
  cases h : (next r w).panic with
  | none => rfl
  | some e => simp only [h]

/-- C10, as the code has it. In a router built from `server.New` by any
registrations (and with any NotFound handler installed afterwards), a matched
request is served by `Logger (Recovery (Performance (CORS handler)))`:
Recovery wraps every middleware added after it and the handler, and only
Logger runs outside it. Whatever Performance, CORS or the handler do, a panic
among them does not leave `ServeHTTP`. -/
theorem recovery_wraps_inner_layers (nf nf2 : HandlerFunc)
    (regs : List (Registration HandlerFunc)) (r0 : Router HandlerFunc) (req : Request)
    (h : HandlerFunc) (params : Params) (w : World)
    (hbuild : (New nf).registerAll regs = .ok r0)
    (hfind : r0.findRoute req.Method req.URL.Path = (some h, params)) :
    Router.ServeHTTP { r0 with NotFound := nf2 } req =
      Logger (Recovery (Performance (CORS h))) (withParams req params) ∧
    (Router.ServeHTTP { r0 with NotFound := nf2 } req w).panic = none := by
  have hmw := (registerAll_middleware regs _ _ hbuild).1
  rw [New_middleware] at hmw
  have hserve : Router.ServeHTTP { r0 with NotFound := nf2 } req =
      Logger (Recovery (Performance (CORS h))) (withParams req params) := by
    unfold Router.ServeHTTP
    have hf : Router.findRoute { r0 with NotFound := nf2 } req.Method req.URL.Path =
        (some h, params) := hfind
    rw [hf]
    simp only [hmw, applyMiddleware, List.foldr]
  refine ⟨hserve, ?_⟩
  rw [hserve, Logger_panic, Recovery_no_panic]

theorem boomRouter_eq :
    boomRouter =
      { trees := [("GET", node.mk "" none
          [("boom", node.mk "boom" (some (panicking "boom")) [] none none false false)]
          none none false false)],
        middleware := [Logger, Recovery, Performance, CORS],
        NotFound := panicking "not found" } := by
  rfl

/-- Witness of the amended C10: the panic of the handler of `GET /boom` does
not leave `ServeHTTP`. -/
theorem recovery_wraps_inner_layers_witness :
    (boomRouter.ServeHTTP (request "GET" "/boom") emptyWorld).panic = none :=
  (recovery_wraps_inner_layers (panicking "not found") (panicking "not found")
    [⟨"GET", "/boom", some (panicking "boom")⟩] boomRouter (request "GET" "/boom")
    (panicking "boom") [] emptyWorld (by rfl)
    (by
      rw [boomRouter_eq]
      simp [Router.findRoute, request, searchRoute_unfold, searchStep, mapGet, stringsSplit,
        node.children, node.handler, List.splitOn, List.splitOnP, List.splitOnP.go])).2

/-- Counterexample to C10. (1) A request no route matches is served by the
NotFound handler outside every middleware: its panic leaves `ServeHTTP`.
(2) For a matched request whose handler panics, the request line of Logger is
written after the 500 response of Recovery: Logger runs outside Recovery. -/
theorem recovery_outermost_counterexample :
    (boomRouter.ServeHTTP (request "GET" "/missing") emptyWorld).panic = some "not found" ∧
    (boomRouter.ServeHTTP (request "GET" "/boom") emptyWorld).world.out =
      [.setHeader "Access-Control-Allow-Origin" "*",
        .setHeader "Access-Control-Allow-Methods" "GET, POST, PUT, DELETE, OPTIONS",
        .setHeader "Access-Control-Allow-Headers" "Content-Type, Authorization",
        .logPanic "boom", .setHeader "Content-Type" "application/json", .writeHeader 500,
        .write "\x7b\"success\": false, \"error\": \"Internal server error\"\x7d",
        .logRequest "GET" "/boom" 500 "10.0.0.1:5000"] := by
  have h1 : boomRouter.findRoute "GET" "/missing" = (none, []) := by
    rw [boomRouter_eq]
    simp [Router.findRoute, searchRoute_unfold, searchStep, mapGet, stringsSplit,
      node.children, node.handler, node.param, node.wildcard, List.splitOn, List.splitOnP,
      List.splitOnP.go]
  have h2 : boomRouter.findRoute "GET" "/boom" = (some (panicking "boom"), []) := by
    rw [boomRouter_eq]
    simp [Router.findRoute, searchRoute_unfold, searchStep, mapGet, stringsSplit,
      node.children, node.handler, List.splitOn, List.splitOnP, List.splitOnP.go]
  constructor
  · show (Router.ServeHTTP boomRouter (request "GET" "/missing") emptyWorld).panic = _
    unfold Router.ServeHTTP
    simp only [request, h1]
    rfl
  · show (Router.ServeHTTP boomRouter (request "GET" "/boom") emptyWorld).world.out = _
    unfold Router.ServeHTTP
    simp only [request, h2, withParams_nil]
    rfl

end server

/-! ## Session data: reading, writing, restart -/

namespace session

theorem mapGet_none_of_not_mem {β : Type} (m : List (String × β)) (k : String)
    (h : k ∉ m.map Prod.fst) : mapGet m k = none := by
  induction m with
  | nil => rfl
  | cons e rest ih =>
    obtain ⟨k0, v0⟩ := e
    simp only [List.map_cons, List.mem_cons, not_or] at h
    have h0 : ¬ k0 = k := fun hk => h.1 hk.symm
    simp only [mapGet, h0, if_false]
    exact ih h.2

theorem keys_mapSet {β : Type} (m : List (String × β)) (k : String) (v : β) :
    (mapSet m k v).map Prod.fst =
      if k ∈ m.map Prod.fst then m.map Prod.fst else m.map Prod.fst ++ [k] := by
  induction m with
  | nil => simp [mapSet]
  | cons e rest ih =>
    obtain ⟨k0, v0⟩ := e
    by_cases hk : k0 = k
    · subst hk
      simp [mapSet]
    · have hk2 : ¬ k = k0 := fun h => hk h.symm
      simp only [mapSet, hk, if_false, List.map_cons, ih, List.mem_cons, hk2, false_or]
      split_ifs <;> simp

theorem nodup_keys_mapSet {β : Type} (m : List (String × β)) (k : String) (v : β)
    (h : (m.map Prod.fst).Nodup) : ((mapSet m k v).map Prod.fst).Nodup := by
  rw [keys_mapSet]
  split_ifs with hk
  · exact h
  · rw [List.nodup_append]
    refine ⟨h, List.nodup_singleton k, ?_⟩
    intro a ha hb
    simp only [List.mem_singleton] at hb
    subst hb
    exact hk ha

theorem mapGet_map {β γ : Type} (f : β → γ) (m : List (String × β)) (k : String) :
    mapGet (m.map (fun e => (e.1, f e.2))) k = (mapGet m k).map f := by
  induction m with
  | nil => rfl
  | cons e rest ih =>
    obtain ⟨k0, v0⟩ := e
    by_cases hk : k0 = k
    · simp [mapGet, hk]
    · simp [mapGet, hk, ih]

/-- What hydration finds under an id, for a table with unique ids. -/
theorem mapGet_loadRows (timeText : Int → String) (now : Int) (rows : List (String × Row))
    (init : List (String × Session)) (id : String) (hnd : (rows.map Prod.fst).Nodup) :
    mapGet (loadRows timeText now rows init) id =
      match mapGet rows id with
      | some row =>
        if row.expires > now then some (sessionOfRow timeText id row) else mapGet init id
      | none => mapGet init id := by
  induction rows generalizing init with
  | nil => rfl
  | cons e rest ih =>
    obtain ⟨k, row⟩ := e
    simp only [List.map_cons, List.nodup_cons] at hnd
    by_cases hk : k = id
    · subst hk
      have hrest := mapGet_none_of_not_mem rest k hnd.1
      simp only [loadRows, mapGet, if_true]
      split_ifs with hlive
      · rw [ih _ hnd.2, hrest]
        simp only [mapGet_mapSet_same, sessionOfRow]
      · rw [ih _ hnd.2, hrest]
    · simp only [loadRows, mapGet, hk, if_false]
      split_ifs with hlive
      · rw [ih _ hnd.2]
        rw [mapGet_mapSet_other _ _ _ _ (fun h => hk h.symm)]
      · rw [ih _ hnd.2]

theorem Get_Set_same (s : Session) (k : String) (v : Value) : (s.Set k v).Get k = v := by
  simp [Session.Get, Session.Set, mapGet_mapSet_same]

theorem Get_Set_other (s : Session) (k k2 : String) (v : Value) (h : k2 ≠ k) :
    (s.Set k v).Get k2 = s.Get k2 := by
  simp [Session.Get, Session.Set, mapGet_mapSet_other _ _ _ _ h]

theorem Get_Delete_other (s : Session) (k k2 : String) (h : k2 ≠ k) :
    (s.Delete k).Get k2 = s.Get k2 := by
  simp [Session.Get, Session.Delete, mapGet_mapDelete_other _ _ _ h]

theorem Get_applyOps_other (ops : List Op) (s : Session) (k : String)
    (h : ∀ op ∈ ops, op.key ≠ k) : (s.applyOps ops).Get k = s.Get k := by
  induction ops generalizing s with
  | nil => rfl
  | cons op rest ih =>
    have hrest : ∀ o ∈ rest, o.key ≠ k := fun o ho => h o (List.mem_cons_of_mem _ ho)
    have hop := h op (List.mem_cons_self _ _)
    cases op with
    | set k2 v2 =>
      simp only [Session.applyOps]
      rw [ih _ hrest]
      exact Get_Set_other s k2 k v2 (fun hk => hop hk.symm)
    | delete k2 =>
      simp only [Session.applyOps]
      rw [ih _ hrest]
      exact Get_Delete_other s k2 k (fun hk => hop hk.symm)

theorem float64OfInt_small (i : Int) (h : i.natAbs < 2 ^ 53) : float64OfInt i = i := by
  unfold float64OfInt
  simp only []
  rw [if_pos h]

theorem jsonDecode_stable (timeText : Int → String) (v : Value) (h : jsonStable v = true) :
    jsonDecode timeText v = v := by
  cases v <;> simp_all [jsonStable, jsonDecode]

end session

namespace session

theorem SaveWithStore_modified_ok (s : Session) (store : Store) (h : s.modified = true) :
    s.SaveWithStore store true =
      { session := { s with modified := false },
        store :=
          { sessions := store.sessions,
            rows := mapSet store.rows s.ID { data := s.Data, expires := s.Expires } },
        cookie := some (Session.Save { s with modified := false }),
        err := none } := by
  simp [Session.SaveWithStore, h, Store.saveSession]

theorem SaveWithStore_clean (s : Session) (store : Store) (dbOk : Bool)
    (h : s.modified = false) :
    s.SaveWithStore store dbOk =
      { session := s, store := store, cookie := some s.Save, err := none } := by
  simp [Session.SaveWithStore, h]

theorem SaveWithStore_modified_fail (s : Session) (store : Store) (h : s.modified = true) :
    s.SaveWithStore store false =
      { session := s, store := store, cookie := none, err := some "database error" } := by
  simp [Session.SaveWithStore, h, Store.saveSession]

/-- What a restart finds for a row that was written and has not expired. -/
theorem NewStore_of_row (rows : List (String × Row)) (timeText : Int → String) (now : Int)
    (id : String) (row : Row) (hnd : (rows.map Prod.fst).Nodup)
    (hrow : mapGet rows id = some row) (hlive : row.expires > now) :
    mapGet (NewStore rows timeText now true).sessions id =
      some (sessionOfRow timeText id row) := by
  simp only [NewStore, Store.loadSessions, if_true]
  rw [mapGet_loadRows _ _ _ _ _ hnd, hrow]
  simp only [hlive, if_true]

/-- C11, as the code has it. In memory: after `Set k v`, `Get k` returns `v`,
every other key reads as before, and `Get k` keeps returning `v` through any
`Set` and `Delete` on other keys. After a restart: once the session is saved
(the write succeeding), a store hydrated before the session expires holds a
session of the same id on which `Get k` returns the JSON decoding of `v`; that
is `v` itself for nil, booleans, strings and `float64`, while an integer comes
back as the `float64` nearest to it (equal to it below `2 ^ 53` in absolute
value, rounded beyond: `2 ^ 53 + 1` comes back as `2 ^ 53`) and a `time.Time`
as its RFC 3339 text. -/
theorem set_get_roundtrip (s : Session) (k : String) (v : Value) :
    (s.Set k v).Get k = v ∧
    (∀ k2, k2 ≠ k → (s.Set k v).Get k2 = s.Get k2) ∧
    (∀ ops : List Op, (∀ op ∈ ops, op.key ≠ k) → ((s.Set k v).applyOps ops).Get k = v) ∧
    (∀ (store : Store) (timeText : Int → String) (now : Int),
      (store.rows.map Prod.fst).Nodup → now < s.Expires →
      ((s.Set k v).SaveWithStore store true).err = none ∧
      ∃ sess,
        mapGet (NewStore ((s.Set k v).SaveWithStore store true).store.rows timeText now
          true).sessions s.ID = some sess ∧
        sess.ID = s.ID ∧ sess.Get k = jsonDecode timeText v ∧
        (jsonStable v = true → sess.Get k = v)) ∧
    (∀ (timeText : Int → String) (i : Int),
      jsonDecode timeText (.int i) = .float (float64OfInt i) ∧
      (i.natAbs < 2 ^ 53 → jsonDecode timeText (.int i) = .float i)) ∧
    (∀ (timeText : Int → String) (t : Int),
      jsonDecode timeText (.time t) = .str (timeText t)) ∧
    float64OfInt 9007199254740993 = 9007199254740992 := by
  refine ⟨Get_Set_same s k v, fun k2 h => Get_Set_other s k k2 v h, ?_, ?_,
    fun timeText i => ⟨rfl, fun h => by rw [jsonDecode, float64OfInt_small i h]⟩,
    fun _ _ => rfl, by decide⟩
  · intro ops hops
    rw [Get_applyOps_other ops _ k hops]
    exact Get_Set_same s k v
  · intro store timeText now hnd hlive
    rw [SaveWithStore_modified_ok (s.Set k v) store rfl]
    refine ⟨rfl, ?_⟩
    have hrow : mapGet (mapSet store.rows s.ID
        ({ data := (s.Set k v).Data, expires := s.Expires } : Row)) s.ID =
        some { data := (s.Set k v).Data, expires := s.Expires } := mapGet_mapSet_same _ _ _
    have hload := NewStore_of_row _ timeText now s.ID _ (nodup_keys_mapSet _ s.ID _ hnd) hrow
      (by simpa using hlive)
    have hget : (sessionOfRow timeText s.ID
        { data := (s.Set k v).Data, expires := s.Expires }).Get k = jsonDecode timeText v := by
      simp only [sessionOfRow, Session.Get, Session.Set, mapGet_map, mapGet_mapSet_same,
        Option.map_some']
    refine ⟨sessionOfRow timeText s.ID { data := (s.Set k v).Data, expires := s.Expires },
      hload, rfl, hget, ?_⟩
    intro hst
    rw [hget, jsonDecode_stable timeText v hst]

/-- Witness of the amended C11: a boolean flag is set, saved and read after a
restart. -/
theorem set_get_roundtrip_witness :
    Session.Get
      { ID := "a1", Data := [("authenticated", .bool true)], Expires := day,
        modified := false } "authenticated" = .bool true := by
  obtain ⟨sess, h1, _, _, h4⟩ :=
    ((set_get_roundtrip blankSession "authenticated" (.bool true)).2.2.2.1 emptyStore
      noTimeText 5 (by decide) (by decide)).2
  have h2 : mapGet (NewStore ((blankSession.Set "authenticated" (.bool true)).SaveWithStore
      emptyStore true).store.rows noTimeText 5 true).sessions blankSession.ID =
      some { ID := "a1", Data := [("authenticated", .bool true)], Expires := day,
             modified := false } := by rfl
  rw [h2] at h1
  cases h1
  exact h4 rfl

/-- Counterexample to C11: an integer is set and saved; after the restart
`Get` returns a `float64`, not the value that was set. -/
theorem restart_roundtrip_counterexample :
    mapGet (NewStore ((blankSession.Set "visits" (.int 5)).SaveWithStore emptyStore
      true).store.rows noTimeText 5 true).sessions "a1" =
      some { ID := "a1", Data := [("visits", .float 5)], Expires := day, modified := false } ∧
    Session.Get { ID := "a1", Data := [("visits", .float 5)], Expires := day,
                  modified := false } "visits" ≠ .int 5 := by
  constructor
  · rfl
  · decide

end session

/-! ## `Store.Get` -/

namespace session

theorem createSessionWithID_eq (s : Store) (now : Int) (dbOk : Bool) (id : String) :
    s.createSessionWithID now dbOk id =
      ({ ID := id, Data := [], Expires := now + day, modified := false },
        { sessions := mapSet s.sessions id
            { ID := id, Data := [], Expires := now + day, modified := false },
          rows := if dbOk then mapSet s.rows id { data := [], expires := now + day }
            else s.rows }) := by
  cases dbOk <;> simp [Store.createSessionWithID, Store.saveSession]

theorem Get_absent (s : Store) (v : String) (now : Int) (dbOk : Bool) (freshID : String)
    (h : mapGet s.sessions v = none) :
    s.Get (some v) now dbOk freshID =
      (((s.createSessionWithID now dbOk v).1, none), (s.createSessionWithID now dbOk v).2) := by
  simp only [Store.Get, h]

theorem Get_expired (s : Store) (v : String) (now : Int) (dbOk : Bool) (freshID : String)
    (old : Session) (h : mapGet s.sessions v = some old) (hexp : old.Expires < now) :
    s.Get (some v) now dbOk freshID =
      (((s.createSessionWithID now dbOk v).1, none), (s.createSessionWithID now dbOk v).2) := by
  simp only [Store.Get, h, hexp, if_true]

theorem Get_live (s : Store) (v : String) (now : Int) (dbOk : Bool) (freshID : String)
    (old : Session) (h : mapGet s.sessions v = some old) (hlive : ¬ old.Expires < now) :
    s.Get (some v) now dbOk freshID =
      (({ old with Expires := now + day }, none),
        { s with sessions := mapSet s.sessions v { old with Expires := now + day } }) := by
  simp only [Store.Get, h, hlive, if_false]

theorem Get_none (s : Store) (now : Int) (dbOk : Bool) (freshID : String) :
    s.Get none now dbOk freshID =
      (((s.createSessionWithID now dbOk freshID).1, none),
        (s.createSessionWithID now dbOk freshID).2) := by
  simp only [Store.Get, Store.createSession]

/-- C12. For a request whose cookie has the value `v`: (1) when the store has
no record under `v`, or one whose expiry is before `now`, `Get` returns a new
session with id `v`, no data (every key reads nil) and expiry `now + 24h`,
puts it in the map under `v` in place of any old record and, the database
write succeeding, replaces the row under `v` by one without data; (2) when
the record exists and is not expired, `Get` returns that record with its
data unchanged and expiry `now + 24h`, keeps it in the map, and does not
touch the table. -/
theorem get_replaces_or_slides (s : Store) (v : String) (now : Int) (dbOk : Bool)
    (freshID : String) :
    ((mapGet s.sessions v = none ∨ ∃ old, mapGet s.sessions v = some old ∧ old.Expires < now) →
      (s.Get (some v) now dbOk freshID).1 =
        ({ ID := v, Data := [], Expires := now + day, modified := false }, none) ∧
      mapGet (s.Get (some v) now dbOk freshID).2.sessions v =
        some { ID := v, Data := [], Expires := now + day, modified := false } ∧
      (∀ k, (s.Get (some v) now dbOk freshID).1.1.Get k = .null) ∧
      (dbOk = true → mapGet (s.Get (some v) now dbOk freshID).2.rows v =
        some { data := [], expires := now + day })) ∧
    (∀ old, mapGet s.sessions v = some old → ¬ old.Expires < now →
      (s.Get (some v) now dbOk freshID).1 =
        ({ ID := old.ID, Data := old.Data, Expires := now + day, modified := old.modified },
          none) ∧
      mapGet (s.Get (some v) now dbOk freshID).2.sessions v =
        some { ID := old.ID, Data := old.Data, Expires := now + day,
               modified := old.modified } ∧
      (s.Get (some v) now dbOk freshID).2.rows = s.rows) := by
  constructor
  · intro h
    have hget : s.Get (some v) now dbOk freshID =
        (((s.createSessionWithID now dbOk v).1, none),
          (s.createSessionWithID now dbOk v).2) := by
      rcases h with h | ⟨old, h, hexp⟩
      · exact Get_absent s v now dbOk freshID h
      · exact Get_expired s v now dbOk freshID old h hexp
    rw [hget, createSessionWithID_eq]
    refine ⟨rfl, mapGet_mapSet_same _ _ _, fun k => rfl, ?_⟩
    intro hdb
    simp only [hdb, if_true, mapGet_mapSet_same]
  · intro old h hlive
    rw [Get_live s v now dbOk freshID old h hlive]
    exact ⟨rfl, mapGet_mapSet_same _ _ _, rfl⟩

/-- Witness of C12: the cookie `abc` names a record that expired at `10`; at
time `20` the session returned is new and empty. -/
theorem get_replaces_or_slides_witness :
    (staleStore.Get (some "abc") 20 true "0f").1 =
      ({ ID := "abc", Data := [], Expires := 20 + day, modified := false }, none) :=
  ((get_replaces_or_slides staleStore "abc" 20 true "0f").1
    (Or.inr ⟨{ ID := "abc", Data := [("authenticated", .bool true)], Expires := 10,
               modified := false }, rfl, by decide⟩)).1

end session

/-! ## Session ids -/

namespace session

theorem hextable_digit (i : Fin 16) : isHexDigit (hextable.getD i.val '0') = true := by
  revert i
  decide

theorem hexByte_spec (b : Fin 256) :
    (hexByte b).length = 2 ∧ (hexByte b).all isHexDigit = true := by
  have h1 := hextable_digit ⟨b.val / 16, by omega⟩
  have h2 := hextable_digit ⟨b.val % 16, by omega⟩
  simp only [] at h1 h2
  refine ⟨rfl, ?_⟩
  simp only [hexByte, List.all_cons, List.all_nil, h1, h2, Bool.and_self]

theorem hexEncode_spec (l : List (Fin 256)) :
    (l.flatMap hexByte).length = 2 * l.length ∧ (l.flatMap hexByte).all isHexDigit = true := by
  induction l with
  | nil => simp
  | cons b rest ih =>
    have hb := hexByte_spec b
    constructor
    · simp only [List.flatMap_cons, List.length_append, hb.1, ih.1, List.length_cons]
      omega
    · simp only [List.flatMap_cons, List.all_append, hb.2, ih.2, Bool.and_self]

theorem generateSessionID_hex (random : Fin 16 → Fin 256) :
    isHexToken (generateSessionID random) = true := by
  have h := hexEncode_spec (List.ofFn random)
  simp only [isHexToken, generateSessionID, h.1, h.2, List.length_ofFn, Bool.and_true]
  decide

theorem mem_mapSet {β : Type} (m : List (String × β)) (k : String) (v : β)
    (e : String × β) (h : e ∈ mapSet m k v) : e.1 = k ∨ e ∈ m := by
  induction m with
  | nil =>
    simp only [mapSet, List.mem_singleton] at h
    exact Or.inl (by rw [h])
  | cons e0 rest ih =>
    obtain ⟨k0, v0⟩ := e0
    by_cases hk : k0 = k
    · simp only [mapSet, hk, if_true, List.mem_cons] at h
      rcases h with h | h
      · exact Or.inl (by rw [h])
      · exact Or.inr (List.mem_cons_of_mem _ h)
    · simp only [mapSet, hk, if_false, List.mem_cons] at h
      rcases h with h | h
      · exact Or.inr (by rw [h]; exact List.mem_cons_self _ _)
      · rcases ih h with h2 | h2
        · exact Or.inl h2
        · exact Or.inr (List.mem_cons_of_mem _ h2)

theorem mem_mapDelete {β : Type} (m : List (String × β)) (k : String) (e : String × β)
    (h : e ∈ mapDelete m k) : e ∈ m := by
  induction m with
  | nil => simp [mapDelete] at h
  | cons e0 rest ih =>
    obtain ⟨k0, v0⟩ := e0
    by_cases hk : k0 = k
    · simp only [mapDelete, hk, if_true] at h
      exact List.mem_cons_of_mem _ (ih h)
    · simp only [mapDelete, hk, if_false, List.mem_cons] at h
      rcases h with h | h
      · rw [h]; exact List.mem_cons_self _ _
      · exact List.mem_cons_of_mem _ (ih h)

theorem keysHex_createSessionWithID (s : Store) (now : Int) (dbOk : Bool) (id : String)
    (hs : s.keysHex) (hid : isHexToken id = true) :
    (s.createSessionWithID now dbOk id).2.keysHex := by
  rw [createSessionWithID_eq]
  intro e he
  rcases mem_mapSet _ _ _ e he with h | h
  · rw [h]; exact hid
  · exact hs e h

/-- C13, as the code has it. Without a cookie, the session `Get` returns has
the id `generateSessionID` drew, the hex encoding of 16 random bytes: 32
lowercase hexadecimal characters, which `Save` writes as the cookie value.
With a cookie whose value `v` names no live record, the session returned has
the id `v`, whatever the client sent. That every key of the map is such a
token is preserved by `DestroySession` and the sweep, and by `Get` when the
request has no cookie or its cookie value is itself such a token. -/
theorem session_id_origin (s : Store) (now : Int) (dbOk : Bool) :
    (∀ random : Fin 16 → Fin 256,
      (s.Get none now dbOk (generateSessionID random)).1.1.ID = generateSessionID random ∧
      isHexToken (s.Get none now dbOk (generateSessionID random)).1.1.ID = true ∧
      (s.Get none now dbOk (generateSessionID random)).1.1.Save.Value =
        generateSessionID random ∧
      (s.keysHex → (s.Get none now dbOk (generateSessionID random)).2.keysHex)) ∧
    (∀ (v freshID : String),
      (mapGet s.sessions v = none ∨
        ∃ old, mapGet s.sessions v = some old ∧ old.Expires < now) →
      (s.Get (some v) now dbOk freshID).1.1.ID = v ∧
      (s.Get (some v) now dbOk freshID).1.1.Save.Value = v) ∧
    (∀ (v freshID : String), isHexToken v = true → s.keysHex →
      (s.Get (some v) now dbOk freshID).2.keysHex) ∧
    (∀ id, s.keysHex → (s.DestroySession dbOk id).1.keysHex) ∧
    (s.keysHex → (s.sweep now dbOk).keysHex) := by
  refine ⟨?_, ?_, ?_, ?_, ?_⟩
  · intro random
    rw [Get_none]
    refine ⟨?_, ?_, ?_, ?_⟩
    · rw [createSessionWithID_eq]
    · rw [createSessionWithID_eq]
      exact generateSessionID_hex random
    · rw [createSessionWithID_eq]
      rfl
    · intro hs
      exact keysHex_createSessionWithID s now dbOk _ hs (generateSessionID_hex random)
  · intro v freshID h
    have hget : s.Get (some v) now dbOk freshID =
        (((s.createSessionWithID now dbOk v).1, none),
          (s.createSessionWithID now dbOk v).2) := by
      rcases h with h | ⟨old, h, hexp⟩
      · exact Get_absent s v now dbOk freshID h
      · exact Get_expired s v now dbOk freshID old h hexp
    rw [hget, createSessionWithID_eq]
    exact ⟨rfl, rfl⟩
  · intro v freshID hv hs
    cases hg : mapGet s.sessions v with
    | none =>
      rw [Get_absent s v now dbOk freshID hg]
      exact keysHex_createSessionWithID s now dbOk v hs hv
    | some old =>
      by_cases hexp : old.Expires < now
      · rw [Get_expired s v now dbOk freshID old hg hexp]
        exact keysHex_createSessionWithID s now dbOk v hs hv
      · rw [Get_live s v now dbOk freshID old hg hexp]
        intro e he
        rcases mem_mapSet _ _ _ e he with h | h
        · rw [h]; exact hv
        · exact hs e h
  · intro id hs e he
    have he2 : e ∈ mapDelete s.sessions id := by
      cases dbOk <;> simpa [Store.DestroySession, Store.deleteSession] using he
    exact hs e (mem_mapDelete _ _ _ he2)
  · intro hs e he
    simp only [Store.sweep] at he
    exact hs e (List.mem_filter.mp he).1

/-- Witness of the amended C13: a store holding one hex-keyed session keeps
the invariant when that session is destroyed. -/
theorem session_id_origin_witness :
    (Store.DestroySession
      { sessions := [("000102030405060708090a0b0c0d0e0f",
          { ID := "000102030405060708090a0b0c0d0e0f", Data := [], Expires := day,
            modified := false })],
        rows := [] } true "000102030405060708090a0b0c0d0e0f").1.keysHex :=
  (session_id_origin _ 0 true).2.2.2.1 "000102030405060708090a0b0c0d0e0f"
    (by
      intro e he
      simp only [List.mem_singleton] at he
      subst he
      decide)

/-- Counterexample to C13: a request with the cookie value `abc` gets a
session whose id is `abc`, which is no 32-character hexadecimal token, and
that id becomes a key of the store and the value of the cookie. -/
theorem session_id_hex_counterexample :
    (emptyStore.Get (some "abc") 0 true "0f").1.1.ID = "abc" ∧
    isHexToken (emptyStore.Get (some "abc") 0 true "0f").1.1.ID = false ∧
    (emptyStore.Get (some "abc") 0 true "0f").1.1.Save.Value = "abc" ∧
    (emptyStore.Get (some "abc") 0 true "0f").2.sessions.map Prod.fst = ["abc"] := by
  decide

end session

/-! ## Durable writes -/

namespace session

/-- C14, as the code has it. A session created by `Get` (no cookie, or a
cookie naming no live record) is written to the table at once, the write
succeeding: a row under its id without data and with its expiry. After that,
`SaveWithStore` writes exactly when the flag is set: with a clear flag it
leaves the store as it is, with a set flag (the write succeeding) it writes
the row and clears the flag. `Get` on a live record writes nothing. -/
theorem creation_is_persisted (s : Store) (now : Int) :
    (∀ (cookie : Option String) (freshID : String),
      (∀ v, cookie = some v → mapGet s.sessions v = none ∨
        ∃ old, mapGet s.sessions v = some old ∧ old.Expires < now) →
      mapGet (s.Get cookie now true freshID).2.rows (s.Get cookie now true freshID).1.1.ID =
        some { data := [], expires := now + day }) ∧
    (∀ (sess : Session) (dbOk : Bool), sess.modified = false →
      (sess.SaveWithStore s dbOk).store = s ∧ (sess.SaveWithStore s dbOk).err = none) ∧
    (∀ sess : Session, sess.modified = true →
      mapGet (sess.SaveWithStore s true).store.rows sess.ID =
        some { data := sess.Data, expires := sess.Expires } ∧
      (sess.SaveWithStore s true).session.modified = false) ∧
    (∀ (v freshID : String) (dbOk : Bool) (old : Session),
      mapGet s.sessions v = some old → ¬ old.Expires < now →
      (s.Get (some v) now dbOk freshID).2.rows = s.rows) := by
  refine ⟨?_, ?_, ?_, ?_⟩
  · intro cookie freshID h
    cases cookie with
    | none =>
      rw [Get_none, createSessionWithID_eq]
      simp only [if_true, mapGet_mapSet_same]
    | some v =>
      have hget : s.Get (some v) now true freshID =
          (((s.createSessionWithID now true v).1, none),
            (s.createSessionWithID now true v).2) := by
        rcases h v rfl with h | ⟨old, h, hexp⟩
        · exact Get_absent s v now true freshID h
        · exact Get_expired s v now true freshID old h hexp
      rw [hget, createSessionWithID_eq]
      simp only [if_true, mapGet_mapSet_same]
  · intro sess dbOk h
    rw [SaveWithStore_clean sess s dbOk h]
    exact ⟨rfl, rfl⟩
  · intro sess h
    rw [SaveWithStore_modified_ok sess s h]
    exact ⟨mapGet_mapSet_same _ _ _, rfl⟩
  · intro v freshID dbOk old h hlive
    rw [Get_live s v now dbOk freshID old h hlive]

/-- Witness of the amended C14: saving the unmodified `savedSession` leaves
the store as it is. -/
theorem creation_is_persisted_witness :
    (savedSession.SaveWithStore savedStore true).store = savedStore :=
  ((creation_is_persisted savedStore 0).2.1 savedSession true rfl).1

/-- Counterexample to C14: a request without a cookie on an empty store; the
session `Get` creates is in the table right away, though nothing was set and
nothing saved. -/
theorem fresh_session_memory_only_counterexample :
    (emptyStore.Get none 0 true "a1").1.1.modified = false ∧
    (emptyStore.Get none 0 true "a1").2.rows = [("a1", { data := [], expires := day })] := by
  decide

/-- C15 fails on `Delete`: `savedSession` has a clear flag and its data in the
table; after `Delete "theme"` the flag is still clear, the data in memory is
empty, and `SaveWithStore` (the database answering) writes nothing: the row
still holds the deleted key. -/
theorem delete_not_flushed :
    (savedSession.Delete "theme").modified = false ∧
    (savedSession.Delete "theme").Data = [] ∧
    ((savedSession.Delete "theme").SaveWithStore savedStore true).store.rows =
      [("a1", { data := [("theme", .str "dark")], expires := day })] ∧
    ((savedSession.Delete "theme").SaveWithStore savedStore true).err = none := by
  decide

/-! ## Restart -/

/-- C16, as the code has it. A store hydrated at time `t` from a table with
unique ids holds under an id exactly the session of the row with that id when
the row's expiry is after `t`: the same id, the JSON decoding of the row's
data (an integer as the `float64` nearest to it, a time as its text) and the
row's expiry; a row with expiry not after `t` is not loaded. The
expiry of a row is the one of the last write: `Get` on a live record moves
the expiry in memory only and leaves the table as it was, so a restart does
not see the sliding. -/
theorem restart_restores_unexpired_rows (rows : List (String × Row))
    (timeText : Int → String) (t : Int) (hnd : (rows.map Prod.fst).Nodup) :
    (∀ id row, mapGet rows id = some row → row.expires > t →
      mapGet (NewStore rows timeText t true).sessions id =
        some { ID := id, Data := row.data.map (fun e => (e.1, jsonDecode timeText e.2)),
               Expires := row.expires, modified := false }) ∧
    (∀ id row, mapGet rows id = some row → ¬ row.expires > t →
      mapGet (NewStore rows timeText t true).sessions id = none) ∧
    (∀ id, mapGet rows id = none →
      mapGet (NewStore rows timeText t true).sessions id = none) ∧
    (∀ (s : Store) (v freshID : String) (now : Int) (dbOk : Bool) (old : Session),
      s.rows = rows → mapGet s.sessions v = some old → ¬ old.Expires < now →
      (s.Get (some v) now dbOk freshID).1.1.Expires = now + day ∧
      (s.Get (some v) now dbOk freshID).2.rows = rows) := by
  have hload : ∀ id, mapGet (NewStore rows timeText t true).sessions id =
      match mapGet rows id with
      | some row => if row.expires > t then some (sessionOfRow timeText id row) else none
      | none => none := by
    intro id
    simp only [NewStore, Store.loadSessions, if_true]
    rw [mapGet_loadRows _ _ _ _ _ hnd]
    rfl
  refine ⟨?_, ?_, ?_, ?_⟩
  · intro id row hrow hlive
    rw [hload, hrow]
    simp only [hlive, if_true, sessionOfRow]
  · intro id row hrow hdead
    rw [hload, hrow]
    simp only [hdead, if_false]
  · intro id hrow
    rw [hload, hrow]
  · intro s v freshID now dbOk old hrows h hlive
    rw [Get_live s v now dbOk freshID old h hlive]
    exact ⟨rfl, hrows⟩

/-- Witness of the amended C16: a row holding a string and the integer
`2 ^ 53 + 1` is loaded by a restart at time `5`; the integer comes back as the
`float64` `2 ^ 53`. -/
theorem restart_restores_unexpired_rows_witness :
    mapGet (NewStore
      [("a1", { data := [("theme", .str "dark"), ("visits", .int 9007199254740993)],
                expires := day })] noTimeText 5 true).sessions "a1" =
      some { ID := "a1",
             Data := [("theme", .str "dark"), ("visits", .float 9007199254740992)],
             Expires := day, modified := false } :=
  (restart_restores_unexpired_rows
    [("a1", { data := [("theme", .str "dark"), ("visits", .int 9007199254740993)],
              expires := day })] noTimeText 5 (by decide)).1 "a1"
    { data := [("theme", .str "dark"), ("visits", .int 9007199254740993)], expires := day }
    rfl (by decide)

/-- Counterexample to C16: a session created at time `0` and read again just
before its first expiry is live in memory at time `day` (its expiry slid to
`2 * day - 1`), and `Get` returns it; a store hydrated from the table at that
time does not hold it, the row still expiring at `day`. -/
theorem restart_keeps_live_sessions_counterexample :
    mapGet slidStore.sessions "a1" =
      some { ID := "a1", Data := [], Expires := 2 * day - 1, modified := false } ∧
    (slidStore.Get (some "a1") day true "0f").1.1.ID = "a1" ∧
    ¬ (2 * day - 1 < day) ∧
    mapGet (NewStore slidStore.rows noTimeText day true).sessions "a1" = none := by
  decide

end session

/-! ## `DestroySession` -/

namespace session

theorem mapDelete_of_mapGet_none {β : Type} (m : List (String × β)) (k : String)
    (h : mapGet m k = none) : mapDelete m k = m := by
  induction m with
  | nil => rfl
  | cons e rest ih =>
    obtain ⟨k0, v0⟩ := e
    by_cases hk : k0 = k
    · simp [mapGet, hk] at h
    · simp only [mapGet, hk, if_false] at h
      simp only [mapDelete, hk, if_false, ih h]

theorem DestroySession_ok (s : Store) (id : String) :
    s.DestroySession true id =
      ({ sessions := mapDelete s.sessions id, rows := mapDelete s.rows id }, none) := by
  simp [Store.DestroySession, Store.deleteSession]

/-- C17. `DestroySession id` (the database answering) returns no error and
leaves no record of `id` in the map or in the table, while every other id
reads as before in both. A second call on the same id returns no error and
leaves the store as the first call left it; so does a call on an id that is
in neither the map nor the table. -/
theorem destroy_session_idempotent (s : Store) (id : String) :
    (s.DestroySession true id).2 = none ∧
    mapGet (s.DestroySession true id).1.sessions id = none ∧
    mapGet (s.DestroySession true id).1.rows id = none ∧
    (∀ id2, id2 ≠ id →
      mapGet (s.DestroySession true id).1.sessions id2 = mapGet s.sessions id2 ∧
      mapGet (s.DestroySession true id).1.rows id2 = mapGet s.rows id2) ∧
    (s.DestroySession true id).1.DestroySession true id =
      ((s.DestroySession true id).1, none) ∧
    (mapGet s.sessions id = none → mapGet s.rows id = none →
      s.DestroySession true id = (s, none)) := by
  rw [DestroySession_ok]
  refine ⟨rfl, mapGet_mapDelete_same _ _, mapGet_mapDelete_same _ _, ?_, ?_, ?_⟩
  · intro id2 h
    exact ⟨mapGet_mapDelete_other _ _ _ h, mapGet_mapDelete_other _ _ _ h⟩
  · rw [DestroySession_ok]
    simp only [mapDelete_of_mapGet_none _ _ (mapGet_mapDelete_same _ id)]
  · intro h1 h2
    simp only [mapDelete_of_mapGet_none _ _ h1, mapDelete_of_mapGet_none _ _ h2]

/-- Witness of C17: an id that was never present is destroyed in
`savedStore`. -/
theorem destroy_session_idempotent_witness :
    savedStore.DestroySession true "zz" = (savedStore, none) :=
  (destroy_session_idempotent savedStore "zz").2.2.2.2.2 rfl rfl

end session

/-! ## Dispatch never fails; registration fails on a bad pattern only -/

namespace router
variable {H : Type}

theorem stringsSplit_ne_nil (path : String) : stringsSplit path ≠ [] := by
  unfold stringsSplit List.splitOn
  intro h
  exact List.splitOnP_ne_nil _ _ (List.map_eq_nil_iff.mp h)

theorem sliceFrom1_stringsSplit (path : String) :
    sliceFrom1 (stringsSplit path) = .ok ((stringsSplit path).drop 1) := by
  cases h : stringsSplit path with
  | nil => exact absurd h (stringsSplit_ne_nil path)
  | cons a rest => rfl

theorem findRouteChecked_ok (r : Router H) (method path : String) :
    r.findRouteChecked method path = .ok (r.findRoute method path) := by
  unfold Router.findRouteChecked Router.findRoute
  cases mapGet r.trees method with
  | none => rfl
  | some root => simp only [sliceFrom1_stringsSplit]

theorem stringsSplit_no_slash (path : String) (h : '/' ∉ path.data) :
    (stringsSplit path).drop 1 = [] := by
  unfold stringsSplit List.splitOn
  rw [List.splitOnP_eq_single]
  · rfl
  · intro x hx
    simp only [beq_iff_eq]
    intro hxe
    exact h (hxe ▸ hx)

/-- C18. For every router, method and path: `findRoute` returns a result, the
slice `[1:]` of the split path being always in range (the function is total
and its bounds-checked form never takes the panic branch). A method without
routes yields no handler; the empty path and a path without any slash yield
the handler of the root node. Whenever `findRoute` yields no handler,
`ServeHTTP` is one call of the NotFound handler on the request, with no route
handler and no middleware around it. -/
theorem routing_never_fails {β : Type} (r : Router (HandlerFunc β)) (req : Request) :
    r.findRouteChecked req.Method req.URL.Path =
      .ok (r.findRoute req.Method req.URL.Path) ∧
    (mapGet r.trees req.Method = none →
      r.findRoute req.Method req.URL.Path = (none, [])) ∧
    (∀ root, mapGet r.trees req.Method = some root → '/' ∉ req.URL.Path.data →
      r.findRoute req.Method req.URL.Path = (root.handler, [])) ∧
    ((r.findRoute req.Method req.URL.Path).1 = none → r.ServeHTTP req = r.NotFound req) := by
  refine ⟨findRouteChecked_ok r _ _, ?_, ?_, ?_⟩
  · intro h
    simp only [Router.findRoute, h]
  · intro root h hs
    simp only [Router.findRoute, h, stringsSplit_no_slash _ hs, searchRoute_nil]
  · intro h
    unfold Router.ServeHTTP
    cases hf : r.findRoute req.Method req.URL.Path with
    | mk handler params =>
      rw [hf] at h
      simp only [] at h
      subst h
      rfl

/-- Witness of C18: a request with the empty path and a method without
routes, on a router with one GET route. -/
theorem routing_never_fails_witness : usersRouter.ServeHTTP patchRequest = 404 :=
  (routing_never_fails usersRouter patchRequest).2.2.2
    (by rw [(routing_never_fails usersRouter patchRequest).2.1 rfl])

theorem Handle_error_iff (r : Router H) (m p : String) (h : Option H) :
    (∃ e, r.Handle m p h = .error e) ↔ startsWithSlash p = false := by
  unfold Router.Handle startsWithSlash
  cases hp : p.data with
  | nil => simp
  | cons c rest =>
    by_cases hc : c = '/'
    · subst hc
      simp only [ne_eq, not_true_eq_false, if_false]
      cases mapGet r.trees m <;> simp
    · simp only [ne_eq, hc, not_false_eq_true, if_true]
      constructor
      · intro _
        split
        · rename_i heq
          simp only [List.cons.injEq] at heq
          exact absurd heq.1 hc
        · rfl
      · intro _
        exact ⟨_, rfl⟩

/-- C19. `Handle` panics exactly when the pattern does not start with `/`,
the empty pattern included; the check comes before the trees are read or
written, so the failing call produces no changed router. For a pattern that
starts with `/` the call succeeds, whatever the method, the handler and the
state of the router, and changes the tree of its method only. Dispatch has no
such failure: `findRoute` returns a result for every method and path. -/
theorem handle_fails_iff_no_slash (r : Router H) (m p : String) (h : Option H) :
    ((∃ e, r.Handle m p h = .error e) ↔ startsWithSlash p = false) ∧
    (p = "" → ∃ e, r.Handle m p h = .error e) ∧
    (startsWithSlash p = true →
      ∃ r1, r.Handle m p h = .ok r1 ∧ r1.middleware = r.middleware ∧
        r1.NotFound = r.NotFound ∧
        ∀ m2, m2 ≠ m → mapGet r1.trees m2 = mapGet r.trees m2) ∧
    (∀ method path, r.findRouteChecked method path = .ok (r.findRoute method path)) := by
  refine ⟨Handle_error_iff r m p h, ?_, ?_, fun method path => findRouteChecked_ok r _ _⟩
  · intro hp
    subst hp
    exact ⟨_, rfl⟩
  · intro hs
    cases hh : r.Handle m p h with
    | error e =>
      have := (Handle_error_iff r m p h).mp ⟨e, hh⟩
      rw [hs] at this
      cases this
    | ok r1 =>
      refine ⟨r1, rfl, ?_, ?_, ?_⟩
      · unfold Router.Handle at hh
        split at hh
        · cases hh
        · split at hh
          · cases hh
          · split at hh <;> cases hh <;> rfl
      · unfold Router.Handle at hh
        split at hh
        · cases hh
        · split at hh
          · cases hh
          · split at hh <;> cases hh <;> rfl
      · intro m2 hm2
        rw [Handle_trees hh]
        exact mapGet_mapSet_other _ _ _ _ hm2

/-- Witness of C19: a pattern without the leading slash is refused, on an
empty router. -/
theorem handle_fails_iff_no_slash_witness :
    (New (0 : Nat)).Handle "GET" "users/:id" (some 1) = .error "路径必须以 '/' 开头" := by
  obtain ⟨e, he⟩ :=
    (handle_fails_iff_no_slash (New (0 : Nat)) "GET" "users/:id" (some 1)).1.mpr (by decide)
  have h2 : (New (0 : Nat)).Handle "GET" "users/:id" (some 1) =
      .error "路径必须以 '/' 开头" := rfl
  rw [he] at h2 ⊢
  exact h2

end router

/-! ## Nothing is matched beneath a wildcard -/

namespace router
variable {H : Type}

theorem prune_handler (n : node H) : (prune n).handler = n.handler := by
  cases n; simp [prune, node.handler]

theorem prune_path (n : node H) : (prune n).path = n.path := by
  cases n; simp [prune, node.path]

theorem prune_children (n : node H) : (prune n).children = pruneChildren n.children := by
  cases n; simp [prune, node.children]

theorem prune_param (n : node H) : (prune n).param = pruneParam n.param := by
  cases n; simp [prune, node.param]

theorem prune_wildcard_none (n : node H) (h : n.wildcard = none) :
    (prune n).wildcard = none := by
  cases n
  simp only [node.wildcard] at h
  subst h
  simp [prune, node.wildcard]

theorem prune_wildcard_some (n w : node H) (h : n.wildcard = some w) :
    ∃ w2, (prune n).wildcard = some w2 ∧ w2.handler = w.handler := by
  cases n
  simp only [node.wildcard] at h
  subst h
  cases w with
  | mk wp wh wc wpa ww wip wiw =>
    exact ⟨node.mk wp wh [] none none wip wiw, by simp [prune, node.wildcard], rfl⟩

theorem mapGet_pruneChildren (c : List (String × node H)) (k : String) :
    mapGet (pruneChildren c) k = (mapGet c k).map prune := by
  induction c with
  | nil => simp [pruneChildren, mapGet]
  | cons e rest ih =>
    obtain ⟨k0, n0⟩ := e
    by_cases hk : k0 = k
    · simp [pruneChildren, mapGet, hk]
    · simp [pruneChildren, mapGet, hk, ih]

/-- The search does not see what pruning removes. -/
theorem searchRoute_prune (segments : List String) (n : node H) (params : Params) :
    searchRoute (prune n) segments params = searchRoute n segments params := by
  generalize hlen : segments.length = len
  induction len using Nat.strong_induction_on generalizing segments n params with
  | _ len ih =>
    rw [searchRoute_unfold (prune n), searchRoute_unfold n]
    cases hf : segments.filter (fun seg => seg ≠ "") with
    | nil => simp only [prune_handler]
    | cons segment remaining =>
      have hlt : remaining.length < len := by
        have h1 := List.length_filter_le (fun seg => decide (seg ≠ "")) segments
        rw [hf] at h1
        simp only [List.length_cons] at h1
        omega
      have ihr : ∀ (m : node H) (ps : Params),
          searchRoute (prune m) remaining ps = searchRoute m remaining ps :=
        fun m ps => ih remaining.length hlt remaining m ps rfl
      simp only [searchStep, prune_children, mapGet_pruneChildren, prune_param]
      have hstatic : (match Option.map prune (mapGet n.children segment) with
          | some child => searchRoute child remaining params
          | none => ((none, []) : Option H × Params)) =
          (match mapGet n.children segment with
          | some child => searchRoute child remaining params
          | none => ((none, []) : Option H × Params)) := by
        cases mapGet n.children segment with
        | none => rfl
        | some child => simp only [Option.map_some', ihr]
      have hparam : (match pruneParam n.param with
          | some pn => searchRoute pn remaining (mapSet params pn.path segment)
          | none => ((none, []) : Option H × Params)) =
          (match n.param with
          | some pn => searchRoute pn remaining (mapSet params pn.path segment)
          | none => ((none, []) : Option H × Params)) := by
        cases n.param with
        | none => rfl
        | some pn => simp only [pruneParam, ihr, prune_path]
      have hwild : (match (prune n).wildcard with
          | some w => (w.handler, params)
          | none => ((none, []) : Option H × Params)) =
          (match n.wildcard with
          | some w => (w.handler, params)
          | none => ((none, []) : Option H × Params)) := by
        cases hw : n.wildcard with
        | none => rw [prune_wildcard_none n hw]
        | some w =>
          obtain ⟨w2, hw2, hh⟩ := prune_wildcard_some n w hw
          rw [hw2]
          simp only [hh]
      rw [hstatic, hparam, hwild]

theorem findRoute_pruned (r : Router H) (method path : String) :
    r.pruned.findRoute method path = r.findRoute method path := by
  unfold Router.findRoute Router.pruned
  simp only [mapGet_pruneChildren]
  cases mapGet r.trees method with
  | none => rfl
  | some root => simp only [Option.map_some', searchRoute_prune]

/-- C20. (1) When, at a node, the static and the parameter alternative yield
no handler and the node has a wildcard child, the result is the wildcard
node's own handler with the bindings the node was entered with, whatever the
remaining segments are. (2) `findRoute` gives the same result on the router
in which everything beneath wildcard nodes is removed: no handler stored
there is ever returned. (3) Instance: on a router holding only the pattern
`/a/*/b`, `findRoute` yields no handler for any path. -/
theorem no_match_beyond_wildcard :
    (∀ (n w : node H) (segments : List String) (params : Params) (segment : String)
      (remaining : List String),
      segments.filter (fun seg => seg ≠ "") = segment :: remaining →
      staticFails n segment remaining params → paramFails n segment remaining params →
      n.wildcard = some w → searchRoute n segments params = (w.handler, params)) ∧
    (∀ (r : Router H) (method path : String),
      r.pruned.findRoute method path = r.findRoute method path) ∧
    (∀ (nf h : H) (r : Router H), (New nf).Handle "GET" "/a/*/b" (some h) = .ok r →
      ∀ method path, (r.findRoute method path).1 = none) := by
  refine ⟨?_, findRoute_pruned, ?_⟩
  · intro n w segments params segment remaining hf hs hp hw
    rw [searchRoute_unfold, hf]
    show searchStep n segment remaining params = _
    rw [searchStep_param_fails n segment remaining params hs hp, hw]
  · intro nf h r hr
    have hr2 : r =
        { trees := [("GET", node.mk "" none
            [("a", node.mk "a" none [] none
              (some (node.mk "*" none
                [("b", node.mk "b" (some h) [] none none false false)] none none false true))
              false false)] none none false false)],
          middleware := [], NotFound := nf } := by
      have : (New nf).Handle "GET" "/a/*/b" (some h) = .ok
          { trees := [("GET", node.mk "" none
              [("a", node.mk "a" none [] none
                (some (node.mk "*" none
                  [("b", node.mk "b" (some h) [] none none false false)] none none false
                  true))
                false false)] none none false false)],
            middleware := [], NotFound := nf } := by rfl
      rw [this] at hr
      cases hr
      rfl
    subst hr2
    intro method path
    unfold Router.findRoute
    by_cases hm : "GET" = method
    · simp only [mapGet, hm, if_true]
      rw [searchRoute_unfold]
      cases (stringsSplit path).drop 1 |>.filter (fun seg => seg ≠ "") with
      | nil => rfl
      | cons s rest =>
        simp only [searchStep, node.children, node.param, node.wildcard, mapGet]
        by_cases hs : "a" = s
        · simp only [hs, if_true]
          rw [searchRoute_unfold]
          cases rest.filter (fun seg => seg ≠ "") with
          | nil => rfl
          | cons s2 rest2 =>
            simp only [searchStep, node.children, node.param, node.wildcard, node.handler,
              mapGet]
        · simp only [hs, if_false]
    · simp only [mapGet, hm, if_false]

/-- Witness of C20: at the node `a` of the pattern `/a/*/b`, the segments
`x/b` fall to the wildcard child, whose own handler (none) is the result. -/
theorem no_match_beyond_wildcard_witness :
    searchRoute
      (node.mk "a" (none : Option Nat) [] none
        (some (node.mk "*" none [("b", node.mk "b" (some 7) [] none none false false)]
          none none false true)) false false)
      ["x", "b"] [] = (none, []) :=
  no_match_beyond_wildcard.1 _
    (node.mk "*" none [("b", node.mk "b" (some 7) [] none none false false)] none none
      false true)
    ["x", "b"] [] "x" ["b"] (by decide)
    (by intro c hc; simp [node.children, mapGet] at hc)
    (by intro pn hpn; simp [node.param] at hpn)
    rfl

end router

/-! ## Order of middleware composition -/

namespace router

theorem foldl_Use_middleware {β : Type} (mws : List (MiddlewareFunc β))
    (r : Router (HandlerFunc β)) :
    (mws.foldl Router.Use r).middleware = r.middleware ++ mws := by
  induction mws generalizing r with
  | nil => simp
  | cons mw rest ih =>
    simp only [List.foldl_cons, ih, Router.Use, List.append_assoc, List.singleton_append]

theorem applyMiddleware_append {β : Type} (xs ys : List (MiddlewareFunc β))
    (h : HandlerFunc β) :
    applyMiddleware (xs ++ ys) h = applyMiddleware xs (applyMiddleware ys h) := by
  simp only [applyMiddleware, List.foldr_append]

theorem ServeHTTP_matched {β : Type} (r : Router (HandlerFunc β)) (req : Request)
    (h : HandlerFunc β) (params : Params)
    (hf : r.findRoute req.Method req.URL.Path = (some h, params)) :
    r.ServeHTTP req = applyMiddleware r.middleware h (withParams req params) := by
  unfold Router.ServeHTTP
  rw [hf]

theorem sliceAppend_read {α : Type} (growslice : Nat → Nat → Nat) (heap : Heap α)
    (s : Slice) (xs : List α) (hv : s.Valid heap) :
    (sliceAppend growslice heap s xs).2.read (sliceAppend growslice heap s xs).1 =
      s.read heap ++ xs := by
  cases xs with
  | nil => simp [sliceAppend]
  | cons x rest =>
    unfold sliceAppend
    simp only []
    split_ifs with hfit
    · obtain ⟨_, hc | ⟨harr, hlen⟩⟩ := hv
      · simp only [List.length_cons] at hfit
        omega
      · simp only [Slice.read]
        rw [List.getD_eq_getElem?_getD, List.getElem?_set_self harr]
        simp only [Option.getD_some]
        rw [List.append_assoc, List.take_append_eq_append_take,
          List.take_append_eq_append_take]
        simp only [List.length_take, List.take_take]
        rw [List.getD_eq_getElem?_getD]
        have h1 : min s.len (heap[s.array]?.getD []).length = s.len := by
          rw [List.getD_eq_getElem?_getD] at hlen
          omega
        rw [h1]
        have h2 : s.len + (x :: rest).length - s.len = (x :: rest).length := by omega
        rw [h2]
        simp
    · simp only [Slice.read]
      rw [List.getD_eq_getElem?_getD, List.getElem?_append_right (le_refl _)]
      simp only [Nat.sub_self, List.getElem?_cons_zero, Option.getD_some]
      have hl : ((heap.getD s.array []).take s.len).length = s.len := by
        obtain ⟨hle, hc | ⟨_, hlen⟩⟩ := hv
        · have : s.len = 0 := by omega
          simp [this]
        · simp only [List.length_take]
          omega
      rw [List.take_append_eq_append_take, hl]
      simp


theorem sliceAppend_valid {α : Type} (growslice : Nat → Nat → Nat)
    (hgrow : ∀ oldCap needed, needed ≤ growslice oldCap needed) (heap : Heap α)
    (s : Slice) (xs : List α) (hv : s.Valid heap) :
    (sliceAppend growslice heap s xs).2.Valid (sliceAppend growslice heap s xs).1 := by
  cases xs with
  | nil => exact hv
  | cons x rest =>
    unfold sliceAppend
    simp only []
    split_ifs with hfit
    · obtain ⟨_, hc | ⟨harr, hlen⟩⟩ := hv
      · simp only [List.length_cons] at hfit
        omega
      · refine ⟨hfit, Or.inr ⟨by simpa using harr, ?_⟩⟩
        simp only []
        rw [List.getD_eq_getElem?_getD, List.getElem?_set_self harr]
        simp only [Option.getD_some, List.length_append, List.length_take]
        rw [List.getD_eq_getElem?_getD] at hlen
        rw [List.getD_eq_getElem?_getD]
        omega
    · refine ⟨hgrow _ _, Or.inr ⟨by simp, ?_⟩⟩
      simp only []
      rw [List.getD_eq_getElem?_getD, List.getElem?_append_right (le_refl _)]
      simp only [Nat.sub_self, List.getElem?_cons_zero, Option.getD_some, List.length_append,
        Slice.read, List.length_take]
      obtain ⟨hle, hc | ⟨_, hlen⟩⟩ := hv
      · have : s.len = 0 := by omega
        simp [this]
      · omega

theorem sliceAppend_frame {α : Type} (growslice : Nat → Nat → Nat) (heap : Heap α)
    (s t : Slice) (xs : List α) (ht : t.Valid heap) (hapart : s.Apart t) :
    t.read (sliceAppend growslice heap s xs).1 = t.read heap ∧
    t.Valid (sliceAppend growslice heap s xs).1 ∧
    (sliceAppend growslice heap s xs).2.Apart t := by
  cases xs with
  | nil => exact ⟨rfl, ht, hapart⟩
  | cons x rest =>
    unfold sliceAppend
    simp only []
    by_cases htc : t.cap = 0
    · have htl : t.len = 0 := by
        have := ht.1
        omega
      split_ifs <;>
        exact ⟨by simp [Slice.read, htl], ⟨by omega, Or.inl htc⟩, Or.inr (Or.inl htc)⟩
    · obtain ⟨htle, hc | ⟨htarr, htlen⟩⟩ := ht
      · exact absurd hc htc
      · split_ifs with hfit
        · have hsc : s.cap ≠ 0 := by
            simp only [List.length_cons] at hfit
            omega
          have hne : s.array ≠ t.array := by
            rcases hapart with h | h | h
            · exact absurd h hsc
            · exact absurd h htc
            · exact h
          have hget : (heap.set s.array
              ((heap.getD s.array []).take s.len ++ x :: rest ++
                (heap.getD s.array []).drop (s.len + (x :: rest).length))).getD t.array [] =
              heap.getD t.array [] := by
            simp only [List.getD_eq_getElem?_getD, List.getElem?_set_ne hne]
          refine ⟨?_, ⟨htle, Or.inr ⟨by simpa using htarr, ?_⟩⟩, Or.inr (Or.inr hne)⟩
          · simp only [Slice.read]
            rw [hget]
          · rw [hget]
            exact htlen
        · have hget : ∀ ys : List α, (heap ++ [ys]).getD t.array [] =
              heap.getD t.array [] := by
            intro ys
            simp only [List.getD_eq_getElem?_getD, List.getElem?_append_left htarr]
          refine ⟨?_, ⟨htle, Or.inr ⟨?_, ?_⟩⟩, Or.inr (Or.inr ?_)⟩
          · simp only [Slice.read]
            rw [hget]
          · simp only [List.length_append, List.length_singleton]
            omega
          · rw [hget]
            exact htlen
          · simp only []
            omega

theorem Apart_symm {s t : Slice} (h : s.Apart t) : t.Apart s := by
  rcases h with h | h | h
  · exact Or.inr (Or.inl h)
  · exact Or.inl h
  · exact Or.inr (Or.inr (fun e => h e.symm))

theorem empty_Valid {α : Type} (heap : Heap α) : Slice.empty.Valid heap :=
  ⟨le_refl _, Or.inl rfl⟩

theorem empty_read {α : Type} (heap : Heap α) : Slice.empty.read heap = [] := by
  simp [Slice.read, Slice.empty]

/-- Interleaved `Use` calls on two groups whose slices share no cell: each
group ends with its own middleware followed by what was added to it. -/
theorem useBoth_apart {β : Type} (growslice : Nat → Nat → Nat)
    (hgrow : ∀ oldCap needed, needed ≤ growslice oldCap needed)
    (ops : List (Bool × MiddlewareFunc β)) (heap : Heap (MiddlewareFunc β))
    (g sub : Group) (hg : g.middleware.Valid heap) (hsub : sub.middleware.Valid heap)
    (hapart : g.middleware.Apart sub.middleware) :
    (useBoth growslice (heap, g, sub) ops).2.1.middlewares
        (useBoth growslice (heap, g, sub) ops).1 =
      g.middlewares heap ++ (ops.filter (fun op => op.1)).map (fun op => op.2) ∧
    (useBoth growslice (heap, g, sub) ops).2.2.middlewares
        (useBoth growslice (heap, g, sub) ops).1 =
      sub.middlewares heap ++ (ops.filter (fun op => !op.1)).map (fun op => op.2) ∧
    (useBoth growslice (heap, g, sub) ops).2.1.groupPrefix = g.groupPrefix ∧
    (useBoth growslice (heap, g, sub) ops).2.2.groupPrefix = sub.groupPrefix := by
  induction ops generalizing heap g sub with
  | nil => simp [useBoth]
  | cons op rest ih =>
    obtain ⟨onGroup, mw⟩ := op
    cases onGroup with
    | true =>
      have hr := sliceAppend_read growslice heap g.middleware [mw] hg
      have hv := sliceAppend_valid growslice hgrow heap g.middleware [mw] hg
      obtain ⟨hf1, hf2, hf3⟩ :=
        sliceAppend_frame growslice heap g.middleware sub.middleware [mw] hsub hapart
      obtain ⟨i1, i2, i3, i4⟩ := ih (g.Use growslice heap mw).1 (g.Use growslice heap mw).2 sub
        hv hf2 hf3
      have hu : useBoth growslice (heap, g, sub) ((true, mw) :: rest) =
          useBoth growslice ((g.Use growslice heap mw).1, (g.Use growslice heap mw).2, sub)
            rest := rfl
      rw [hu]
      refine ⟨?_, ?_, i3, i4⟩
      · rw [i1]
        simp only [Group.middlewares, Group.Use, hr, List.filter_cons_of_pos, List.map_cons,
          List.append_assoc, List.singleton_append]
      · rw [i2]
        simp only [Group.middlewares, Group.Use, hf1, Bool.not_true, Bool.false_eq_true,
          not_false_eq_true, List.filter_cons_of_neg]
    | false =>
      have hr := sliceAppend_read growslice heap sub.middleware [mw] hsub
      have hv := sliceAppend_valid growslice hgrow heap sub.middleware [mw] hsub
      obtain ⟨hf1, hf2, hf3⟩ :=
        sliceAppend_frame growslice heap sub.middleware g.middleware [mw] hg
          (Apart_symm hapart)
      obtain ⟨i1, i2, i3, i4⟩ := ih (sub.Use growslice heap mw).1 g
        (sub.Use growslice heap mw).2 hf2 hv (Apart_symm hf3)
      have hu : useBoth growslice (heap, g, sub) ((false, mw) :: rest) =
          useBoth growslice ((sub.Use growslice heap mw).1, g, (sub.Use growslice heap mw).2)
            rest := rfl
      rw [hu]
      refine ⟨?_, ?_, i3, i4⟩
      · rw [i1]
        simp only [Group.middlewares, Group.Use, hf1, Bool.false_eq_true,
          not_false_eq_true, List.filter_cons_of_neg]
      · rw [i2]
        simp only [Group.middlewares, Group.Use, hr, Bool.not_false, List.filter_cons_of_pos,
          List.map_cons, List.append_assoc, List.singleton_append]

/-- What `Group.Group` leaves: the sub-group reads the middleware of its
parent, the parent reads as before, and the two slices share no cell. -/
theorem Group_Group_copy {β : Type} (growslice : Nat → Nat → Nat)
    (hgrow : ∀ oldCap needed, needed ≤ growslice oldCap needed)
    (heap : Heap (MiddlewareFunc β)) (g : Group) (p : String)
    (hg : g.middleware.Valid heap) :
    (g.Group growslice heap p).2.middlewares (g.Group growslice heap p).1 =
      g.middlewares heap ∧
    g.middlewares (g.Group growslice heap p).1 = g.middlewares heap ∧
    g.middleware.Valid (g.Group growslice heap p).1 ∧
    (g.Group growslice heap p).2.middleware.Valid (g.Group growslice heap p).1 ∧
    g.middleware.Apart (g.Group growslice heap p).2.middleware := by
  have hr := sliceAppend_read growslice heap Slice.empty (g.middlewares heap)
    (empty_Valid heap)
  have hv := sliceAppend_valid growslice hgrow heap Slice.empty (g.middlewares heap)
    (empty_Valid heap)
  obtain ⟨hf1, hf2, hf3⟩ := sliceAppend_frame growslice heap Slice.empty g.middleware
    (g.middlewares heap) hg (Or.inl rfl)
  refine ⟨?_, hf1, hf2, hv, Apart_symm hf3⟩
  simp only [Group.middlewares, Group.Group] at hr ⊢
  rw [hr, empty_read, List.nil_append]


theorem growDouble_le (oldCap needed : Nat) : needed ≤ growDouble oldCap needed := by
  unfold growDouble
  split_ifs <;> omega

/-- Two holders of one slice header with spare capacity write the same cell:
what the first appended is overwritten by the append of the second. (This is
what the copy in `Group.Group` keeps a group and its sub-group from.) -/
theorem sliceAppend_shared_cell :
    (sliceAppend growDouble [[1, 2, 3]] ⟨0, 3, 4⟩ [10]).2.read
      (sliceAppend growDouble [[1, 2, 3]] ⟨0, 3, 4⟩ [10]).1 = [1, 2, 3, 10] ∧
    (sliceAppend growDouble [[1, 2, 3]] ⟨0, 3, 4⟩ [10]).2.read
      (sliceAppend growDouble (sliceAppend growDouble [[1, 2, 3]] ⟨0, 3, 4⟩ [10]).1
        ⟨0, 3, 4⟩ [20]).1 = [1, 2, 3, 20] := by
  decide

/-- C21. (1) A router on which `Use` was called with `m1, ..., mn` in that
order holds them in that order, and for a matched request `ServeHTTP` runs
`m1 (m2 (... (mn handler)))`: the first added is outermost. (2) `Group.Use`
appends to the middleware of the group, and `Group.Handle` registers, under
the joined path, the handler wrapped in the middleware the group has at that
moment, so a matched request of such a route runs the global middleware
around the group middleware around the handler, each in `Use` order. (3)
`Group.Group` gives the sub-group the middleware of its parent in a slice
that shares no cell with the parent's: after any sequence of `Use` calls on
the two, in any order, the parent has its middleware followed by what was
added to the parent, and the sub-group the middleware the parent had when the
sub-group was made followed by what was added to the sub-group. Slices are
those of a heap of backing arrays, `append` writing in place while the
capacity lasts; the capacity of a newly allocated array is any number not
below the length needed. -/
theorem middleware_composition_order {β : Type} :
    (∀ (nf : HandlerFunc β) (mws : List (MiddlewareFunc β)),
      (mws.foldl Router.Use (New nf)).middleware = mws) ∧
    (∀ (m1 : MiddlewareFunc β) (rest : List (MiddlewareFunc β)) (h : HandlerFunc β),
      applyMiddleware (m1 :: rest) h = m1 (applyMiddleware rest h)) ∧
    (∀ (r : Router (HandlerFunc β)) (req : Request) (h : HandlerFunc β) (params : Params),
      r.findRoute req.Method req.URL.Path = (some h, params) →
      r.ServeHTTP req = applyMiddleware r.middleware h (withParams req params)) ∧
    (∀ (g : Group) (heap : Heap (MiddlewareFunc β)) (r : Router (HandlerFunc β))
      (method path : String) (h : HandlerFunc β),
      g.Handle heap r method path h =
        r.Handle method (g.fullPath path) (some (applyMiddleware (g.middlewares heap) h))) ∧
    (∀ (g : Group) (heap : Heap (MiddlewareFunc β)) (r : Router (HandlerFunc β))
      (req : Request) (h : HandlerFunc β) (params : Params),
      r.findRoute req.Method req.URL.Path =
        (some (applyMiddleware (g.middlewares heap) h), params) →
      r.ServeHTTP req =
        applyMiddleware (r.middleware ++ g.middlewares heap) h (withParams req params)) ∧
    (∀ (growslice : Nat → Nat → Nat) (heap : Heap (MiddlewareFunc β))
      (r : Router (HandlerFunc β)) (p : String),
      (∀ oldCap needed, needed ≤ growslice oldCap needed) →
      (Router.Group r p).middleware.Valid heap ∧ (Router.Group r p).middlewares heap = [] ∧
      ∀ (g : Group) (mw : MiddlewareFunc β), g.middleware.Valid heap →
        (g.Use growslice heap mw).2.middlewares (g.Use growslice heap mw).1 =
          g.middlewares heap ++ [mw] ∧
        (g.Use growslice heap mw).2.middleware.Valid (g.Use growslice heap mw).1 ∧
        (g.Group growslice heap p).2.middleware.Valid (g.Group growslice heap p).1) ∧
    (∀ (growslice : Nat → Nat → Nat) (heap : Heap (MiddlewareFunc β)) (g : Group)
      (p : String) (ops : List (Bool × MiddlewareFunc β)),
      (∀ oldCap needed, needed ≤ growslice oldCap needed) → g.middleware.Valid heap →
      (g.Group growslice heap p).2.middlewares (g.Group growslice heap p).1 =
        g.middlewares heap ∧
      g.middlewares (g.Group growslice heap p).1 = g.middlewares heap ∧
      (g.Group growslice heap p).2.groupPrefix = filepathJoin [g.groupPrefix, p] ∧
      (useBoth growslice
          ((g.Group growslice heap p).1, g, (g.Group growslice heap p).2) ops).2.1.middlewares
        (useBoth growslice
          ((g.Group growslice heap p).1, g, (g.Group growslice heap p).2) ops).1 =
        g.middlewares heap ++ (ops.filter (fun op => op.1)).map (fun op => op.2) ∧
      (useBoth growslice
          ((g.Group growslice heap p).1, g, (g.Group growslice heap p).2) ops).2.2.middlewares
        (useBoth growslice
          ((g.Group growslice heap p).1, g, (g.Group growslice heap p).2) ops).1 =
        g.middlewares heap ++ (ops.filter (fun op => !op.1)).map (fun op => op.2)) := by
  refine ⟨?_, fun _ _ _ => rfl, ServeHTTP_matched, fun _ _ _ _ _ _ => rfl, ?_, ?_, ?_⟩
  · intro nf mws
    rw [foldl_Use_middleware]
    rfl
  · intro g heap r req h params hf
    rw [ServeHTTP_matched r req _ params hf, applyMiddleware_append]
  · intro growslice heap r p hgrow
    refine ⟨empty_Valid heap, empty_read heap, fun g mw hg => ⟨?_, ?_, ?_⟩⟩
    · exact sliceAppend_read growslice heap g.middleware [mw] hg
    · exact sliceAppend_valid growslice hgrow heap g.middleware [mw] hg
    · exact (Group_Group_copy growslice hgrow heap g p hg).2.2.2.1
  · intro growslice heap g p ops hgrow hg
    obtain ⟨c1, c2, c3, c4, c5⟩ := Group_Group_copy growslice hgrow heap g p hg
    obtain ⟨u1, u2, _, _⟩ := useBoth_apart growslice hgrow ops
      (g.Group growslice heap p).1 g (g.Group growslice heap p).2 c3 c4 c5
    refine ⟨c1, c2, rfl, ?_, ?_⟩
    · rw [u1, c2]
    · rw [u2, c1]

/-- Witness of C21: global middleware `A`, `B`; a group with `C`, a sub-group
adding `D`, and `E` added to the group after the sub-group was made; the route
registered through the sub-group runs `A B C D` around the handler, in that
order. -/
theorem middleware_composition_order_witness :
    Router.ServeHTTP
      { trees := [("GET", node.mk "" none
          [("x", node.mk "x" (some (applyMiddleware [tag "C", tag "D"] (leaf "h"))) [] none
            none false false)] none none false false)],
        middleware := [tag "A", tag "B"], NotFound := leaf "404" }
      { Method := "GET", URL := { Path := "/x", Query := [] }, Header := [],
        RemoteAddr := "10.0.0.1:5000", Cookies := [] } = ["A", "B", "C", "D", "h"] :=
  middleware_composition_order.2.2.2.2.1 exampleGroups.2.2 exampleGroups.1
    _ _ (leaf "h") []
    (by
      simp [Router.findRoute, searchRoute_unfold, searchStep, mapGet, stringsSplit,
        node.children, node.handler, List.splitOn, List.splitOnP, List.splitOnP.go]
      rfl)

end router

/-! ## Rate limiting -/

namespace middleware

theorem entry_mapSet_same (rq : RateTable) (c : String) (v : List Int) :
    entry (mapSet rq c v) c = v := by
  simp only [entry, mapGet_mapSet_same]

theorem entry_mapSet_other (rq : RateTable) (c c2 : String) (v : List Int) (h : c2 ≠ c) :
    entry (mapSet rq c v) c2 = entry rq c2 := by
  simp only [entry, mapGet_mapSet_other _ _ _ _ h]

theorem window_window (tl t : Int) (P : List Int) (h : tl ≤ t) :
    window t (window tl P) = window t P := by
  unfold window
  rw [List.filter_filter]
  apply List.filter_congr
  intro x _
  have hm : minute = 60 * 1000000000 := rfl
  by_cases h1 : t - x < minute
  · have h2 : tl - x < minute := by omega
    simp [h1, h2]
  · simp [h1]

theorem window_append_self (t : Int) (P : List Int) :
    window t (P ++ [t]) = window t P ++ [t] := by
  unfold window
  rw [List.filter_append]
  have hpos : (0 : Int) < minute := by decide
  simp [hpos]

theorem window_length_le (t : Int) (P : List Int) : (window t P).length ≤ P.length :=
  List.length_filter_le _ _

/-- The pruned table of `rateStep` holds the window of the old entry. -/
theorem rateStep_pruned (rq : RateTable) (c : String) (t : Int) :
    entry (match mapGet rq c with
      | some times => mapSet rq c (window t times)
      | none => rq) c = window t (entry rq c) := by
  cases h : mapGet rq c with
  | none => simp [entry, h, window]
  | some times => simp [entry, h, mapGet_mapSet_same]

theorem rateStep_decision (rq : RateTable) (c : String) (t : Int) :
    (rateStep rq c t).1 = decide ((window t (entry rq c)).length < 60) := by
  unfold rateStep
  simp only [rateStep_pruned]
  split_ifs with h
  · simp only [decide_eq_false_iff_not, not_lt, Bool.false_eq]
    exact h
  · simp only [true_eq_decide_iff]
    omega

theorem rateStep_entry (rq : RateTable) (c : String) (t : Int) :
    entry (rateStep rq c t).2 c =
      if (window t (entry rq c)).length < 60 then window t (entry rq c) ++ [t]
      else window t (entry rq c) := by
  unfold rateStep
  simp only [rateStep_pruned]
  split_ifs with h1 h2 h2
  · omega
  · exact rateStep_pruned rq c t
  · rw [entry_mapSet_same]
  · omega

theorem rateStep_other (rq : RateTable) (c c2 : String) (t : Int) (h : c2 ≠ c) :
    mapGet (rateStep rq c t).2 c2 = mapGet rq c2 := by
  unfold rateStep
  have h1 : mapGet (match mapGet rq c with
      | some times => mapSet rq c (window t times)
      | none => rq) c2 = mapGet rq c2 := by
    cases mapGet rq c with
    | none => rfl
    | some times => exact mapGet_mapSet_other _ _ _ _ h
  simp only []
  split_ifs
  · exact h1
  · rw [mapGet_mapSet_other _ _ _ _ h, h1]

theorem rateStep_entry_other (rq : RateTable) (c c2 : String) (t : Int) (h : c2 ≠ c) :
    entry (rateStep rq c t).2 c2 = entry rq c2 := by
  simp only [entry, rateStep_other rq c c2 t h]

end middleware

namespace middleware

theorem admittedTimes_cons (a : Arrival) (d : Bool) (log : List (Arrival × Bool))
    (c : String) :
    admittedTimes ((a, d) :: log) c =
      (if d = true ∧ a.client = c then [a.time] else []) ++ admittedTimes log c := by
  unfold admittedTimes
  by_cases h : d = true ∧ a.client = c
  · simp [List.filter_cons, h.1, h.2]
  · rw [if_neg h]
    have : (d && a.client == c) = false := by
      cases d
      · rfl
      · simp only [true_and] at h
        simp [h]
    simp [List.filter_cons, this]

theorem admittedTimes_append (l1 l2 : List (Arrival × Bool)) (c : String) :
    admittedTimes (l1 ++ l2) c = admittedTimes l1 c ++ admittedTimes l2 c := by
  simp [admittedTimes, List.filter_append]

theorem nonDecreasing_cons {a : Arrival} {rest : List Arrival}
    (h : nonDecreasing (a :: rest)) :
    (∀ b ∈ rest, a.time ≤ b.time) ∧ nonDecreasing rest := by
  unfold nonDecreasing at h ⊢
  simp only [List.map_cons, List.pairwise_cons, List.mem_map, forall_exists_index,
    and_imp, forall_apply_eq_imp_iff₂] at h
  exact h

theorem nonDecreasing_snoc {a : Arrival} {pre : List Arrival}
    (h : nonDecreasing (pre ++ [a])) :
    (∀ b ∈ pre, b.time ≤ a.time) ∧ nonDecreasing pre := by
  unfold nonDecreasing at h ⊢
  rw [List.map_append, List.pairwise_append] at h
  refine ⟨?_, h.1⟩
  intro b hb
  exact h.2.2 b.time (List.mem_map_of_mem _ hb) a.time (by simp)

/-- Along a run with non-decreasing times the entry of a client is the window,
at some time not later than what follows, of its admitted requests. -/
theorem rateRun_invariant (c : String) (pre : List Arrival) :
    ∀ (rq : RateTable) (P : List Int) (tl : Int),
      entry rq c = window tl P → (∀ a ∈ pre, tl ≤ a.time) → nonDecreasing pre →
      ∃ tl2, entry (rateRun rq pre) c =
          window tl2 (P ++ admittedTimes (rateLog rq pre) c) ∧
        ∀ t, tl ≤ t → (∀ a ∈ pre, a.time ≤ t) → tl2 ≤ t := by
  induction pre with
  | nil =>
    intro rq P tl he _ _
    refine ⟨tl, ?_, fun t ht _ => ht⟩
    simp [rateRun, rateLog, admittedTimes, he]
  | cons a rest ih =>
    intro rq P tl he hlow hnd
    obtain ⟨hhead, hrest⟩ := nonDecreasing_cons hnd
    have hta : tl ≤ a.time := hlow a (List.mem_cons_self _ _)
    by_cases hc : a.client = c
    · -- a request of the client itself
      subst hc
      have hwin : window a.time (entry rq a.client) = window a.time P := by
        rw [he, window_window tl a.time P hta]
      have hentry := rateStep_entry rq a.client a.time
      have hdec := rateStep_decision rq a.client a.time
      rw [hwin] at hentry hdec
      by_cases hadm : (window a.time P).length < 60
      · rw [if_pos hadm] at hentry
        have hd : (rateStep rq a.client a.time).1 = true := by rw [hdec]; simp [hadm]
        obtain ⟨tl2, h1, h2⟩ := ih (rateStep rq a.client a.time).2 (P ++ [a.time]) a.time
          (by rw [hentry, window_append_self]) hhead hrest
        have hcons : admittedTimes (rateLog rq (a :: rest)) a.client =
            [a.time] ++ admittedTimes (rateLog (rateStep rq a.client a.time).2 rest)
              a.client := by
          show admittedTimes ((a, (rateStep rq a.client a.time).1) :: _) a.client = _
          rw [admittedTimes_cons, if_pos ⟨hd, rfl⟩]
        refine ⟨tl2, ?_, ?_⟩
        · show entry (rateRun (rateStep rq a.client a.time).2 rest) a.client = _
          rw [h1, hcons]
          simp only [List.append_assoc]
        · intro t _ hall
          exact h2 t (hall a (List.mem_cons_self _ _))
            (fun b hb => hall b (List.mem_cons_of_mem _ hb))
      · rw [if_neg hadm] at hentry
        have hd : (rateStep rq a.client a.time).1 = false := by rw [hdec]; simp [hadm]
        obtain ⟨tl2, h1, h2⟩ := ih (rateStep rq a.client a.time).2 P a.time
          (by rw [hentry]) hhead hrest
        have hcons : admittedTimes (rateLog rq (a :: rest)) a.client =
            admittedTimes (rateLog (rateStep rq a.client a.time).2 rest) a.client := by
          show admittedTimes ((a, (rateStep rq a.client a.time).1) :: _) a.client = _
          rw [admittedTimes_cons, if_neg (by simp [hd])]
          rfl
        refine ⟨tl2, ?_, ?_⟩
        · show entry (rateRun (rateStep rq a.client a.time).2 rest) a.client = _
          rw [h1, hcons]
        · intro t _ hall
          exact h2 t (hall a (List.mem_cons_self _ _))
            (fun b hb => hall b (List.mem_cons_of_mem _ hb))
    · -- a request of another client
      have hother : entry (rateStep rq a.client a.time).2 c = entry rq c :=
        rateStep_entry_other rq a.client c a.time (fun h => hc h.symm)
      obtain ⟨tl2, h1, h2⟩ := ih (rateStep rq a.client a.time).2 P tl
        (by rw [hother, he]) (fun b hb => hlow b (List.mem_cons_of_mem _ hb)) hrest
      have hcons : admittedTimes (rateLog rq (a :: rest)) c =
          admittedTimes (rateLog (rateStep rq a.client a.time).2 rest) c := by
        show admittedTimes ((a, (rateStep rq a.client a.time).1) :: _) c = _
        rw [admittedTimes_cons, if_neg (fun h => hc h.2)]
        rfl
      refine ⟨tl2, ?_, ?_⟩
      · show entry (rateRun (rateStep rq a.client a.time).2 rest) c = _
        rw [h1, hcons]
      · intro t ht hall
        exact h2 t ht (fun b hb => hall b (List.mem_cons_of_mem _ hb))

/-- The decision for a request, in terms of the admitted requests before it. -/
theorem rate_decision (pre : List Arrival) (a : Arrival)
    (hnd : nonDecreasing (pre ++ [a])) :
    (rateStep (rateRun [] pre) a.client a.time).1 =
      decide ((window a.time (admittedTimes (rateLog [] pre) a.client)).length < 60) := by
  obtain ⟨hle, hpre⟩ := nonDecreasing_snoc hnd
  rw [rateStep_decision]
  cases pre with
  | nil => rfl
  | cons b rest =>
    obtain ⟨hhead, _⟩ := nonDecreasing_cons hpre
    obtain ⟨tl2, h1, h2⟩ := rateRun_invariant a.client (b :: rest) [] [] b.time
      (by simp [entry, mapGet, window])
      (by
        intro x hx
        rcases List.mem_cons.mp hx with hx | hx
        · rw [hx]
        · exact hhead x hx)
      hpre
    rw [h1]
    simp only [List.nil_append,
      window_window tl2 a.time _ (h2 a.time (hle b (List.mem_cons_self _ _)) hle)]

end middleware

namespace middleware

theorem rateRun_append (rq : RateTable) (xs ys : List Arrival) :
    rateRun rq (xs ++ ys) = rateRun (rateRun rq xs) ys := by
  induction xs generalizing rq with
  | nil => rfl
  | cons a rest ih =>
    show rateRun (rateStep rq a.client a.time).2 (rest ++ ys) = _
    exact ih _

theorem rateLog_append (rq : RateTable) (xs ys : List Arrival) :
    rateLog rq (xs ++ ys) = rateLog rq xs ++ rateLog (rateRun rq xs) ys := by
  induction xs generalizing rq with
  | nil => rfl
  | cons a rest ih =>
    show (a, (rateStep rq a.client a.time).1) ::
      rateLog (rateStep rq a.client a.time).2 (rest ++ ys) = _
    rw [ih]
    rfl

/-- No entry of the table grows beyond 60 times. -/
theorem rateRun_entry_le (history : List Arrival) :
    ∀ rq : RateTable, (∀ c, (entry rq c).length ≤ 60) →
      ∀ c, (entry (rateRun rq history) c).length ≤ 60 := by
  induction history with
  | nil => intro rq h c; exact h c
  | cons a rest ih =>
    intro rq h c
    apply ih (rateStep rq a.client a.time).2
    intro c2
    by_cases hc : c2 = a.client
    · subst hc
      rw [rateStep_entry]
      split_ifs with hlt
      · simp only [List.length_append, List.length_singleton]
        omega
      · exact le_trans (window_length_le _ _) (h _)
    · rw [rateStep_entry_other rq a.client c2 a.time hc]
      exact h c2

/-- With non-decreasing times, at most 60 admitted requests of a client lie
in any one-minute interval. -/
theorem admitted_in_interval_le (history : List Arrival) (c : String) (s : Int) :
    nonDecreasing history →
    ((admittedTimes (rateLog [] history) c).filter
      (fun t => decide (s ≤ t ∧ t < s + minute))).length ≤ 60 := by
  induction history using List.reverseRecOn with
  | nil => intro _; simp [rateLog, admittedTimes]
  | append_singleton pre a ih =>
    intro hnd
    obtain ⟨hle, hpre⟩ := nonDecreasing_snoc hnd
    have ih2 := ih hpre
    have hlog : rateLog [] (pre ++ [a]) =
        rateLog [] pre ++ [(a, (rateStep (rateRun [] pre) a.client a.time).1)] := by
      rw [rateLog_append]
      rfl
    rw [hlog, admittedTimes_append, admittedTimes_cons]
    have hnil : admittedTimes [] c = [] := rfl
    rw [hnil, List.append_nil, List.filter_append]
    by_cases hadm : (rateStep (rateRun [] pre) a.client a.time).1 = true ∧ a.client = c
    · rw [if_pos hadm]
      by_cases hin : s ≤ a.time ∧ a.time < s + minute
      · have hdec := rate_decision pre a hnd
        rw [hadm.1, hadm.2] at hdec
        have hlt : (window a.time (admittedTimes (rateLog [] pre) c)).length < 60 := by
          simpa using hdec.symm
        have hsub : ((admittedTimes (rateLog [] pre) c).filter
            (fun t => decide (s ≤ t ∧ t < s + minute))).length ≤
            (window a.time (admittedTimes (rateLog [] pre) c)).length := by
          apply List.Sublist.length_le
          apply List.monotone_filter_right
          intro t ht
          simp only [decide_eq_true_eq] at ht ⊢
          omega
        have hkeep : [a.time].filter (fun t => decide (s ≤ t ∧ t < s + minute)) =
            [a.time] := by
          simp [hin]
        rw [hkeep, List.length_append, List.length_singleton]
        omega
      · have hdrop : [a.time].filter (fun t => decide (s ≤ t ∧ t < s + minute)) = [] := by
          simp [hin]
        rw [hdrop, List.append_nil]
        exact ih2
    · rw [if_neg hadm]
      simp only [List.filter_nil, List.append_nil]
      exact ih2

end middleware

namespace middleware

open router (Request)

theorem RateLimit_eq (rq : RateTable) (next : HandlerFunc) (r : Request) (w : World) :
    RateLimit rq next r w =
      ((rateStep rq (getClientIP r) w.now).2,
        if (rateStep rq (getClientIP r) w.now).1 = true then next r w
        else
          { world := w.emit
              [.writeHeader 429,
                .write "\x7b\"success\": false, \"error\": \"请求过于频繁\"\x7d"],
            panic := none }) := by
  unfold RateLimit
  cases h : rateStep rq (getClientIP r) w.now with
  | mk d rq1 => cases d <;> simp

theorem dropWhile_notColon (l r : List Char) (h : ∀ c ∈ l, c ≠ ':') :
    (l ++ ':' :: r).dropWhile (fun c => c ≠ ':') = ':' :: r := by
  induction l with
  | nil => simp [List.dropWhile]
  | cons c rest ih =>
    have hc : c ≠ ':' := h c (List.mem_cons_self _ _)
    simp only [List.cons_append, List.dropWhile_cons, hc, ne_eq, not_false_eq_true,
      decide_True, if_true]
    exact ih (fun x hx => h x (List.mem_cons_of_mem _ hx))

theorem beforeLastColon_host (host port : List Char) (h : ∀ c ∈ port, c ≠ ':') :
    beforeLastColon (host ++ ':' :: port) = some host := by
  unfold beforeLastColon
  have : (host ++ ':' :: port).reverse = port.reverse ++ ':' :: host.reverse := by
    simp
  rw [this, dropWhile_notColon _ _ (fun c hc => h c (List.mem_reverse.mp hc))]
  simp

theorem getClientIP_remote (r : Request) (host port : String)
    (hx : headerGet r "X-Forwarded-For" = "") (hr : headerGet r "X-Real-Ip" = "")
    (ha : r.RemoteAddr = host ++ ":" ++ port) (hp : ∀ c ∈ port.data, c ≠ ':') :
    getClientIP r = host := by
  unfold getClientIP
  simp only [hx, hr, ne_eq, not_true_eq_false, if_false]
  have hd : r.RemoteAddr.data = host.data ++ ':' :: port.data := by
    rw [ha]
    simp [String.data_append]
  rw [hd, beforeLastColon_host _ _ hp]

theorem RateLimit_table (rq : RateTable) (next : HandlerFunc) (r : Request) (w : World) :
    (RateLimit rq next r w).1 = (rateStep rq (getClientIP r) w.now).2 := by
  rw [RateLimit_eq]

theorem rateRun_same_time (c : String) (t : Int) (n : Nat) (hn : n ≤ 60) :
    entry (rateRun [] (List.replicate n ⟨c, t⟩)) c = List.replicate n t ∧
    admittedTimes (rateLog [] (List.replicate n ⟨c, t⟩)) c = List.replicate n t := by
  induction n with
  | zero => exact ⟨rfl, rfl⟩
  | succ k ih =>
    obtain ⟨ih1, ih2⟩ := ih (by omega)
    have hw : window t (List.replicate k t) = List.replicate k t := by
      unfold window
      rw [List.filter_eq_self]
      intro a ha
      rw [List.eq_of_mem_replicate ha]
      have hpos : (0 : Int) < minute := by decide
      simp only [sub_self, decide_eq_true_eq]
      exact hpos
    have hsplit : List.replicate (k + 1) (⟨c, t⟩ : Arrival) =
        List.replicate k ⟨c, t⟩ ++ [⟨c, t⟩] := by
      rw [List.replicate_succ']
    have hd : (rateStep (rateRun [] (List.replicate k ⟨c, t⟩)) c t).1 = true := by
      rw [rateStep_decision, ih1, hw]
      simp only [List.length_replicate, decide_eq_true_eq]
      omega
    rw [hsplit, rateRun_append, rateLog_append, admittedTimes_append]
    constructor
    · show entry (rateStep (rateRun [] (List.replicate k ⟨c, t⟩)) c t).2 c = _
      rw [rateStep_entry, ih1, hw, if_pos (by simp only [List.length_replicate]; omega),
        List.replicate_succ']
    · rw [ih2]
      show _ ++ admittedTimes [(⟨c, t⟩,
        (rateStep (rateRun [] (List.replicate k ⟨c, t⟩)) c t).1)] c = _
      rw [hd, admittedTimes_cons, if_pos ⟨rfl, rfl⟩, List.replicate_succ']
      rfl

theorem nonDecreasing_replicate_snoc (c : String) (t t2 : Int) (n : Nat) (h : t ≤ t2) :
    nonDecreasing (List.replicate n ⟨c, t⟩ ++ [⟨c, t2⟩]) := by
  unfold nonDecreasing
  rw [List.map_append, List.pairwise_append]
  refine ⟨?_, by simp, ?_⟩
  · rw [List.map_replicate]
    exact List.pairwise_replicate.mpr (Or.inr (le_refl _)) |>.imp (fun h => h)
  · intro a ha b hb
    rw [List.map_replicate] at ha
    rw [List.eq_of_mem_replicate ha]
    simp only [List.map_cons, List.map_nil, List.mem_singleton] at hb
    rw [hb]
    exact h


theorem rateServe_eq (next : HandlerFunc) (reqs : List (Request × World)) (rq : RateTable) :
    rateServe next rq reqs = rateRun rq (reqs.map arrivalOf) := by
  induction reqs generalizing rq with
  | nil => rfl
  | cons e rest ih =>
    obtain ⟨r, w⟩ := e
    show rateServe next (RateLimit rq next r w).1 rest = _
    rw [ih, RateLimit_table]
    rfl

theorem window_replicate (t t2 : Int) (n : Nat) :
    window t2 (List.replicate n t) = if t2 - t < minute then List.replicate n t else [] := by
  unfold window
  split_ifs with h
  · rw [List.filter_eq_self]
    intro a ha
    rw [List.eq_of_mem_replicate ha]
    simpa using h
  · rw [List.filter_eq_nil_iff]
    intro a ha
    rw [List.eq_of_mem_replicate ha]
    simpa using h

theorem rateRun_other_client (c c2 : String) (t : Int) (n : Nat) (h : c2 ≠ c) :
    entry (rateRun [] (List.replicate n ⟨c, t⟩)) c2 = [] := by
  induction n with
  | zero => rfl
  | succ k ih =>
    rw [List.replicate_succ', rateRun_append]
    show entry (rateStep (rateRun [] (List.replicate k ⟨c, t⟩)) c t).2 c2 = _
    rw [rateStep_entry_other _ c c2 t h, ih]

theorem RateLimit_refused (rq : RateTable) (next : HandlerFunc) (r : Request) (w : World)
    (h : (rateStep rq (getClientIP r) w.now).1 = false) :
    (RateLimit rq next r w).2 = tooManyRequests w := by
  rw [RateLimit_eq]
  simp [h, tooManyRequests]

theorem RateLimit_admitted (rq : RateTable) (next : HandlerFunc) (r : Request) (w : World)
    (h : (rateStep rq (getClientIP r) w.now).1 = true) :
    (RateLimit rq next r w).2 = next r w := by
  rw [RateLimit_eq]
  simp [h]

/-- C22. With request times that do not decrease: (1) a request of client `c`
at time `t` is admitted exactly when fewer than 60 of the requests of `c`
admitted before it have a time `t0` with `t - t0` below one minute. (2) A
refused request gets status 429 and the error body, the wrapped handler plays
no part, and the time is not recorded: the entry of the client is just the
window of the old one. (3) An admitted request runs the wrapped handler and
its time is appended. (4) At most 60 admitted requests of one client lie in
any interval of one minute. (5) A client whose oldest recorded request is a
minute old is admitted. (6) A request of one client leaves the entry of every
other client, and so the decision on its next request, as they were.
(7) The client of a request is the first entry of its `X-Forwarded-For`
header, else its `X-Real-IP` header, else the host of its remote address, the
port cut off; the table after a sequence of requests is the one of their
clients and times. (8) A request of one client leaves the entry and the next
decision of a request with another client as they were; two direct requests
from different hosts are such, two from the same host over different ports
are one client. (9) After 60 requests at time `0` over direct connections
from `10.0.0.1`, a request from `10.0.0.1` over another port at time `1` gets
the 429 answer, a request from `10.0.0.2` at time `1` runs the wrapped
handler, and so does a request from `10.0.0.1` one minute after the 60. -/
theorem rate_limit_window :
    (∀ (pre : List Arrival) (a : Arrival), nonDecreasing (pre ++ [a]) →
      ((rateStep (rateRun [] pre) a.client a.time).1 = true ↔
        (window a.time (admittedTimes (rateLog [] pre) a.client)).length < 60)) ∧
    (∀ (rq : RateTable) (next : HandlerFunc) (r : Request) (w : World),
      (rateStep rq (getClientIP r) w.now).1 = false →
      (RateLimit rq next r w).2 =
        { world := w.emit
            [.writeHeader 429,
              .write "\x7b\"success\": false, \"error\": \"请求过于频繁\"\x7d"],
          panic := none } ∧
      entry (RateLimit rq next r w).1 (getClientIP r) =
        window w.now (entry rq (getClientIP r))) ∧
    (∀ (rq : RateTable) (next : HandlerFunc) (r : Request) (w : World),
      (rateStep rq (getClientIP r) w.now).1 = true →
      (RateLimit rq next r w).2 = next r w ∧
      entry (RateLimit rq next r w).1 (getClientIP r) =
        window w.now (entry rq (getClientIP r)) ++ [w.now]) ∧
    (∀ (history : List Arrival) (c : String) (s : Int), nonDecreasing history →
      ((admittedTimes (rateLog [] history) c).filter
        (fun t => decide (s ≤ t ∧ t < s + minute))).length ≤ 60) ∧
    (∀ (history : List Arrival) (c : String) (t0 t : Int) (rest : List Int),
      entry (rateRun [] history) c = t0 :: rest → t - t0 ≥ minute →
      (rateStep (rateRun [] history) c t).1 = true) ∧
    (∀ (rq : RateTable) (c c2 : String) (t : Int), c2 ≠ c →
      mapGet (rateStep rq c t).2 c2 = mapGet rq c2 ∧
      ∀ t2, (rateStep (rateStep rq c t).2 c2 t2).1 = (rateStep rq c2 t2).1) ∧
    ((∀ r : Request, headerGet r "X-Forwarded-For" ≠ "" →
        getClientIP r = String.mk (auth.trimSpace
          (((headerGet r "X-Forwarded-For").data.splitOn ',').headD []))) ∧
      (∀ r : Request, headerGet r "X-Forwarded-For" = "" → headerGet r "X-Real-Ip" ≠ "" →
        getClientIP r = headerGet r "X-Real-Ip") ∧
      (∀ (r : Request) (host port : String), headerGet r "X-Forwarded-For" = "" →
        headerGet r "X-Real-Ip" = "" → r.RemoteAddr = host ++ ":" ++ port →
        (∀ c ∈ port.data, c ≠ ':') → getClientIP r = host) ∧
      (∀ (next : HandlerFunc) (reqs : List (Request × World)) (rq : RateTable),
        rateServe next rq reqs = rateRun rq (reqs.map arrivalOf))) ∧
    ((∀ (rq : RateTable) (next : HandlerFunc) (r1 r2 : Request) (w : World),
        getClientIP r2 ≠ getClientIP r1 →
        entry (RateLimit rq next r1 w).1 (getClientIP r2) = entry rq (getClientIP r2) ∧
        ∀ t, (rateStep (RateLimit rq next r1 w).1 (getClientIP r2) t).1 =
          (rateStep rq (getClientIP r2) t).1) ∧
      (∀ (host1 port1 host2 port2 : String), (∀ c ∈ port1.data, c ≠ ':') →
        (∀ c ∈ port2.data, c ≠ ':') →
        (host1 ≠ host2 →
          getClientIP (directRequest (host2 ++ ":" ++ port2)) ≠
            getClientIP (directRequest (host1 ++ ":" ++ port1))) ∧
        (host1 = host2 →
          getClientIP (directRequest (host2 ++ ":" ++ port2)) =
            getClientIP (directRequest (host1 ++ ":" ++ port1))))) ∧
    (∀ (next : HandlerFunc) (w : World),
      (w.now = 1 →
        (RateLimit fullTable next (directRequest "10.0.0.1:6001") w).2 = tooManyRequests w ∧
        (RateLimit fullTable next (directRequest "10.0.0.2:5000") w).2 =
          next (directRequest "10.0.0.2:5000") w) ∧
      (w.now = minute →
        (RateLimit fullTable next (directRequest "10.0.0.1:6001") w).2 =
          next (directRequest "10.0.0.1:6001") w)) := by
  refine ⟨?_, ?_, ?_, ?_, ?_, ?_, ?_, ?_, ?_⟩
  · intro pre a hnd
    rw [rate_decision pre a hnd]
    simp
  · intro rq next r w hd
    rw [RateLimit_eq]
    refine ⟨by simp [hd], ?_⟩
    simp only []
    rw [rateStep_entry]
    have h2 := rateStep_decision rq (getClientIP r) w.now
    rw [hd] at h2
    have h3 : ¬ (window w.now (entry rq (getClientIP r))).length < 60 := by
      simpa using h2.symm
    rw [if_neg h3]
  · intro rq next r w hd
    rw [RateLimit_eq]
    refine ⟨by simp [hd], ?_⟩
    simp only []
    rw [rateStep_entry]
    have h2 := rateStep_decision rq (getClientIP r) w.now
    rw [hd] at h2
    have h3 : (window w.now (entry rq (getClientIP r))).length < 60 := by
      simpa using h2.symm
    rw [if_pos h3]
  · intro history c s hnd
    exact admitted_in_interval_le history c s hnd
  · intro history c t0 t rest he ht
    rw [rateStep_decision, he]
    have hlen := rateRun_entry_le history [] (fun c => by simp [entry, mapGet]) c
    rw [he] at hlen
    simp only [List.length_cons] at hlen
    have hw : window t (t0 :: rest) = window t rest := by
      unfold window
      rw [List.filter_cons_of_neg]
      simp only [decide_eq_true_eq, not_lt]
      omega
    rw [hw]
    have := window_length_le t rest
    simp only [decide_eq_true_eq]
    omega
  · intro rq c c2 t hne
    refine ⟨rateStep_other rq c c2 t hne, ?_⟩
    intro t2
    rw [rateStep_decision, rateStep_decision, rateStep_entry_other rq c c2 t hne]
  · refine ⟨fun r h => ?_, fun r h1 h2 => ?_, getClientIP_remote, rateServe_eq⟩
    · unfold getClientIP
      simp only [h, ne_eq, not_false_eq_true, if_true]
    · unfold getClientIP
      simp only [h1, h2, ne_eq, not_true_eq_false, not_false_eq_true, if_true, if_false]
  · refine ⟨fun rq next r1 r2 w hne => ?_, fun host1 port1 host2 port2 hp1 hp2 => ?_⟩
    · rw [RateLimit_table]
      refine ⟨rateStep_entry_other rq _ _ w.now hne, fun t => ?_⟩
      rw [rateStep_decision, rateStep_decision, rateStep_entry_other rq _ _ w.now hne]
    · have h1 := getClientIP_remote (directRequest (host1 ++ ":" ++ port1)) host1 port1
        rfl rfl rfl hp1
      have h2 := getClientIP_remote (directRequest (host2 ++ ":" ++ port2)) host2 port2
        rfl rfl rfl hp2
      rw [h1, h2]
      exact ⟨fun h e => h e.symm, fun h => h.symm⟩
  · intro next w
    have hc1 : getClientIP (directRequest "10.0.0.1:6001") = "10.0.0.1" := by decide
    have hc2 : getClientIP (directRequest "10.0.0.2:5000") = "10.0.0.2" := by decide
    have hc0 : getClientIP (directRequest "10.0.0.1:5000") = "10.0.0.1" := by decide
    have hfull : entry fullTable "10.0.0.1" = List.replicate 60 0 := by
      unfold fullTable
      rw [hc0]
      exact (rateRun_same_time "10.0.0.1" 0 60 (le_refl _)).1
    have hother : entry fullTable "10.0.0.2" = [] := by
      unfold fullTable
      rw [hc0]
      exact rateRun_other_client "10.0.0.1" "10.0.0.2" 0 60 (by decide)
    refine ⟨fun hnow => ⟨?_, ?_⟩, fun hnow => ?_⟩
    · apply RateLimit_refused
      rw [rateStep_decision, hc1, hfull, hnow, window_replicate, if_pos (by decide)]
      simp
    · apply RateLimit_admitted
      rw [rateStep_decision, hc2, hother]
      simp [window]
    · apply RateLimit_admitted
      rw [rateStep_decision, hc1, hfull, hnow, window_replicate, if_neg (by decide)]
      simp

/-- Witness of C22: after 60 requests of `10.0.0.1` at time `0`, its request
at time `1` is refused and its request one minute after the 60 is admitted. -/
theorem rate_limit_window_witness :
    (rateStep (rateRun [] (List.replicate 60 ⟨"10.0.0.1", 0⟩)) "10.0.0.1" 1).1 = false ∧
    (rateStep (rateRun [] (List.replicate 60 ⟨"10.0.0.1", 0⟩)) "10.0.0.1" minute).1 = true :=
  ⟨Bool.eq_false_iff.mpr (fun h =>
      absurd ((rate_limit_window.1 (List.replicate 60 ⟨"10.0.0.1", 0⟩) ⟨"10.0.0.1", 1⟩
        (nonDecreasing_replicate_snoc "10.0.0.1" 0 1 60 (by decide))).mp h)
        (by
          rw [(rateRun_same_time "10.0.0.1" 0 60 (le_refl _)).2, window_replicate,
            if_pos (by decide)]
          simp)),
    (rate_limit_window.1 (List.replicate 60 ⟨"10.0.0.1", 0⟩) ⟨"10.0.0.1", minute⟩
      (nonDecreasing_replicate_snoc "10.0.0.1" 0 minute 60 (by decide))).mpr
      (by
        rw [(rateRun_same_time "10.0.0.1" 0 60 (le_refl _)).2, window_replicate,
          if_neg (by decide)]
        simp)⟩

end middleware

/-! ## The mutex during `Authenticate` -/

namespace auth

theorem Thread_step_consistent (mu mu1 : RWMutex) (t t1 other : Thread)
    (hs : t.step mu = some (mu1, t1))
    (hw : mu.writer = true ↔ (t.holds = .write ∨ other.holds = .write))
    (h1 : t.holds = .write → other.holds = .nothing)
    (h2 : other.holds = .write → t.holds = .nothing)
    (hr : (if t.holds = .read then 1 else 0) + (if other.holds = .read then 1 else 0) ≤
      mu.readers) :
    (mu1.writer = true ↔ (t1.holds = .write ∨ other.holds = .write)) ∧
    (t1.holds = .write → other.holds = .nothing) ∧
    (other.holds = .write → t1.holds = .nothing) ∧
    (if t1.holds = .read then 1 else 0) + (if other.holds = .read then 1 else 0) ≤
      mu1.readers := by
  obtain ⟨w, r⟩ := mu
  obtain ⟨todo, ht⟩ := t
  obtain ⟨otodo, ho⟩ := other
  cases todo with
  | nil => simp [Thread.step] at hs
  | cons a rest =>
    cases a <;> simp only [Thread.step] at hs
    case lock =>
      split_ifs at hs with hen
      simp only [Option.some.injEq, Prod.mk.injEq] at hs
      obtain ⟨rfl, rfl⟩ := hs
      obtain ⟨hwf, hr0⟩ := hen
      simp only at hwf hr0 hw h1 h2 hr ⊢
      subst hwf hr0
      cases ht <;> cases ho <;> simp_all
    case unlock =>
      split_ifs at hs with hen
      simp only [Option.some.injEq, Prod.mk.injEq] at hs
      obtain ⟨rfl, rfl⟩ := hs
      simp only at hen hw h1 h2 hr ⊢
      subst hen
      cases ho <;> simp_all
    case rlock =>
      split_ifs at hs with hen
      simp only [Option.some.injEq, Prod.mk.injEq] at hs
      obtain ⟨rfl, rfl⟩ := hs
      simp only at hen hw h1 h2 hr ⊢
      subst hen
      cases ht <;> cases ho <;> simp_all
      all_goals omega
    case runlock =>
      split_ifs at hs with hen
      simp only [Option.some.injEq, Prod.mk.injEq] at hs
      obtain ⟨rfl, rfl⟩ := hs
      simp only at hen hw h1 h2 hr ⊢
      subst hen
      cases ho <;> simp_all
      all_goals omega
    case external c =>
      simp only [Option.some.injEq, Prod.mk.injEq] at hs
      obtain ⟨rfl, rfl⟩ := hs
      exact ⟨hw, h1, h2, hr⟩
    case state =>
      simp only [Option.some.injEq, Prod.mk.injEq] at hs
      obtain ⟨rfl, rfl⟩ := hs
      exact ⟨hw, h1, h2, hr⟩

theorem System_step_consistent (s s1 : System) (onFirst : Bool) (hc : s.Consistent)
    (hs : s.step onFirst = some s1) : s1.Consistent := by
  obtain ⟨hw, h1, h2, hr⟩ := hc
  unfold System.step at hs
  cases onFirst with
  | true =>
    simp only [if_true] at hs
    cases hst : s.first.step s.mutex with
    | none => rw [hst] at hs; cases hs
    | some res =>
      obtain ⟨mu, t⟩ := res
      rw [hst] at hs
      simp only [Option.some.injEq] at hs
      subst hs
      exact Thread_step_consistent s.mutex mu s.first t s.second hst hw h1 h2 hr
  | false =>
    simp only [Bool.false_eq_true, if_false] at hs
    cases hst : s.second.step s.mutex with
    | none => rw [hst] at hs; cases hs
    | some res =>
      obtain ⟨mu, t⟩ := res
      rw [hst] at hs
      simp only [Option.some.injEq] at hs
      subst hs
      obtain ⟨a, b, c, d⟩ := Thread_step_consistent s.mutex mu s.second t s.first hst
        (by rw [hw]; exact Or.comm) h2 h1 (by omega)
      refine ⟨by rw [a]; exact Or.comm, c, b, ?_⟩
      show (if s.first.holds = .read then 1 else 0) + (if t.holds = .read then 1 else 0) ≤
        mu.readers
      omega


theorem Thread_step_within (write : Bool) (body : List Action)
    (hbody : ∀ a ∈ body, a.isMutex = false) (mu mu1 : RWMutex) (t t1 : Thread)
    (hs : t.step mu = some (mu1, t1)) (hin : t.Within write body) :
    t1.Within write body := by
  rcases hin with rfl | rfl | ⟨rest, hsuf, rfl⟩
  · right; right
    refine ⟨body, List.suffix_refl _, ?_⟩
    cases write <;> simp only [critical, Thread.step, Bool.false_eq_true, if_false, if_true,
      List.cons_append] at hs <;> split_ifs at hs <;>
      simp only [Option.some.injEq, Prod.mk.injEq] at hs <;> exact hs.2.symm
  · simp [Thread.step] at hs
  · cases rest with
    | nil =>
      right; left
      cases write <;> simp only [Thread.step, List.nil_append, Bool.false_eq_true, if_false,
        if_true] at hs <;>
        simp only [Option.some.injEq, Prod.mk.injEq] at hs <;> exact hs.2.symm
    | cons a rest1 =>
      right; right
      have ha : a.isMutex = false := hbody a (hsuf.subset (List.mem_cons_self _ _))
      refine ⟨rest1, (List.suffix_cons a rest1).trans hsuf, ?_⟩
      cases a <;> simp only [Action.isMutex, Bool.true_eq_false] at ha <;>
        simp only [Thread.step, List.cons_append, Option.some.injEq, Prod.mk.injEq] at hs <;>
        exact hs.2.symm

theorem run_invariant (w1 w2 : Bool) (body1 body2 : List Action)
    (hb1 : ∀ a ∈ body1, a.isMutex = false) (hb2 : ∀ a ∈ body2, a.isMutex = false)
    (schedule : List Bool) (s0 s : System) (hc : s0.Consistent)
    (h1 : s0.first.Within w1 body1) (h2 : s0.second.Within w2 body2)
    (hrun : s0.run schedule = some s) :
    s.Consistent ∧ s.first.Within w1 body1 ∧ s.second.Within w2 body2 := by
  induction schedule generalizing s0 with
  | nil =>
    simp only [System.run, Option.some.injEq] at hrun
    subst hrun
    exact ⟨hc, h1, h2⟩
  | cons onFirst rest ih =>
    simp only [System.run] at hrun
    cases hst : s0.step onFirst with
    | none => rw [hst] at hrun; cases hrun
    | some s1 =>
      rw [hst] at hrun
      have hc1 := System_step_consistent s0 s1 onFirst hc hst
      apply ih s1 hc1 _ _ hrun
      · unfold System.step at hst
        cases onFirst with
        | true =>
          simp only [if_true] at hst
          cases hth : s0.first.step s0.mutex with
          | none => rw [hth] at hst; cases hst
          | some res =>
            rw [hth] at hst
            simp only [Option.some.injEq] at hst
            subst hst
            exact Thread_step_within w1 body1 hb1 _ _ _ _ hth h1
        | false =>
          simp only [Bool.false_eq_true, if_false] at hst
          cases hth : s0.second.step s0.mutex with
          | none => rw [hth] at hst; cases hst
          | some res =>
            rw [hth] at hst
            simp only [Option.some.injEq] at hst
            subst hst
            exact h1
      · unfold System.step at hst
        cases onFirst with
        | true =>
          simp only [if_true] at hst
          cases hth : s0.first.step s0.mutex with
          | none => rw [hth] at hst; cases hst
          | some res =>
            rw [hth] at hst
            simp only [Option.some.injEq] at hst
            subst hst
            exact h2
        | false =>
          simp only [Bool.false_eq_true, if_false] at hst
          cases hth : s0.second.step s0.mutex with
          | none => rw [hth] at hst; cases hst
          | some res =>
            rw [hth] at hst
            simp only [Option.some.injEq] at hst
            subst hst
            exact Thread_step_within w2 body2 hb2 _ _ _ _ hth h2

theorem start_consistent (p1 p2 : List Action) : (System.start p1 p2).Consistent := by
  simp [System.start, System.Consistent]

/-- The body of an `Authenticate` call: what lies between taking and releasing
the mutex. -/
theorem AuthenticateSteps_critical (m : Manager) (host : Host) (now : Int)
    (sessionID username password ip : String) :
    ∃ body, (∀ a ∈ body, a.isMutex = false) ∧
      m.AuthenticateSteps host now sessionID username password ip = critical true body := by
  unfold Manager.AuthenticateSteps
  cases hl : m.isLocked now ip with
  | mk locked m1 =>
    cases locked with
    | true =>
      refine ⟨[.state], ?_, rfl⟩
      intro a ha
      simp only [List.mem_singleton] at ha
      subst ha
      rfl
    | false =>
      refine ⟨[.state] ++ (m.Authenticate host now sessionID username password ip).calls.map
        Action.external ++ [.state], ?_, ?_⟩
      · intro a ha
        simp only [List.singleton_append, List.cons_append, List.mem_cons, List.mem_append,
          List.mem_map, List.mem_singleton, List.not_mem_nil, or_false] at ha
        rcases ha with h | (h | ⟨c, _, h⟩) | h
        · subst h; rfl
        · exact h.elim
        · subst h; rfl
        · subst h; rfl
      · simp [critical]


/-- C23, as the code has it. Two goroutines call into one manager: the first
runs `Authenticate`, the second `Authenticate`, `ValidateSession` or `Logout`.
In every state a schedule reaches from the start: (1) when the first is at an
external call (the principal lookup, the `groups` query or the `su` check), it
holds the mutex for writing; (2) while the first holds the mutex, the second
has either not taken a step of its call or has finished it, holds nothing and
cannot take a step: it waits until the first releases the mutex. -/
theorem authenticate_holds_lock (m : Manager) (host : Host) (now : Int)
    (sessionID username password ip : String) (other : List Action)
    (hother : other = ValidateSessionSteps ∨ other = LogoutSteps ∨
      ∃ (m2 : Manager) (host2 : Host) (now2 : Int) (sessionID2 username2 password2 ip2 : String),
        other = m2.AuthenticateSteps host2 now2 sessionID2 username2 password2 ip2)
    (schedule : List Bool) (s : System)
    (hrun : (System.start (m.AuthenticateSteps host now sessionID username password ip)
      other).run schedule = some s) :
    (∀ call rest, s.first.todo = Action.external call :: rest →
      s.first.holds = .write ∧ s.mutex.writer = true) ∧
    (s.first.holds = .write →
      (s.second.todo = other ∨ s.second.todo = []) ∧ s.second.holds = .nothing ∧
      s.step false = none) := by
  obtain ⟨body1, hb1, hp1⟩ := AuthenticateSteps_critical m host now sessionID username
    password ip
  have hothers : ∃ w2 body2, (∀ a ∈ body2, a.isMutex = false) ∧ other = critical w2 body2 := by
    rcases hother with rfl | rfl | ⟨m2, host2, now2, sid2, u2, p2, ip2, rfl⟩
    · exact ⟨false, [.state], by intro a ha; simp at ha; subst ha; rfl, rfl⟩
    · exact ⟨true, [.state], by intro a ha; simp at ha; subst ha; rfl, rfl⟩
    · obtain ⟨body2, hb2, hp2⟩ := AuthenticateSteps_critical m2 host2 now2 sid2 u2 p2 ip2
      exact ⟨true, body2, hb2, hp2⟩
  obtain ⟨w2, body2, hb2, hp2⟩ := hothers
  rw [hp1, hp2] at hrun
  obtain ⟨⟨hw, hx1, _, _⟩, hin1, hin2⟩ := run_invariant true w2 body1 body2 hb1 hb2 schedule _ s
    (start_consistent _ _) (Or.inl rfl) (Or.inl rfl) hrun
  have hheld : s.first.holds = .write → s.mutex.writer = true := fun h => hw.mpr (Or.inl h)
  refine ⟨?_, ?_⟩
  · intro call rest hat
    rcases hin1 with h | h | ⟨r, _, h⟩
    · rw [h] at hat
      simp [critical] at hat
    · rw [h] at hat
      simp at hat
    · have hh : s.first.holds = .write := by rw [h]; rfl
      exact ⟨hh, hheld hh⟩
  · intro hh
    have hsec := hx1 hh
    have hwr := hheld hh
    have htodo : s.second.todo = other ∨ s.second.todo = [] := by
      rcases hin2 with h | h | ⟨r, _, h⟩
      · left; rw [h, hp2]
      · right; rw [h]
      · rw [h] at hsec
        cases w2 <;> simp at hsec
    refine ⟨htodo, hsec, ?_⟩
    unfold System.step
    simp only [Bool.false_eq_true, if_false]
    have hnone : s.second.step s.mutex = none := by
      rcases htodo with h | h
      · unfold Thread.step
        rw [h, hp2]
        cases w2 <;> simp [critical, hwr]
      · unfold Thread.step
        rw [h]
    rw [hnone]

/-- Witness of C23: a login of `root` with the right password beside a
`Logout`. After the first two steps of the login its lookup is due and it
holds the mutex; the `Logout` cannot take its first step. -/
theorem authenticate_holds_lock_witness :
    System.step
      { mutex := { writer := true, readers := 0 },
        first := { todo := [.external (.lookup "root"), .external (.su "root"), .state,
                            .unlock], holds := .write },
        second := { todo := LogoutSteps, holds := .nothing } } false = none :=
  ((authenticate_holds_lock (NewManager scenarioConfig) rootHost 1 "s1" "root" "secret"
    "10.0.0.1" LogoutSteps (Or.inr (Or.inl rfl)) [true, true]
    { mutex := { writer := true, readers := 0 },
      first := { todo := [.external (.lookup "root"), .external (.su "root"), .state,
                          .unlock], holds := .write },
      second := { todo := LogoutSteps, holds := .nothing } } (by decide)).2 rfl).2.2

/-- Counterexample to C23: a login of `root` with a wrong password beside a
`ValidateSession` call. When the `su` check of the login is due, the mutex is
locked for writing by the login, and `ValidateSession`, which has not started,
cannot take its first step. -/
theorem external_check_unlocked_counterexample :
    (System.start
      ((NewManager scenarioConfig).AuthenticateSteps rootHost 1 "s1" "root" "wrong"
        "10.0.0.1") ValidateSessionSteps).run [true, true, true] =
      some { mutex := { writer := true, readers := 0 },
             first := { todo := [.external (.su "root"), .state, .unlock], holds := .write },
             second := { todo := ValidateSessionSteps, holds := .nothing } } ∧
    System.step
      { mutex := { writer := true, readers := 0 },
        first := { todo := [.external (.su "root"), .state, .unlock], holds := .write },
        second := { todo := ValidateSessionSteps, holds := .nothing } } false = none := by
  decide

end auth

/-! ## Independence of the attempt counters -/

namespace auth


theorem login_config (m : Manager) (ip : String) (c : LoginCall) :
    (m.login ip c).manager.config = m.config := by
  unfold Manager.login Manager.Authenticate Manager.isLocked Manager.recordFailedAttempt
  cases hg : mapGet m.attempts ip with
  | none =>
    simp only []
    cases hv : validateSystemUser c.host c.username c.password with
    | mk res calls => cases res <;> rfl
  | some a =>
    simp only []
    cases hv : validateSystemUser c.host c.username c.password with
    | mk res calls =>
      split_ifs <;> cases res <;> rfl

theorem login_other (m : Manager) (ip other : String) (c : LoginCall) (h : other ≠ ip) :
    mapGet (m.login ip c).manager.attempts other = mapGet m.attempts other := by
  unfold Manager.login Manager.Authenticate Manager.isLocked Manager.recordFailedAttempt
  cases hg : mapGet m.attempts ip with
  | none =>
    simp only []
    cases hv : validateSystemUser c.host c.username c.password with
    | mk res calls =>
      cases res <;> simp [mapGet_mapSet_other, mapGet_mapDelete_other, h]
  | some a =>
    simp only []
    cases hv : validateSystemUser c.host c.username c.password with
    | mk res calls =>
      split_ifs <;> cases res <;> simp [mapGet_mapSet_other, mapGet_mapDelete_other, h]

theorem login_counter (m : Manager) (ip : String) (c : LoginCall) :
    mapGet (m.login ip c).manager.attempts ip =
      counterAfter m.config (mapGet m.attempts ip) c := by
  unfold Manager.login Manager.Authenticate Manager.isLocked Manager.recordFailedAttempt
    counterAfter
  cases hg : mapGet m.attempts ip with
  | none =>
    simp only []
    cases hv : validateSystemUser c.host c.username c.password with
    | mk res calls =>
      cases res with
      | error e =>
        simp [mapGet_mapSet_same, mapGet_mapDelete_same, hg]
        split_ifs <;> rfl
      | ok u => simp [mapGet_mapSet_same, mapGet_mapDelete_same, hg]
  | some a =>
    simp only []
    cases hv : validateSystemUser c.host c.username c.password with
    | mk res calls =>
      by_cases h1 : m.config.MaxLoginAttempts ≤ a.Count
      · by_cases h2 : c.now < a.LockedUntil
        · cases res <;> simp [h1, h2, hg]
        · cases res with
          | error e =>
            simp [h1, h2, hg, mapGet_mapSet_same, mapGet_mapDelete_same]
            split_ifs <;> rfl
          | ok u => simp [h1, h2, hg, mapGet_mapSet_same, mapGet_mapDelete_same]
      · cases res with
        | error e =>
          simp [h1, hg, mapGet_mapSet_same, mapGet_mapDelete_same]
          split_ifs <;> rfl
        | ok u => simp [h1, hg, mapGet_mapSet_same, mapGet_mapDelete_same]

theorem loginSeq_config (calls : List (String × LoginCall)) (m : Manager) :
    (m.loginSeq calls).config = m.config := by
  induction calls generalizing m with
  | nil => rfl
  | cons e rest ih =>
    obtain ⟨ip, c⟩ := e
    show ((m.login ip c).manager.loginSeq rest).config = _
    rw [ih, login_config]

theorem loginSeq_filter (Y : String) (calls : List (String × LoginCall)) (m1 m2 : Manager)
    (hcfg : m1.config = m2.config) (hY : mapGet m1.attempts Y = mapGet m2.attempts Y) :
    mapGet (m1.loginSeq calls).attempts Y =
      mapGet (m2.loginSeq (calls.filter (fun e => decide (e.1 = Y)))).attempts Y := by
  induction calls generalizing m1 m2 with
  | nil => exact hY
  | cons e rest ih =>
    obtain ⟨ip, c⟩ := e
    by_cases hip : ip = Y
    · subst hip
      rw [List.filter_cons_of_pos (by simp)]
      show mapGet ((m1.login ip c).manager.loginSeq rest).attempts ip =
        mapGet ((m2.login ip c).manager.loginSeq _).attempts ip
      apply ih
      · rw [login_config, login_config, hcfg]
      · rw [login_counter, login_counter, hcfg, hY]
    · rw [List.filter_cons_of_neg (by simp [hip])]
      show mapGet ((m1.login ip c).manager.loginSeq rest).attempts Y = _
      apply ih
      · rw [login_config, hcfg]
      · rw [login_other m1 ip Y c (fun h => hip h.symm), hY]

theorem loginSeq_eq_loginAll (ip : String) (calls : List LoginCall) (m : Manager) :
    m.loginSeq (calls.map (fun c => (ip, c))) = m.loginAll ip calls := by
  induction calls generalizing m with
  | nil => rfl
  | cons c rest ih =>
    show (m.login ip c).manager.loginSeq _ = (m.login ip c).manager.loginAll ip rest
    exact ih _

/-- C24. Failure counters of different clients are independent: an
`Authenticate` call from one client leaves the record of every other client as
it was, and after any interleaving of calls from several clients the record of
a client is the one its own calls alone, in the same order, would have
produced. -/
theorem counters_independent :
    (∀ (m : Manager) (X Y : String) (c : LoginCall), Y ≠ X →
      mapGet (m.login X c).manager.attempts Y = mapGet m.attempts Y ∧
      (m.login X c).manager.failureCount Y = m.failureCount Y ∧
      ((m.login X c).manager.isLocked c.now Y).1 = (m.isLocked c.now Y).1) ∧
    (∀ (m : Manager) (calls : List (String × LoginCall)) (Y : String),
      mapGet (m.loginSeq calls).attempts Y =
        mapGet (m.loginAll Y ((calls.filter (fun e => decide (e.1 = Y))).map
          (fun e => e.2))).attempts Y) := by
  refine ⟨fun m X Y c h => ?_, fun m calls Y => ?_⟩
  · have ho := login_other m X Y c h
    refine ⟨ho, ?_, ?_⟩
    · unfold Manager.failureCount
      rw [ho]
    · unfold Manager.isLocked
      rw [ho, login_config]
      cases mapGet m.attempts Y with
      | none => rfl
      | some a => simp only []; split_ifs <;> rfl
  · have hmap : ∀ l : List (String × LoginCall), (∀ e ∈ l, e.1 = Y) →
        (l.map (fun e => e.2)).map (fun c => (Y, c)) = l := by
      intro l hl
      induction l with
      | nil => rfl
      | cons e rest ih =>
        simp only [List.map_cons]
        rw [ih (fun e he => hl e (List.mem_cons_of_mem _ he)),
          ← hl e (List.mem_cons_self _ _)]
    rw [loginSeq_filter Y calls m m rfl rfl, ← loginSeq_eq_loginAll,
      hmap _ (fun e he => by simpa using (List.mem_filter.mp he).2)]

/-- Witness of C24: the client `10.0.0.2` has failed twice; a failed login
from `10.0.0.1` leaves its record as it was. -/
theorem counters_independent_witness :
    mapGet ((((NewManager scenarioConfig).loginAll "10.0.0.2"
        [⟨emptyHost, 1, "s1", "eve", "a"⟩, ⟨emptyHost, 2, "s2", "eve", "b"⟩]).login
          "10.0.0.1" ⟨emptyHost, 3, "s3", "eve", "c"⟩).manager.attempts) "10.0.0.2" =
      mapGet ((NewManager scenarioConfig).loginAll "10.0.0.2"
        [⟨emptyHost, 1, "s1", "eve", "a"⟩, ⟨emptyHost, 2, "s2", "eve", "b"⟩]).attempts
        "10.0.0.2" :=
  (counters_independent.1 _ "10.0.0.1" "10.0.0.2" ⟨emptyHost, 3, "s3", "eve", "c"⟩
    (by decide)).1

end auth

/-! ## The invariant of the attempt counters -/

namespace auth

theorem counterAfter_ok (cfg : AuthConfig) (hN : 1 ≤ cfg.MaxLoginAttempts)
    (cur : Option LoginAttempts) (c : LoginCall)
    (hcur : ∀ a, cur = some a → recordOk cfg a) (a1 : LoginAttempts)
    (h : counterAfter cfg cur c = some a1) : recordOk cfg a1 := by
  unfold counterAfter at h
  cases cur with
  | none =>
    unfold recordOk
    simp only [Bool.false_eq_true, if_false] at h
    cases hv : (validateSystemUser c.host c.username c.password).1 with
    | ok u => rw [hv] at h; cases h
    | error e =>
      rw [hv] at h
      simp only [] at h
      split_ifs at h <;> cases h <;> dsimp only <;> refine ⟨?_, ?_, ?_, ?_⟩ <;> intros <;>
        omega
  | some a =>
    have ha := hcur a rfl
    unfold recordOk at ha ⊢
    obtain ⟨ha1, ha2, ha3, ha4⟩ := ha
    simp only [] at h
    cases hv : (validateSystemUser c.host c.username c.password).1 with
    | ok u =>
      rw [hv] at h
      simp only [] at h
      split_ifs at h
      · cases h; exact ⟨ha1, ha2, ha3, ha4⟩
    | error e =>
      rw [hv] at h
      simp only [] at h
      split_ifs at h with hl <;> cases h
      · exact ⟨ha1, ha2, ha3, ha4⟩
      all_goals
        simp only [decide_eq_true_eq, ge_iff_le] at *
        refine ⟨?_, ?_, ?_, ?_⟩ <;> intros <;> first | trivial | omega

theorem reachable_config (cfg : AuthConfig) (m : Manager) (hr : Reachable cfg m) :
    m.config = cfg := by
  induction hr with
  | init => rfl
  | step m ip c _ ih => rw [login_config, ih]

theorem reachable_recordOk (cfg : AuthConfig) (hN : 1 ≤ cfg.MaxLoginAttempts) (m : Manager)
    (hr : Reachable cfg m) (ip : String) (a : LoginAttempts)
    (h : mapGet m.attempts ip = some a) : recordOk cfg a := by
  induction hr generalizing ip a with
  | init => cases h
  | step m ip1 c hm ih =>
    by_cases hip : ip = ip1
    · subst hip
      rw [login_counter, reachable_config cfg m hm] at h
      exact counterAfter_ok cfg hN _ c (fun a0 h0 => ih ip a0 h0) a h
    · rw [login_other m ip1 ip c hip] at h
      exact ih ip a h

/-- C30. Lockout counter invariant. With a threshold of at least one, in
every state of the manager reachable from a new manager through
`Authenticate` calls, each stored attempt record has a count between `1` and
`MaxLoginAttempts`; at the threshold its lock time is the last try plus the
lockout duration; below the threshold no lock time is set, and the client is
not treated as locked at any clock reading. -/
theorem lockout_counter_invariant (cfg : AuthConfig) (hN : 1 ≤ cfg.MaxLoginAttempts)
    (m : Manager) (hr : Reachable cfg m) :
    m.config = cfg ∧ m.countersOk ∧
    (∀ ip a, mapGet m.attempts ip = some a → a.Count < cfg.MaxLoginAttempts →
      a.LockedUntil = 0 ∧
      ∀ now, (m.isLocked now ip).1 = false ∧ (m.isLocked now ip).2 = m) := by
  have hcfg := reachable_config cfg m hr
  refine ⟨hcfg, ?_, ?_⟩
  · intro ip a h
    rw [hcfg]
    exact reachable_recordOk cfg hN m hr ip a h
  · intro ip a h hlt
    refine ⟨(reachable_recordOk cfg hN m hr ip a h).2.2.2 hlt, fun now => ?_⟩
    unfold Manager.isLocked
    rw [h, hcfg]
    simp only []
    rw [if_neg (by omega)]
    exact ⟨rfl, rfl⟩

/-- Witness of C30: threshold 3; the state after one failed login keeps the
invariant. -/
theorem lockout_counter_invariant_witness :
    ((NewManager scenarioConfig).login "10.0.0.1"
      ⟨emptyHost, 1, "s1", "eve", "a"⟩).manager.countersOk :=
  (lockout_counter_invariant scenarioConfig (by decide) _
    (Reachable.step _ "10.0.0.1" ⟨emptyHost, 1, "s1", "eve", "a"⟩ Reachable.init)).2.1

end auth

/-! ## The checks of `validateSystemUser` and the client identity of a login -/

namespace auth

theorem checkAdminPrivileges_fst (host : Host) (username : String) :
    (checkAdminPrivileges host username).1 =
      (decide (username = "root") || inAdminGroup host username) := by
  unfold checkAdminPrivileges inAdminGroup reportedGroups
  by_cases hr : username = "root"
  · simp [hr]
  · rw [if_neg hr]
    cases hg : host.groups username with
    | none => simp [hr]
    | some output =>
      simp only [hr, decide_False, Bool.false_or]
      rcases hs : (trimSpace output.data).splitOn ':' with _ | ⟨p0, _ | ⟨p1, rest⟩⟩
      · simp
      · simp
      · simp only []
        split_ifs with h
        · exact h.symm
        · simpa using h

theorem checkAdminPrivileges_calls (host : Host) (username : String) :
    ExternalCall.su username ∉ (checkAdminPrivileges host username).2.2 := by
  unfold checkAdminPrivileges
  split_ifs
  · simp
  · cases host.groups username with
    | none => simp
    | some output =>
      simp only []
      split
      · split_ifs <;> simp
      · simp

/-- C25, as the code has it. `validateSystemUser` accepts a login exactly
when the name resolves to a principal, its numeric id is at least 1000 or is
0, the name is `root` or the `groups` command reports one of `sudo`, `wheel`,
`admin` for it, and the password check succeeds. The checks are made in this
order, the first one that fails gives the error, and the password check is
made exactly when the three before it pass. -/
theorem validate_checks_in_order (host : Host) (username password : String) :
    ((∃ user, (validateSystemUser host username password).1 = .ok user) ↔
      ∃ u, host.lookup username = some u ∧ (atoi u.Uid ≥ 1000 ∨ atoi u.Uid = 0) ∧
        (username = "root" ∨ inAdminGroup host username = true) ∧
        host.su username password = true) ∧
    (host.lookup username = none →
      (validateSystemUser host username password).1 = .error "用户不存在") ∧
    (∀ u, host.lookup username = some u → atoi u.Uid < 1000 → atoi u.Uid ≠ 0 →
      (validateSystemUser host username password).1 = .error "不允许系统用户登录") ∧
    (∀ u, host.lookup username = some u → (atoi u.Uid ≥ 1000 ∨ atoi u.Uid = 0) →
      username ≠ "root" → inAdminGroup host username = false →
      (validateSystemUser host username password).1 = .error "用户没有管理员权限") ∧
    (∀ u, host.lookup username = some u → (atoi u.Uid ≥ 1000 ∨ atoi u.Uid = 0) →
      (username = "root" ∨ inAdminGroup host username = true) →
      host.su username password = false →
      (validateSystemUser host username password).1 = .error "密码错误") ∧
    (ExternalCall.su username ∈ (validateSystemUser host username password).2 ↔
      ∃ u, host.lookup username = some u ∧ (atoi u.Uid ≥ 1000 ∨ atoi u.Uid = 0) ∧
        (username = "root" ∨ inAdminGroup host username = true)) := by
  have hadm : (checkAdminPrivileges host username).1 = true ↔
      (username = "root" ∨ inAdminGroup host username = true) := by
    rw [checkAdminPrivileges_fst]
    simp
  have hcalls := checkAdminPrivileges_calls host username
  unfold validateSystemUser validatePassword
  cases hl : host.lookup username with
  | none => simp
  | some u =>
    simp only []
    by_cases huid : atoi u.Uid < 1000 ∧ atoi u.Uid ≠ 0
    · rw [if_pos huid]
      have h1 : ¬ (atoi u.Uid ≥ 1000 ∨ atoi u.Uid = 0) := by omega
      simp [h1]
    · rw [if_neg huid]
      have h1 : atoi u.Uid ≥ 1000 ∨ atoi u.Uid = 0 := by omega
      by_cases ha : (checkAdminPrivileges host username).1 = true
      · have ha2 := hadm.mp ha
        rw [if_neg (by simp [ha])]
        by_cases hp : host.su username password = true
        · rw [if_neg (by simp [hp])]
          simp [h1, ha2, hp]
          exact ⟨fun _ => by omega, fun hne => ha2.resolve_left hne⟩
        · rw [if_pos (by simp [hp])]
          simp [h1, ha2, hp]
          exact ⟨fun _ => by omega, fun hne => ha2.resolve_left hne⟩
      · have ha2 : ¬ (username = "root" ∨ inAdminGroup host username = true) :=
          fun h => ha (hadm.mpr h)
        rw [if_pos (by simp [ha])]
        simp [h1, ha2, hcalls]
        intro hlt
        omega

/-- Witness of C25: `root` with a wrong password on a host that knows only
`root`; the password check is the one that fails. -/
theorem validate_checks_in_order_witness :
    (validateSystemUser rootHost "root" "wrong").1 = .error "密码错误" :=
  (validate_checks_in_order rootHost "root" "wrong").2.2.2.2.1 _ rfl (Or.inr (by decide))
    (Or.inl rfl) rfl

/-- Counterexample to C25: on a host where `root` is in the group `root`
only, in none of `sudo`, `wheel`, `admin`, the login of `root` is accepted,
and the `groups` command is not asked. -/
theorem admin_group_required_counterexample :
    inAdminGroup plainRootHost "root" = false ∧
    validateSystemUser plainRootHost "root" "secret" =
      (.ok { Username := "root", UID := "0", GID := "0", Home := "/root", Shell := "root",
             Groups := ["root"], IsAdmin := true },
        [ExternalCall.lookup "root", ExternalCall.su "root"]) :=
  ⟨by decide, rfl⟩

end auth

namespace handlers

theorem clientIP_cases :
    (∀ r : router.Request, middleware.headerGet r "X-Forwarded-For" ≠ "" →
      clientIP r = middleware.headerGet r "X-Forwarded-For") ∧
    (∀ r : router.Request, middleware.headerGet r "X-Forwarded-For" = "" →
      clientIP r = r.RemoteAddr) ∧
    (∀ (m : auth.Manager) (r1 r2 : router.Request) (c : auth.LoginCall),
      clientIP r1 = clientIP r2 → authenticate m r1 c = authenticate m r2 c) := by
  refine ⟨fun r h => ?_, fun r h => ?_, fun m r1 r2 c h => ?_⟩
  · unfold clientIP
    simp only []
    rw [if_pos h]
  · unfold clientIP
    simp only []
    rw [if_neg (by simp [h])]
  · unfold authenticate
    rw [h]

/-- C26 fails on the code. Two logins without an `X-Forwarded-For` header
from the address `10.0.0.1`, one from port 5000 and one from port 5001: the
handlers pass `r.RemoteAddr` with its port to `Authenticate`, so the two have
different identities (`getClientIP` of the middleware gives `10.0.0.1` for
both). After three failures over the first connection, threshold three, a
login over it is locked out even with the right password, while a failed login
over the second connection still reaches the password check and leaves a count
of one under an identity of its own. -/
theorem login_counter_split_by_port :
    middleware.headerGet directLogin "X-Forwarded-For" = "" ∧
    middleware.headerGet otherPortLogin "X-Forwarded-For" = "" ∧
    clientIP directLogin = "10.0.0.1:5000" ∧
    clientIP otherPortLogin = "10.0.0.1:5001" ∧
    middleware.getClientIP directLogin = "10.0.0.1" ∧
    middleware.getClientIP otherPortLogin = "10.0.0.1" ∧
    (authenticate lockedOnFirstPort directLogin
      ⟨auth.rootHost, 4, "s4", "root", "secret"⟩).result = .error auth.lockedMessage ∧
    (authenticate lockedOnFirstPort otherPortLogin
      ⟨auth.rootHost, 4, "s4", "root", "wrong"⟩).result = .error "密码错误" ∧
    (authenticate lockedOnFirstPort otherPortLogin
      ⟨auth.rootHost, 4, "s4", "root", "wrong"⟩).manager.failureCount "10.0.0.1:5001" = 1 ∧
    (authenticate lockedOnFirstPort otherPortLogin
      ⟨auth.rootHost, 4, "s4", "root", "wrong"⟩).manager.failureCount "10.0.0.1:5000" = 3 := by
  refine ⟨by decide, by decide, by decide, by decide, by decide, by decide, by rfl, by rfl,
    by decide, by decide⟩

end handlers

/-! ## Empty segments and reused parameter nodes -/

namespace router
variable {H : Type}

theorem addSegments_filter (segs : List String) (n : node H) (h : Option H) :
    addSegments n (segs.filter (fun seg => seg ≠ "")) h = addSegments n segs h := by
  induction segs generalizing n with
  | nil => rfl
  | cons s rest ih =>
    by_cases hs : s = ""
    · subst hs
      rw [List.filter_cons_of_neg (by simp), addSegments_skip, ih]
    · rw [List.filter_cons_of_pos (by simp [hs])]
      by_cases hc : startsWithColon s = true
      · rw [addSegments_param _ _ _ _ hs hc, addSegments_param _ _ _ _ hs hc, ih]
      · have hc2 : startsWithColon s = false := by simpa using hc
        by_cases hw : s = "*"
        · rw [addSegments_wildcard _ _ _ _ hs hc2 hw, addSegments_wildcard _ _ _ _ hs hc2 hw,
            ih]
        · rw [addSegments_static _ _ _ _ hs hc2 hw, addSegments_static _ _ _ _ hs hc2 hw, ih]

theorem addSegments_pathSegments (n : node H) (p : String) (h : Option H) :
    addSegments n (pathSegments p) h = addSegments n ((stringsSplit p).drop 1) h :=
  addSegments_filter _ n h

theorem addSegments_path (segs : List String) (n : node H) (h : Option H) :
    (addSegments n segs h).path = n.path := by
  cases n with
  | mk p hd c pa w ip iw =>
    induction segs with
    | nil => rfl
    | cons s rest ih =>
      by_cases hs : s = ""
      · subst hs
        rw [addSegments_skip, ih]
      · by_cases hc : startsWithColon s = true
        · rw [addSegments_param _ _ _ _ hs hc]; rfl
        · have hc2 : startsWithColon s = false := by simpa using hc
          by_cases hw : s = "*"
          · rw [addSegments_wildcard _ _ _ _ hs hc2 hw]; rfl
          · rw [addSegments_static _ _ _ _ hs hc2 hw]; rfl

theorem Handle_ok_of_slash (r : Router H) (m p : String) (h : Option H)
    (hp : startsWithSlash p = true) :
    r.Handle m p h = .ok (Router.mk (mapSet r.trees m
      (addSegments (match mapGet r.trees m with
        | some root => root
        | none => node.empty) (pathSegments p) h)) r.middleware r.NotFound) := by
  unfold Router.Handle
  unfold startsWithSlash at hp
  cases hd : p.data with
  | nil => rw [hd] at hp; cases hp
  | cons c rest =>
    rw [hd] at hp
    have hc : c = '/' := by
      by_contra hne
      simp [hne] at hp
    subst hc
    simp only [ne_eq, not_true_eq_false, if_false]
    cases hg : mapGet r.trees m <;>
      simp only [addRoute_eq_addSegments, addSegments_pathSegments]

theorem splitOn_all_slash (cs : List Char) (h : ∀ c ∈ cs, c = '/') :
    ∀ x ∈ cs.splitOn '/', x = [] := by
  induction cs with
  | nil => decide
  | cons c rest ih =>
    have hc : c = '/' := h c (List.mem_cons_self _ _)
    subst hc
    have : ('/' :: rest).splitOn '/' = [] :: rest.splitOn '/' := by
      simp [List.splitOn, List.splitOnP_cons]
    rw [this]
    intro x hx
    rcases List.mem_cons.mp hx with hx | hx
    · exact hx
    · exact ih (fun c hc => h c (List.mem_cons_of_mem _ hc)) x hx

theorem pathSegments_all_slash (p : String) (h : ∀ c ∈ p.data, c = '/') :
    pathSegments p = [] := by
  unfold pathSegments stringsSplit
  rw [List.filter_eq_nil_iff]
  intro s hs
  have hs2 := List.mem_of_mem_drop hs
  obtain ⟨x, hx, rfl⟩ := List.mem_map.mp hs2
  rw [splitOn_all_slash p.data h x hx]
  decide

theorem findRoute_pathSegments (r : Router H) (m p : String) :
    r.findRoute m p =
      match mapGet r.trees m with
      | none => (none, [])
      | some root => searchRoute root (pathSegments p) [] := by
  unfold Router.findRoute pathSegments
  cases mapGet r.trees m with
  | none => rfl
  | some root => simp only [searchRoute_filter]

/-- C28. Empty segments are ignored in matching and in registration:
(1) two paths with the same non-empty segments give the same `findRoute`
result, as `/users`, `/users/` and `//users//` do; (2) two patterns with the
same non-empty segments make `Handle` produce the same router; (3) a path made
of slashes only has no segment and resolves to the handler of the root node of
the tree of the method, which is where `Handle` stores the handler of the
pattern `/`. -/
theorem empty_segments_ignored :
    (∀ (r : Router H) (m p1 p2 : String), pathSegments p1 = pathSegments p2 →
      r.findRoute m p1 = r.findRoute m p2) ∧
    (pathSegments "/users" = ["users"] ∧ pathSegments "/users/" = ["users"] ∧
      pathSegments "//users//" = ["users"]) ∧
    (∀ (r : Router H) (m p1 p2 : String) (h : Option H), startsWithSlash p1 = true →
      startsWithSlash p2 = true → pathSegments p1 = pathSegments p2 →
      r.Handle m p1 h = r.Handle m p2 h) ∧
    (∀ p : String, (∀ c ∈ p.data, c = '/') → pathSegments p = []) ∧
    (∀ (r : Router H) (m p : String) (root : node H), mapGet r.trees m = some root →
      pathSegments p = [] → r.findRoute m p = (root.handler, [])) ∧
    (∀ (r r1 : Router H) (m : String) (h : Option H), r.Handle m "/" h = .ok r1 →
      ∃ root, mapGet r1.trees m = some root ∧ root.handler = h ∧
        ∀ p : String, (∀ c ∈ p.data, c = '/') → r1.findRoute m p = (h, [])) := by
  refine ⟨?_, ⟨by decide, by decide, by decide⟩, ?_, pathSegments_all_slash, ?_, ?_⟩
  · intro r m p1 p2 h
    rw [findRoute_pathSegments, findRoute_pathSegments, h]
  · intro r m p1 p2 h h1 h2 hseg
    rw [Handle_ok_of_slash r m p1 h h1, Handle_ok_of_slash r m p2 h h2, hseg]
  · intro r m p root hroot hp
    rw [findRoute_pathSegments, hroot, hp]
    exact searchRoute_nil _ _
  · intro r r1 m h hok
    rw [Handle_ok_of_slash r m "/" h (by decide)] at hok
    cases hok
    have hroot : ∀ n : node H, (addSegments n (pathSegments "/") h).handler = h := by
      intro n
      have : pathSegments "/" = [] := by decide
      rw [this]
      cases n
      rfl
    refine ⟨_, mapGet_mapSet_same _ _ _, hroot _, ?_⟩
    intro p hp
    rw [findRoute_pathSegments]
    simp only [mapGet_mapSet_same]
    rw [pathSegments_all_slash p hp, searchRoute_nil, hroot]

/-- Witness of C28: `/users/` and `//users//` resolve alike on the router
with the route `/users`. -/
theorem empty_segments_ignored_witness :
    usersRouter.findRoute "GET" "/users/" = usersRouter.findRoute "GET" "//users//" :=
  empty_segments_ignored.1 usersRouter "GET" "/users/" "//users//" (by decide)


/-- C27. A parameter segment registered where the node already has a
parameter child raises no error and descends into the existing child, which
keeps the name registered first. After `/users/:id` and `/users/:name/posts`,
`/users/5/posts` gives the second handler with `id = 5` and nothing under
`name`; after `/users/:id` and `/users/:name`, `/users/5` gives the second
handler, still with `id = 5`. -/
theorem param_node_reused :
    (∀ (n pn : node H) (seg : String) (rest : List String) (h : Option H),
      n.param = some pn → seg ≠ "" → startsWithColon seg = true →
      (addSegments n (seg :: rest) h).param = some (addSegments pn rest h) ∧
      (addSegments pn rest h).path = pn.path) ∧
    (∀ (r : Router H) (m p : String) (h : Option H), startsWithSlash p = true →
      ∃ r1, r.Handle m p h = .ok r1) ∧
    (∀ (nf h1 h2 : H), ∃ r,
      (New nf).registerAll [⟨"GET", "/users/:id", some h1⟩,
        ⟨"GET", "/users/:name/posts", some h2⟩] = .ok r ∧
      r.findRoute "GET" "/users/5/posts" = (some h2, [("id", "5")]) ∧
      mapGet (r.findRoute "GET" "/users/5/posts").2 "name" = none ∧
      r.findRoute "GET" "/users/5" = (some h1, [("id", "5")])) ∧
    (∀ (nf h1 h2 : H), ∃ r,
      (New nf).registerAll [⟨"GET", "/users/:id", some h1⟩,
        ⟨"GET", "/users/:name", some h2⟩] = .ok r ∧
      r.findRoute "GET" "/users/5" = (some h2, [("id", "5")])) := by
  refine ⟨?_, ?_, ?_, ?_⟩
  · intro n pn seg rest h hpn hs hc
    refine ⟨?_, addSegments_path rest pn h⟩
    rw [addSegments_param _ _ _ _ hs hc, hpn]
    cases n
    rfl
  · intro r m p h hp
    exact ⟨_, Handle_ok_of_slash r m p h hp⟩
  · intro nf h1 h2
    refine ⟨_, rfl, ?_⟩
    simp [New, Router.registerAll, Router.Handle, addRoute, addSegments, mapGet, mapSet,
      stringsSplit, startsWithColon, dropFirst, node.empty, node.setChild, node.setParam,
      node.setWildcard, node.setHandler, node.children, node.param, node.wildcard,
      Router.findRoute, searchRoute_unfold, searchStep, node.handler, node.path,
      List.splitOn, List.splitOnP, List.splitOnP.go]
  · intro nf h1 h2
    refine ⟨_, rfl, ?_⟩
    simp [New, Router.registerAll, Router.Handle, addRoute, addSegments, mapGet, mapSet,
      stringsSplit, startsWithColon, dropFirst, node.empty, node.setChild, node.setParam,
      node.setWildcard, node.setHandler, node.children, node.param, node.wildcard,
      Router.findRoute, searchRoute_unfold, searchStep, node.handler, node.path,
      List.splitOn, List.splitOnP, List.splitOnP.go]

/-- Witness of C27: the parameter child `id` is kept when `:name` is
registered at the same node. -/
theorem param_node_reused_witness :
    (addSegments
      (node.mk "users" (none : Option Nat) []
        (some (node.mk "id" (some 1) [] none none true false)) none false false)
      [":name"] (some 2)).param =
      some (addSegments (node.mk "id" (some 1) [] none none true false) [] (some 2)) :=
  (param_node_reused.1
    (node.mk "users" (none : Option Nat) []
      (some (node.mk "id" (some 1) [] none none true false)) none false false)
    (node.mk "id" (some 1) [] none none true false) ":name" [] (some 2)
    rfl (by decide) (by decide)).1

end router

/-! ## Dispatch and pattern matching -/

namespace router
variable {H : Type}

theorem searchRoute_cons (n : node H) (x : String) (xs : List String) (params : Params)
    (hx : x ≠ "") (hxs : ∀ s ∈ xs, s ≠ "") :
    searchRoute n (x :: xs) params = searchStep n x xs params := by
  rw [searchRoute_unfold, filter_nonEmpty_of_all (x :: xs)]
  intro s hs
  rcases List.mem_cons.mp hs with h | h
  · rw [h]; exact hx
  · exact hxs s h

theorem handlerAt_fresh (p : String) (ip iw : Bool) (shape : List Seg) :
    handlerAt (node.mk p (none : Option H) [] none none ip iw) shape = none := by
  cases shape with
  | nil => rfl
  | cons k rest => cases k <;> rfl

theorem segKind_static (s : String) (hc : startsWithColon s = false) (hw : s ≠ "*") :
    segKind s = Seg.static s := by
  unfold segKind
  rw [if_neg (by simp [hc]), if_neg hw]

theorem segKind_param (s : String) (hc : startsWithColon s = true) : segKind s = Seg.param := by
  unfold segKind
  rw [if_pos hc]

theorem segKind_wild (s : String) (hc : startsWithColon s = false) (hw : s = "*") :
    segKind s = Seg.wild := by
  unfold segKind
  rw [if_neg (by simp [hc]), if_pos hw]

theorem handlerAt_addSegments (segs : List String) (n : node H) (h : Option H)
    (shape : List Seg) :
    handlerAt (addSegments n segs h) shape =
      if (segs.filter (fun seg => seg ≠ "")).map segKind = shape then h
      else handlerAt n shape := by
  induction segs generalizing n shape with
  | nil =>
    cases n
    cases shape with
    | nil => rfl
    | cons k rest =>
      rw [if_neg (by simp)]
      cases k <;> rfl
  | cons s rest ih =>
    by_cases hs : s = ""
    · subst hs
      rw [addSegments_skip, List.filter_cons_of_neg (by simp), ih]
    · rw [List.filter_cons_of_pos (by simp [hs]), List.map_cons]
      by_cases hc : startsWithColon s = true
      · rw [addSegments_param _ _ _ _ hs hc, segKind_param s hc]
        cases n with
        | mk p hd c pa w ip iw =>
          cases shape with
          | nil => rw [if_neg (by simp)]; rfl
          | cons k shape1 =>
            cases k with
            | static name => rw [if_neg (by simp)]; rfl
            | wild => rw [if_neg (by simp)]; rfl
            | param =>
              show handlerAt (addSegments _ rest h) shape1 = _
              rw [ih]
              simp only [List.cons.injEq, true_and]
              cases pa with
              | none => simp only [node.param, handlerAt, handlerAt_fresh]
              | some pn => simp only [node.param, handlerAt]
      · have hc2 : startsWithColon s = false := by simpa using hc
        by_cases hw : s = "*"
        · rw [addSegments_wildcard _ _ _ _ hs hc2 hw, segKind_wild s hc2 hw]
          cases n with
          | mk p hd c pa w ip iw =>
            cases shape with
            | nil => rw [if_neg (by simp)]; rfl
            | cons k shape1 =>
              cases k with
              | static name => rw [if_neg (by simp)]; rfl
              | param => rw [if_neg (by simp)]; rfl
              | wild =>
                show handlerAt (addSegments _ rest h) shape1 = _
                rw [ih]
                simp only [List.cons.injEq, true_and]
                cases w with
                | none => simp only [node.wildcard, handlerAt, handlerAt_fresh]
                | some wn => simp only [node.wildcard, handlerAt]
        · rw [addSegments_static _ _ _ _ hs hc2 hw, segKind_static s hc2 hw]
          cases n with
          | mk p hd c pa w ip iw =>
            cases shape with
            | nil => rw [if_neg (by simp)]; rfl
            | cons k shape1 =>
              cases k with
              | param => rw [if_neg (by simp)]; rfl
              | wild => rw [if_neg (by simp)]; rfl
              | static name =>
                by_cases hn : s = name
                · subst hn
                  show (match mapGet (mapSet c s _) s with
                    | some c => handlerAt c shape1
                    | none => none) = _
                  rw [mapGet_mapSet_same]
                  simp only []
                  rw [ih]
                  simp only [List.cons.injEq, true_and]
                  cases hg : mapGet c s with
                  | none => simp only [node.children, hg, handlerAt, handlerAt_fresh]
                  | some cn => simp only [node.children, hg, handlerAt]
                · rw [if_neg (by simp [hn])]
                  show (match mapGet (mapSet c s _) name with
                    | some c => handlerAt c shape1
                    | none => none) = _
                  rw [mapGet_mapSet_other _ _ _ _ (fun h => hn h.symm)]
                  rfl


theorem searchStep_cases (n : node H) (x : String) (xs : List String) (params : Params) :
    (∃ c h p, mapGet n.children x = some c ∧ searchRoute c xs params = (some h, p) ∧
      searchStep n x xs params = (some h, p)) ∨
    (∃ pn h p, n.param = some pn ∧
      searchRoute pn xs (mapSet params pn.path x) = (some h, p) ∧
      searchStep n x xs params = (some h, p)) ∨
    (staticFails n x xs params ∧ paramFails n x xs params ∧
      searchStep n x xs params =
        match n.wildcard with
        | some w => (w.handler, params)
        | none => (none, [])) := by
  by_cases hs : staticFails n x xs params
  · by_cases hp : paramFails n x xs params
    · exact Or.inr (Or.inr ⟨hs, hp, searchStep_param_fails n x xs params hs hp⟩)
    · unfold paramFails at hp
      push_neg at hp
      obtain ⟨pn, hpn, hne⟩ := hp
      cases hr : searchRoute pn xs (mapSet params pn.path x) with
      | mk o p =>
        rw [hr] at hne
        cases o with
        | none => exact absurd rfl hne
        | some h =>
          refine Or.inr (Or.inl ⟨pn, h, p, hpn, hr, ?_⟩)
          rw [searchStep_static_fails n x xs params hs, hpn]
          simp only [hr]
  · unfold staticFails at hs
    push_neg at hs
    obtain ⟨c, hc, hne⟩ := hs
    cases hr : searchRoute c xs params with
    | mk o p =>
      rw [hr] at hne
      cases o with
      | none => exact absurd rfl hne
      | some h => exact Or.inl ⟨c, h, p, hc, hr, searchStep_static n x xs params c h p hc hr⟩

theorem searchRoute_sound (xs : List String) (hxs : ∀ s ∈ xs, s ≠ "") (n : node H)
    (params : Params) (h : H) (p : Params) (hr : searchRoute n xs params = (some h, p)) :
    ∃ shape, shapeMatches shape xs = true ∧ handlerAt n shape = some h ∧
      p = bindAlong n shape xs params := by
  induction xs generalizing n params with
  | nil =>
    rw [searchRoute_nil] at hr
    simp only [Prod.mk.injEq] at hr
    exact ⟨[], rfl, hr.1, hr.2.symm⟩
  | cons x xs ih =>
    have hx := hxs x (List.mem_cons_self _ _)
    have hxs1 : ∀ s ∈ xs, s ≠ "" := fun s hs => hxs s (List.mem_cons_of_mem _ hs)
    rw [searchRoute_cons n x xs params hx hxs1] at hr
    rcases searchStep_cases n x xs params with ⟨c, h1, p1, hc, hc1, hst⟩ |
      ⟨pn, h1, p1, hpn, hp1, hst⟩ | ⟨_, _, hst⟩
    · rw [hst] at hr
      cases hr
      obtain ⟨shape, hm, hh, hb⟩ := ih hxs1 c params hc1
      refine ⟨Seg.static x :: shape, ?_, ?_, ?_⟩
      · simp [shapeMatches, hm]
      · simp only [handlerAt, hc, hh]
      · simp only [bindAlong, hc, hb]
    · rw [hst] at hr
      cases hr
      obtain ⟨shape, hm, hh, hb⟩ := ih hxs1 pn _ hp1
      refine ⟨Seg.param :: shape, ?_, ?_, ?_⟩
      · simp [shapeMatches, hm]
      · simp only [handlerAt, hpn, hh]
      · simp only [bindAlong, hpn, hb]
    · rw [hst] at hr
      cases hw : n.wildcard with
      | none => rw [hw] at hr; cases hr
      | some w =>
        rw [hw] at hr
        simp only [Prod.mk.injEq] at hr
        refine ⟨[Seg.wild], rfl, ?_, ?_⟩
        · simp only [handlerAt, hw, hr.1]
        · simp only [bindAlong, hr.2]

theorem searchRoute_complete (xs : List String) (hxs : ∀ s ∈ xs, s ≠ "") (n : node H)
    (params : Params) (shape : List Seg) (h : H) (hm : shapeMatches shape xs = true)
    (hh : handlerAt n shape = some h) : (searchRoute n xs params).1 ≠ none := by
  induction xs generalizing n params shape with
  | nil =>
    cases shape with
    | nil =>
      rw [searchRoute_nil]
      show n.handler ≠ none
      have : n.handler = some h := hh
      rw [this]
      simp
    | cons k rest => cases k <;> simp [shapeMatches] at hm
  | cons x xs ih =>
    have hx := hxs x (List.mem_cons_self _ _)
    have hxs1 : ∀ s ∈ xs, s ≠ "" := fun s hs => hxs s (List.mem_cons_of_mem _ hs)
    rw [searchRoute_cons n x xs params hx hxs1]
    rcases searchStep_cases n x xs params with ⟨c, h1, p1, hc, hc1, hst⟩ |
      ⟨pn, h1, p1, hpn, hp1, hst⟩ | ⟨hsf, hpf, hst⟩
    · rw [hst]; simp
    · rw [hst]; simp
    · rw [hst]
      cases shape with
      | nil => simp [shapeMatches] at hm
      | cons k shape1 =>
        cases k with
        | static name =>
          simp only [shapeMatches, Bool.and_eq_true, decide_eq_true_eq] at hm
          obtain ⟨hname, hm1⟩ := hm
          subst hname
          simp only [handlerAt] at hh
          cases hc : mapGet n.children name with
          | none => rw [hc] at hh; cases hh
          | some c =>
            rw [hc] at hh
            exact absurd (hsf c hc) (ih hxs1 c params shape1 hm1 hh)
        | param =>
          simp only [shapeMatches] at hm
          simp only [handlerAt] at hh
          cases hc : n.param with
          | none => rw [hc] at hh; cases hh
          | some pn =>
            rw [hc] at hh
            exact absurd (hpf pn hc) (ih hxs1 pn _ shape1 hm hh)
        | wild =>
          cases shape1 with
          | cons k2 rest2 => simp [shapeMatches] at hm
          | nil =>
            simp only [handlerAt] at hh
            cases hw : n.wildcard with
            | none => rw [hw] at hh; cases hh
            | some w =>
              rw [hw] at hh
              simp only [] at hh
              simp only [hh]
              simp

theorem handlerAt_Handle {r r1 : Router H} {m p : String} {h : Option H}
    (hok : r.Handle m p h = .ok r1) (m2 : String) (shape : List Seg) :
    r1.handlerAt m2 shape =
      if m = m2 ∧ shapeOf p = shape then h else r.handlerAt m2 shape := by
  unfold Router.handlerAt
  rw [Handle_trees hok]
  by_cases hm : m = m2
  · subst hm
    rw [mapGet_mapSet_same]
    simp only [true_and]
    rw [handlerAt_addSegments]
    unfold shapeOf pathSegments
    cases hg : mapGet r.trees m with
    | none => simp only [node.empty, handlerAt_fresh]
    | some root => rfl
  · rw [mapGet_mapSet_other _ _ _ _ (fun h => hm h.symm), if_neg (fun h => hm h.1)]

theorem handlerAt_registerAll_sound (regs : List (Registration H)) (r0 r : Router H)
    (hok : r0.registerAll regs = .ok r) (m : String) (shape : List Seg) (h : H)
    (hh : r.handlerAt m shape = some h) :
    r0.handlerAt m shape = some h ∨
      ∃ g ∈ regs, g.method = m ∧ shapeOf g.path = shape ∧ g.handler = some h := by
  induction regs generalizing r0 with
  | nil =>
    simp only [Router.registerAll] at hok
    cases hok
    exact Or.inl hh
  | cons g rest ih =>
    simp only [Router.registerAll] at hok
    cases hg : r0.Handle g.method g.path g.handler with
    | error e => rw [hg] at hok; cases hok
    | ok r1 =>
      rw [hg] at hok
      rcases ih r1 hok with h1 | ⟨g1, hg1, hrest⟩
      · rw [handlerAt_Handle hg] at h1
        split_ifs at h1 with hc
        · exact Or.inr ⟨g, List.mem_cons_self _ _, hc.1, hc.2, h1⟩
        · exact Or.inl h1
      · exact Or.inr ⟨g1, List.mem_cons_of_mem _ hg1, hrest⟩

theorem handlerAt_registerAll_complete (regs : List (Registration H))
    (hnn : ∀ g ∈ regs, g.handler ≠ none) (r0 r : Router H)
    (hok : r0.registerAll regs = .ok r) (m : String) (shape : List Seg)
    (hpre : r0.handlerAt m shape ≠ none ∨
      ∃ g ∈ regs, g.method = m ∧ shapeOf g.path = shape) :
    r.handlerAt m shape ≠ none := by
  induction regs generalizing r0 with
  | nil =>
    simp only [Router.registerAll] at hok
    cases hok
    rcases hpre with h1 | ⟨g, hg, _⟩
    · exact h1
    · cases hg
  | cons g rest ih =>
    simp only [Router.registerAll] at hok
    cases hg : r0.Handle g.method g.path g.handler with
    | error e => rw [hg] at hok; cases hok
    | ok r1 =>
      rw [hg] at hok
      have hnn1 : ∀ g1 ∈ rest, g1.handler ≠ none :=
        fun g1 h1 => hnn g1 (List.mem_cons_of_mem _ h1)
      have hgn := hnn g (List.mem_cons_self _ _)
      apply ih hnn1 r1 hok
      rcases hpre with h1 | ⟨g1, hg1, hm1, hs1⟩
      · left
        rw [handlerAt_Handle hg]
        split_ifs
        · exact hgn
        · exact h1
      · rcases List.mem_cons.mp hg1 with heq | hmem
        · subst heq
          left
          rw [handlerAt_Handle hg, if_pos ⟨hm1, hs1⟩]
          exact hgn
        · exact Or.inr ⟨g1, hmem, hm1, hs1⟩

theorem pathSegments_nonEmpty (p : String) : ∀ s ∈ pathSegments p, s ≠ "" := by
  intro s hs
  unfold pathSegments at hs
  simpa using (List.mem_filter.mp hs).2


/-- C29. Dispatch agrees with pattern matching. For a router built from a
new one by registrations with non-nil handlers, every method `m` and every
path: `findRoute` returns a handler exactly when some pattern registered under
`m` matches the non-empty segments of the path (static segment: the equal
segment; parameter: any one segment; final `*`: one or more remaining
segments); the handler returned was registered under `m` with a pattern that
matches the path, and the params returned are the bindings made by the
parameter nodes along the branch of that pattern in the tree of `m`. A shape
with `*` before its end matches no path, so nothing is assumed on where `*`
occurs. -/
theorem dispatch_agrees_with_matching (nf : H) (regs : List (Registration H))
    (r : Router H) (hreg : (New nf).registerAll regs = .ok r)
    (hnn : ∀ g ∈ regs, g.handler ≠ none) (m path : String) :
    ((∃ h, (r.findRoute m path).1 = some h) ↔
      ∃ g ∈ regs, g.method = m ∧
        shapeMatches (shapeOf g.path) (pathSegments path) = true) ∧
    (∀ h, (r.findRoute m path).1 = some h →
      ∃ g ∈ regs, ∃ root, g.method = m ∧ g.handler = some h ∧
        shapeMatches (shapeOf g.path) (pathSegments path) = true ∧
        mapGet r.trees m = some root ∧
        (r.findRoute m path).2 = bindAlong root (shapeOf g.path) (pathSegments path) []) := by
  have hnew : ∀ shape, (New nf).handlerAt m shape = none := fun _ => rfl
  have hsound : ∀ h, (r.findRoute m path).1 = some h →
      ∃ g ∈ regs, ∃ root, g.method = m ∧ g.handler = some h ∧
        shapeMatches (shapeOf g.path) (pathSegments path) = true ∧
        mapGet r.trees m = some root ∧
        (r.findRoute m path).2 =
          bindAlong root (shapeOf g.path) (pathSegments path) [] := by
    intro h hh
    rw [findRoute_pathSegments] at hh ⊢
    cases hroot : mapGet r.trees m with
    | none => rw [hroot] at hh; cases hh
    | some root =>
      rw [hroot] at hh
      simp only [] at hh ⊢
      cases hs : searchRoute root (pathSegments path) [] with
      | mk o p =>
        rw [hs] at hh
        simp only [] at hh
        subst hh
        obtain ⟨shape, hm, hat, hb⟩ :=
          searchRoute_sound _ (pathSegments_nonEmpty path) root [] h p hs
        have hr : r.handlerAt m shape = some h := by
          unfold Router.handlerAt
          rw [hroot]
          exact hat
        rcases handlerAt_registerAll_sound regs _ r hreg m shape h hr with h0 | ⟨g, hg, hgm, hgs, hgh⟩
        · rw [hnew] at h0; cases h0
        · subst hgs
          exact ⟨g, hg, root, hgm, hgh, hm, rfl, hb⟩
  refine ⟨⟨?_, ?_⟩, hsound⟩
  · rintro ⟨h, hh⟩
    obtain ⟨g, hg, _, hgm, _, hm, _⟩ := hsound h hh
    exact ⟨g, hg, hgm, hm⟩
  · rintro ⟨g, hg, hgm, hm⟩
    have hr : r.handlerAt m (shapeOf g.path) ≠ none :=
      handlerAt_registerAll_complete regs hnn _ r hreg m _ (Or.inr ⟨g, hg, hgm, rfl⟩)
    unfold Router.handlerAt at hr
    rw [findRoute_pathSegments]
    cases hroot : mapGet r.trees m with
    | none => rw [hroot] at hr; exact absurd rfl hr
    | some root =>
      rw [hroot] at hr
      simp only [] at hr ⊢
      cases hat : handlerAt root (shapeOf g.path) with
      | none => exact absurd hat hr
      | some h0 =>
        have hne := searchRoute_complete _ (pathSegments_nonEmpty path) root []
          (shapeOf g.path) h0 hm hat
        cases hs : (searchRoute root (pathSegments path) []).1 with
        | none => exact absurd hs hne
        | some h => exact ⟨h, rfl⟩

/-- Witness of C29: with `GET /users/:id`, `GET /files/*` and `POST /users`
registered, `GET /files/a/b` is dispatched, by the wildcard pattern. -/
theorem dispatch_agrees_with_matching_witness :
    (exampleRouter.findRoute "GET" "/files/a/b").1.isSome = true := by
  obtain ⟨h, hh⟩ :=
    (dispatch_agrees_with_matching 0 exampleRegs exampleRouter rfl
      (by
        intro g hg
        simp only [exampleRegs, List.mem_cons, List.mem_singleton, List.not_mem_nil,
          or_false] at hg
        rcases hg with hg | hg | hg <;> subst hg <;> simp)
      "GET" "/files/a/b").1.mpr
      ⟨⟨"GET", "/files/*", some 2⟩, by simp [exampleRegs], rfl, by decide⟩
  rw [hh]
  rfl

end router
